import Mathlib

/-!
Verification of the JSON-schema validation / normalization engine
(`js/data/json-schema.js`): a shallow embedding of `JsonSchemaValidator`,
`JsonSchemaProxyHandler`, `JsonSchemaTraversalInfo` and
`JsonSchemaValidationError`, together with theorems about the engine's
combinators, its normalization pass and its guarded mutation protocol.

Modelling conventions:
* JavaScript values are embedded as the inductive type `JValue`
  (null / boolean / number / string / array / object).  Numbers are
  embedded as rationals: the engine's arithmetic (`Math.floor`,
  comparisons, divisions) is exact on the rationals; IEEE-754 rounding is
  outside the model.
* Schemas are themselves `JValue`s (as in the source, where a schema is a
  plain object) and are inspected with `getProp`, mirroring JavaScript
  property access (`undefined` becomes `none`).
* JavaScript objects cannot carry duplicate keys; `jobj` field lists with
  duplicate keys are outside the image of real data, and all operations
  use consistent first-occurrence semantics for them.
* The host regular-expression engine (`new RegExp`) is not part of the
  repository; the validator is parametrized by an abstract `RegexEngine`,
  so every theorem below holds for an arbitrary engine.  The `CacheMap`
  regex cache only memoizes compilation and is semantically transparent,
  so `_getRegex` is modelled as a direct call to the engine.
-/

set_option linter.unusedVariables false

namespace JsonSchema

/-- JSON-like values (and schemas, which the source stores as plain
objects): null, booleans, numbers, strings, arrays and string-keyed
objects.  Object fields are kept as an ordered association list, matching
JavaScript property insertion order. -/
inductive JValue where
  | jnull
  | jbool (b : Bool)
  | jnum (q : Rat)
  | jstr (s : String)
  | jarr (elems : List JValue)
  | jobj (fields : List (String × JValue))

mutual

/-- Structural size of a value, used as the termination measure of the
recursive functions translated from the source. -/
def sizeJ : JValue → Nat
  | .jnull => 1
  | .jbool _ => 1
  | .jnum _ => 1
  | .jstr _ => 1
  | .jarr xs => 1 + sizeL xs
  | .jobj fs => 1 + sizeF fs

/-- Size of a list of values. -/
def sizeL : List JValue → Nat
  | [] => 0
  | x :: xs => 1 + sizeJ x + sizeL xs

/-- Size of an object field list. -/
def sizeF : List (String × JValue) → Nat
  | [] => 0
  | (_, v) :: fs => 1 + sizeJ v + sizeF fs

end

/-- First-occurrence lookup in an object field list: the JavaScript
property read `obj[key]`, with `none` standing for `undefined`. -/
def lookupField : List (String × JValue) → String → Option JValue
  | [], _ => none
  | (k', v) :: rest, k => if k' = k then some v else lookupField rest k

/-- JavaScript property read `schema.key` on a value: objects look the
field up, every other value has no own string-keyed data properties. -/
def getProp : JValue → String → Option JValue
  | .jobj fs, k => lookupField fs k
  | _, _ => none

/-- Whether an object has an own property (`hasOwnProperty`). -/
def hasField (fs : List (String × JValue)) (k : String) : Bool :=
  (lookupField fs k).isSome

/-- JavaScript property write `obj[key] = v`: replaces the (first)
existing binding in place, or appends a new binding at the end, matching
property insertion order. -/
def setField : List (String × JValue) → String → JValue → List (String × JValue)
  | [], k, v => [(k, v)]
  | (k', v') :: rest, k, v =>
      if k' = k then (k, v) :: rest else (k', v') :: setField rest k v

/-- JavaScript `delete obj[key]` (`Reflect.deleteProperty`): removes the
(first) binding with the given key. -/
def deleteField : List (String × JValue) → String → List (String × JValue)
  | [], _ => []
  | (k', v') :: rest, k =>
      if k' = k then rest else (k', v') :: deleteField rest k

/-- A property key as it reaches the engine: either an integer index
(array element positions, combinator member indices) or a string name. -/
inductive PKey where
  | nat (n : Nat)
  | str (s : String)

/-- JavaScript string coercion of a property key, as performed by
`properties[property]` when `property` is a number. -/
def keyToString : PKey → String
  | .nat n => toString n
  | .str s => s

/-- The `typeof`-based runtime type classification `_getValueType`
(json-schema.js:554-561): `none` is `undefined`; `null` and arrays are
carved out of `object`. -/
def getValueType : Option JValue → String
  | none => "undefined"
  | some .jnull => "null"
  | some (.jbool _) => "boolean"
  | some (.jnum _) => "number"
  | some (.jstr _) => "string"
  | some (.jarr _) => "array"
  | some (.jobj _) => "object"

/-- `_isValueType` (json-schema.js:547-552): a runtime type matches a
schema type name if they are equal, or if the schema asks for `integer`
and the value is a number whose floor equals itself (`Math.floor(value)
=== value` is false for every non-number value). -/
def isValueType (v : JValue) (t schemaType : String) : Bool :=
  t == schemaType ||
    (schemaType == "integer" &&
      match v with
      | .jnum q => ((q.floor : Rat) == q)
      | _ => false)

/-- `_isValueTypeAny` (json-schema.js:533-545): `schema.type` may be a
single type-name string, a list of candidates (any match suffices;
non-string list members never match), or anything else, which constrains
nothing. -/
def isValueTypeAny (v : JValue) (t : String) (schemaTypes : Option JValue) : Bool :=
  match schemaTypes with
  | some (.jstr st) => isValueType v t st
  | some (.jarr l) =>
      l.any fun m =>
        match m with
        | .jstr st => isValueType v t st
        | _ => false
  | _ => true

/-- JavaScript strict equality `===` as used by `_valuesAreEqual`
(json-schema.js:572-574) on engine data: primitives compare by value;
arrays and objects compare by reference, and the schema's `const`/`enum`
members are distinct allocations from the candidate value, so composite
comparisons are `false` (spec §3: two structurally equal but distinct
objects/arrays are not considered equal). -/
def jsStrictEq : JValue → JValue → Bool
  | .jnull, .jnull => true
  | .jbool a, .jbool b => a == b
  | .jnum a, .jnum b => a == b
  | .jstr a, .jstr b => a == b
  | _, _ => false

/-- `_valuesAreEqualAny` (json-schema.js:563-570). -/
def valuesAreEqualAny (v : JValue) (l : List JValue) : Bool :=
  l.any (jsStrictEq v)

/-- `_getSchemaOrValueType` (json-schema.js:223-244): the effective type
used by the schema navigator.  A list-valued `type` picks the member
equal to the value's runtime type; an absent `type` infers from the
value; a `type` that is neither a string nor a list behaves like the
`switch` default in the only consumer, hence `none`. -/
def getSchemaOrValueType (s : JValue) (v : Option JValue) : Option String :=
  match getProp s "type" with
  | some (.jarr l) =>
      match v with
      | some vv =>
          let vt := getValueType (some vv)
          if l.any (fun m => match m with | .jstr st => st == vt | _ => false)
            then some vt else none
      | none => none
  | some (.jstr t) => some t
  | some _ => none
  | none =>
      match v with
      | some vv => some (getValueType (some vv))
      | none => none

/-- The frozen always-matching empty schema singleton
`JsonSchemaValidator.unconstrainedSchema` (json-schema.js:718-723). -/
def unconstrainedSchema : JValue := .jobj []

/-- Whether a string is entirely decimal digits (the proxy handler's
`/^\d+$/` test). -/
def isDigits (s : String) : Bool :=
  s.length != 0 && s.toList.all Char.isDigit

/-- Numeric value of a digits-only string (`parseInt(property, 10)` on a
`/^\d+$/` match; the model is exact where IEEE-754 parseInt rounds). -/
def digitsToNat (s : String) : Nat :=
  s.toList.foldl (fun acc c => acc * 10 + (c.toNat - 48)) 0

/-- Whether a digit string is a canonical array index: JavaScript array
element access `items[property]` with a string key hits an element
exactly when the key is the canonical decimal form of an index (so
`"01"` reads no element even though `Number("01") = 1`). -/
def isCanonicalIndex (s : String) : Bool :=
  isDigits s && (s == "0" || !(s.startsWith "0"))

/-- JavaScript element read `items[property]` for the keys the engine
uses: an integer index reads positionally; a string key reads an element
only in canonical-index form. -/
def jsArrayIndex (xs : List JValue) : PKey → Option JValue
  | .nat n => xs.get? n
  | .str s => if isCanonicalIndex s then xs.get? (digitsToNat s) else none

/-- One traversal-trail entry: a key (or `null` at the root / for the
unconstrained sentinel) paired with the value or schema at that step. -/
abbrev PathEntry := Option PKey × JValue

/-- The `additionalProperties` fallback of `_getPropertySchema`
(json-schema.js:178-188): `false` disallows, an object schema applies,
anything else yields the unconstrained sentinel. -/
def additionalPropsFallback (s : JValue) : Option (JValue × List PathEntry) :=
  match getProp s "additionalProperties" with
  | some (.jbool false) => none
  | some (.jobj f) =>
      some (.jobj f, [(some (.str "additionalProperties"), .jobj f)])
  | _ => some (unconstrainedSchema, [(none, unconstrainedSchema)])

/-- The `additionalItems` fallback of `_getPropertySchema`
(json-schema.js:206-216), analogous to `additionalPropsFallback`. -/
def additionalItemsFallback (s : JValue) : Option (JValue × List PathEntry) :=
  match getProp s "additionalItems" with
  | some (.jbool false) => none
  | some (.jobj f) =>
      some (.jobj f, [(some (.str "additionalItems"), .jobj f)])
  | _ => some (unconstrainedSchema, [(none, unconstrainedSchema)])

/-- `_getPropertySchema` (json-schema.js:164-221): resolves the
sub-schema governing one property of a value, together with the trail
entries the caller is asked to push (the `path` output parameter).
Returns `none` when the key is structurally disallowed.  Note that the
single-object `items` form returns without recording any trail entry,
exactly as the source's early `return items`. -/
def getPropertySchemaWith (s : JValue) (key : PKey) (v : Option JValue) :
    Option (JValue × List PathEntry) :=
  match getSchemaOrValueType s v with
  | some "object" =>
      match getProp s "properties" with
      | some (.jobj pf) =>
          match lookupField pf (keyToString key) with
          | some (.jobj psf) =>
              some (.jobj psf,
                [(some (.str "properties"), .jobj pf), (some key, .jobj psf)])
          | _ => additionalPropsFallback s
      | _ => additionalPropsFallback s
  | some "array" =>
      match getProp s "items" with
      | some (.jobj f) => some (.jobj f, [])
      | some (.jarr itemList) =>
          match jsArrayIndex itemList key with
          | some (.jobj psf) =>
              some (.jobj psf,
                [(some (.str "items"), .jarr itemList), (some key, .jobj psf)])
          | _ => additionalItemsFallback s
      | _ => additionalItemsFallback s
  | _ => none

/-- The public `getPropertySchema` entry point (json-schema.js:154-156),
which requests no trail recording. -/
def getPropertySchema (s : JValue) (key : PKey) (v : Option JValue) : Option JValue :=
  (getPropertySchemaWith s key v).map Prod.fst

/-! Size facts used by the termination arguments. -/

theorem sizeJ_pos (v : JValue) : 1 ≤ sizeJ v := by
  cases v <;> simp [sizeJ]

theorem lookupField_size {fs : List (String × JValue)} {k : String} {x : JValue}
    (h : lookupField fs k = some x) : sizeJ x + 1 ≤ sizeF fs := by
  induction fs with
  | nil => simp [lookupField] at h
  | cons p rest ih =>
    obtain ⟨k', v⟩ := p
    simp only [lookupField] at h
    by_cases hk : k' = k
    · simp only [if_pos hk] at h
      cases h
      simp [sizeF]; omega
    · simp only [if_neg hk] at h
      have := ih h
      simp [sizeF]; omega

theorem getProp_size {s : JValue} {k : String} {x : JValue}
    (h : getProp s k = some x) : sizeJ x + 2 ≤ sizeJ s := by
  cases s <;> simp [getProp] at h
  case jobj fs =>
    have := lookupField_size h
    simp [sizeJ]; omega

theorem get?_size {xs : List JValue} {n : Nat} {x : JValue}
    (h : xs.get? n = some x) : sizeJ x + 1 ≤ sizeL xs := by
  induction xs generalizing n with
  | nil => simp at h
  | cons y rest ih =>
    cases n with
    | zero => simp at h; cases h; simp [sizeL]; omega
    | succ m =>
      simp only [List.get?_cons_succ] at h
      have := ih h
      simp [sizeL]; omega

theorem jsArrayIndex_size {xs : List JValue} {key : PKey} {x : JValue}
    (h : jsArrayIndex xs key = some x) : sizeJ x + 1 ≤ sizeL xs := by
  cases key with
  | nat n => exact get?_size h
  | str s =>
    simp only [jsArrayIndex] at h
    split at h
    · exact get?_size h
    · cases h

theorem additionalPropsFallback_size {s : JValue} {sc : JValue} {path : List PathEntry}
    (h : additionalPropsFallback s = some (sc, path)) :
    sizeJ sc < sizeJ s ∨ sc = unconstrainedSchema := by
  unfold additionalPropsFallback at h
  split at h
  · cases h
  · cases h
    rename_i f heq
    exact Or.inl (lt_of_lt_of_le (by omega) (getProp_size heq))
  · cases h; right; rfl

theorem additionalItemsFallback_size {s : JValue} {sc : JValue} {path : List PathEntry}
    (h : additionalItemsFallback s = some (sc, path)) :
    sizeJ sc < sizeJ s ∨ sc = unconstrainedSchema := by
  unfold additionalItemsFallback at h
  split at h
  · cases h
  · cases h
    rename_i f heq
    exact Or.inl (lt_of_lt_of_le (by omega) (getProp_size heq))
  · cases h; right; rfl

theorem getPropertySchemaWith_size {s : JValue} {key : PKey} {v : Option JValue}
    {sc : JValue} {path : List PathEntry}
    (h : getPropertySchemaWith s key v = some (sc, path)) :
    sizeJ sc < sizeJ s ∨ sc = unconstrainedSchema := by
  unfold getPropertySchemaWith at h
  split at h
  · -- effective type "object"
    split at h
    · split at h
      · cases h
        rename_i pf hprops x2 psf hfield
        have h1 := lookupField_size hfield
        have h2 := getProp_size hprops
        left
        simp [sizeJ] at h1 h2 ⊢
        omega
      · exact additionalPropsFallback_size h
    · exact additionalPropsFallback_size h
  · -- effective type "array"
    split at h
    · cases h
      rename_i f heq
      exact Or.inl (lt_of_lt_of_le (by omega) (getProp_size heq))
    · split at h
      · cases h
        rename_i itemList hitems x2 psf hidx
        have h1 := jsArrayIndex_size hidx
        have h2 := getProp_size hitems
        left
        simp [sizeJ] at h1 h2 ⊢
        omega
      · exact additionalItemsFallback_size h
    · exact additionalItemsFallback_size h
  · cases h

/-- `JsonSchemaTraversalInfo` (json-schema.js:725-748): two parallel
trails of `(key-or-null, value)` and `(key-or-null, schema)` entries,
ordered root-first; `push` appends at the end and `pop` drops the last
entry, as the JavaScript array operations do. -/
structure TraversalInfo where
  valuePath : List PathEntry
  schemaPath : List PathEntry

/-- `valuePush` (json-schema.js:733-735). -/
def valuePush (info : TraversalInfo) (p : Option PKey) (v : JValue) : TraversalInfo :=
  { info with valuePath := info.valuePath ++ [(p, v)] }

/-- `valuePop` (json-schema.js:737-739). -/
def valuePop (info : TraversalInfo) : TraversalInfo :=
  { info with valuePath := info.valuePath.dropLast }

/-- `schemaPush` (json-schema.js:741-743). -/
def schemaPush (info : TraversalInfo) (p : Option PKey) (x : JValue) : TraversalInfo :=
  { info with schemaPath := info.schemaPath ++ [(p, x)] }

/-- `schemaPop` (json-schema.js:745-747). -/
def schemaPop (info : TraversalInfo) : TraversalInfo :=
  { info with schemaPath := info.schemaPath.dropLast }

/-- The `for (const [p, s] of schemaPath) info.schemaPush(p, s)` loops in
`_validateArray` / `_validateObject` (json-schema.js:466,525). -/
def schemaPushList (info : TraversalInfo) (entries : List PathEntry) : TraversalInfo :=
  { info with schemaPath := info.schemaPath ++ entries }

/-- The matching `for (...) info.schemaPop()` loops
(json-schema.js:470,529): `n` successive pops. -/
def schemaPopN (info : TraversalInfo) (n : Nat) : TraversalInfo :=
  { info with schemaPath := info.schemaPath.take (info.schemaPath.length - n) }

/-- The constructor `new JsonSchemaTraversalInfo(value, schema)`
(json-schema.js:726-731): both trails start with a root entry keyed by
`null`. -/
def initInfo (value schema : JValue) : TraversalInfo :=
  ⟨[(none, value)], [(none, schema)]⟩

/-- `JsonSchemaValidationError` (json-schema.js:750-757): message plus the
offending value, the offending schema and the traversal info as it stood
at the throw. -/
structure ValidationError where
  message : String
  value : JValue
  schema : JValue
  info : TraversalInfo

/-- Outcome of one validation call: the traversal info after a successful
return, or the thrown `ValidationError`. -/
abbrev VResult := Except ValidationError TraversalInfo

/-- Abstract host regular-expression facility standing for
`new RegExp(pattern, flags)` plus `regex.test` (json-schema.js:707-715).
Compilation may fail with a message (a thrown `SyntaxError`); the
`CacheMap` in `_getRegex` only memoizes compilation, so it is
semantically transparent and not modelled.  All theorems hold for every
engine. -/
structure RegexEngine where
  compile : String → String → Except String (String → Bool)

/-- JavaScript template-literal display of a schema-supplied value inside
an error message (approximate where the source would print IEEE-754
numbers or nested composites; no claim depends on these messages). -/
def jsDisplay : JValue → String
  | .jstr t => t
  | .jnull => "null"
  | .jbool b => if b then "true" else "false"
  | .jnum q => toString q
  | .jarr _ => "?"
  | .jobj _ => "[object Object]"

/-- Display of `schema.type` inside the type-mismatch message
(`String(undefined) = "undefined"`, arrays join with commas). -/
def typeDisplay : Option JValue → String
  | none => "undefined"
  | some (.jarr l) => String.intercalate "," (l.map jsDisplay)
  | some m => jsDisplay m

/-- `_validateNumber` (json-schema.js:388-413).  The checks run in source
order: `multipleOf`, `minimum`, `exclusiveMinimum`, `maximum`,
`exclusiveMaximum`; each applies only when the schema field is a number.
For `multipleOf: 0` the source computes `Math.floor(value / 0) * 0`,
which is `NaN` and never strictly equals `value`, so the check always
throws; the embedding makes that case explicit because rational division
by zero would otherwise yield `0`. -/
def validateNumber (q : Rat) (s : JValue) (info : TraversalInfo) : VResult :=
  let k4 : VResult :=
    match getProp s "exclusiveMaximum" with
    | some (.jnum m) =>
        if m ≤ q then .error ⟨s!"Number is greater than or equal to {m}", .jnum q, s, info⟩
        else .ok info
    | _ => .ok info
  let k3 : VResult :=
    match getProp s "maximum" with
    | some (.jnum m) =>
        if m < q then .error ⟨s!"Number is greater than {m}", .jnum q, s, info⟩
        else k4
    | _ => k4
  let k2 : VResult :=
    match getProp s "exclusiveMinimum" with
    | some (.jnum m) =>
        if q ≤ m then .error ⟨s!"Number is less than or equal to {m}", .jnum q, s, info⟩
        else k3
    | _ => k3
  let k1 : VResult :=
    match getProp s "minimum" with
    | some (.jnum m) =>
        if q < m then .error ⟨s!"Number is less than {m}", .jnum q, s, info⟩
        else k2
    | _ => k2
  match getProp s "multipleOf" with
  | some (.jnum m) =>
      if m = 0 ∨ ((q / m).floor : Rat) * m ≠ q then
        .error ⟨s!"Number is not a multiple of {m}", .jnum q, s, info⟩
      else k1
  | _ => k1

/-- `_validateString` (json-schema.js:415-442): `minLength`, `maxLength`
(the model counts characters where JavaScript counts UTF-16 code units;
they agree on the basic plane), then `pattern` compiled with
`patternFlags` (non-string flags are replaced by `""`); a compilation
failure is itself a validation failure embedding the compiler's
message. -/
def validateString (re : RegexEngine) (str : String) (s : JValue) (info : TraversalInfo) : VResult :=
  let k2 : VResult :=
    match getProp s "pattern" with
    | some (.jstr p) =>
        let flags := match getProp s "patternFlags" with
          | some (.jstr f) => f
          | _ => ""
        match re.compile p flags with
        | .error msg => .error ⟨s!"Pattern is invalid ({msg})", .jstr str, s, info⟩
        | .ok test =>
            if test str then .ok info
            else .error ⟨"Pattern match failed", .jstr str, s, info⟩
    | _ => .ok info
  let k1 : VResult :=
    match getProp s "maxLength" with
    | some (.jnum m) =>
        if (str.length : Rat) > m then .error ⟨"String length too long", .jstr str, s, info⟩
        else k2
    | _ => k2
  match getProp s "minLength" with
  | some (.jnum m) =>
      if (str.length : Rat) < m then .error ⟨"String length too short", .jstr str, s, info⟩
      else k1
  | _ => k1

/-- The `required` scan of `_validateObject` (json-schema.js:497-504):
walk the required list in order and return the first member that is not
an own property name of the value.  A non-string member is never in the
name set (`Set.has` uses strict equality against string names), so it is
always reported missing. -/
def findMissingRequired (fs : List (String × JValue)) : List JValue → Option JValue
  | [] => none
  | m :: rest =>
      match m with
      | .jstr st => if hasField fs st then findMissingRequired fs rest else some m
      | _ => some m

theorem sizeJ_head_lt_jarr (m : JValue) (rest : List JValue) :
    sizeJ m < sizeJ (.jarr (m :: rest)) := by
  have := sizeJ_pos m
  simp only [sizeJ, sizeL]
  omega

theorem sizeJ_tail_lt_jarr (m : JValue) (rest : List JValue) :
    sizeJ (.jarr rest) < sizeJ (.jarr (m :: rest)) := by
  have := sizeJ_pos m
  simp only [sizeJ, sizeL]
  omega

theorem sizeJ_fst_lt_jobj (k : String) (x : JValue) (rest : List (String × JValue)) :
    sizeJ x < sizeJ (.jobj ((k, x) :: rest)) := by
  have := sizeJ_pos x
  simp only [sizeJ, sizeF]
  omega

theorem sizeJ_tail_lt_jobj (k : String) (x : JValue) (rest : List (String × JValue)) :
    sizeJ (.jobj rest) < sizeJ (.jobj ((k, x) :: rest)) := by
  have := sizeJ_pos x
  simp only [sizeJ, sizeF]
  omega

mutual

/-- `_validate` (json-schema.js:246-253): the six clause groups run in
order against the same node; the first thrown error propagates and skips
the rest. -/
def jvalidate (re : RegexEngine) (v s : JValue) (info : TraversalInfo) : VResult :=
  match validateSingleSchema re v s info with
  | .error e => .error e
  | .ok i1 =>
  match validateConditional re v s i1 with
  | .error e => .error e
  | .ok i2 =>
  match validateAllOf re v s i2 with
  | .error e => .error e
  | .ok i3 =>
  match validateAnyOf re v s i3 with
  | .error e => .error e
  | .ok i4 =>
  match validateOneOf re v s i4 with
  | .error e => .error e
  | .ok i5 => validateNoneOf re v s i5
  termination_by (sizeJ v, sizeJ s, 9, 0)
  decreasing_by
    all_goals (apply Prod.Lex.right; apply Prod.Lex.right; apply Prod.Lex.left; omega)

/-- `_validateSingleSchema` (json-schema.js:355-386): type check, `const`
check, `enum` check, then the type-directed structural checks. -/
def validateSingleSchema (re : RegexEngine) (v s : JValue) (info : TraversalInfo) : VResult :=
  let t := getValueType (some v)
  if ¬ isValueTypeAny v t (getProp s "type") then
    let td := typeDisplay (getProp s "type")
    .error ⟨s!"Value type {t} does not match schema type {td}", v, s, info⟩
  else if (match getProp s "const" with
      | some c => !(jsStrictEq v c)
      | none => false) then
    .error ⟨"Invalid constant value", v, s, info⟩
  else if (match getProp s "enum" with
      | some (.jarr l) => !(valuesAreEqualAny v l)
      | _ => false) then
    .error ⟨"Invalid enum value", v, s, info⟩
  else
    match v with
    | .jnum q => validateNumber q s info
    | .jstr str => validateString re str s info
    | .jarr xs => validateArray re xs s info
    | .jobj fs => validateObject re fs s info
    | _ => .ok info
  termination_by (sizeJ v, sizeJ s, 8, 0)
  decreasing_by
    all_goals (apply Prod.Lex.right; apply Prod.Lex.right; apply Prod.Lex.left; omega)

/-- `_validateConditional` (json-schema.js:255-274): validate the pushed
`if` schema absorbing its failure, pop once (from the state left behind
by the inner call, including any frames an inner throw did not unwind),
then validate `then` on success or `else` on failure when that branch is
an object. -/
def validateConditional (re : RegexEngine) (v s : JValue) (info : TraversalInfo) : VResult :=
  match hif : getProp s "if" with
  | some (.jobj f) =>
      match jvalidate re v (.jobj f) (schemaPush info (some (.str "if")) (.jobj f)) with
      | .ok i2 =>
          let i3 := schemaPop i2
          match hthen : getProp s "then" with
          | some (.jobj g) =>
              match jvalidate re v (.jobj g) (schemaPush i3 (some (.str "then")) (.jobj g)) with
              | .ok i4 => .ok (schemaPop i4)
              | .error e => .error e
          | _ => .ok i3
      | .error e1 =>
          let i3 := schemaPop e1.info
          match helse : getProp s "else" with
          | some (.jobj g) =>
              match jvalidate re v (.jobj g) (schemaPush i3 (some (.str "else")) (.jobj g)) with
              | .ok i4 => .ok (schemaPop i4)
              | .error e => .error e
          | _ => .ok i3
  | _ => .ok info
  termination_by (sizeJ v, sizeJ s, 5, 0)
  decreasing_by
    all_goals (apply Prod.Lex.right; apply Prod.Lex.left
               first
               | (have h := getProp_size hif
                  omega)
               | (have h := getProp_size hthen
                  omega)
               | (have h := getProp_size helse
                  omega))

/-- `_validateAllOf` (json-schema.js:276-288). -/
def validateAllOf (re : RegexEngine) (v s : JValue) (info : TraversalInfo) : VResult :=
  match hall : getProp s "allOf" with
  | some (.jarr l) =>
      allOfLoop re v l 0 (schemaPush info (some (.str "allOf")) (.jarr l))
  | _ => .ok info
  termination_by (sizeJ v, sizeJ s, 4, 0)
  decreasing_by
    all_goals (apply Prod.Lex.right; apply Prod.Lex.left
               have := getProp_size hall; omega)

/-- Loop body of `_validateAllOf` (json-schema.js:281-286): push the
member index, validate, pop; the first member failure propagates without
popping. -/
def allOfLoop (re : RegexEngine) (v : JValue) (rem : List JValue) (i : Nat)
    (info : TraversalInfo) : VResult :=
  match rem with
  | [] => .ok (schemaPop info)
  | m :: rest =>
      match jvalidate re v m (schemaPush info (some (.nat i)) m) with
      | .ok i2 => allOfLoop re v rest (i + 1) (schemaPop i2)
      | .error e => .error e
  termination_by (sizeJ v, sizeJ (.jarr rem), 0, 0)
  decreasing_by
    all_goals (apply Prod.Lex.right; apply Prod.Lex.left
               first
               | exact sizeJ_head_lt_jarr _ _
               | exact sizeJ_tail_lt_jarr _ _)

/-- `_validateAnyOf` (json-schema.js:290-309): members are tried in
order; the first success returns immediately, leaving the `anyOf` frame
and the member frame pushed (the source's early `return` skips both
pops); a member failure is absorbed and one frame is popped from the
state at the throw.  If no member matches, the node fails with
`0 anyOf schemas matched` on the un-popped state. -/
def validateAnyOf (re : RegexEngine) (v s : JValue) (info : TraversalInfo) : VResult :=
  match hany : getProp s "anyOf" with
  | some (.jarr l) =>
      anyOfLoop re v s l 0 (schemaPush info (some (.str "anyOf")) (.jarr l))
  | _ => .ok info
  termination_by (sizeJ v, sizeJ s, 3, 0)
  decreasing_by
    · apply Prod.Lex.right; apply Prod.Lex.left
      have := getProp_size hany; omega

/-- Loop body of `_validateAnyOf` (json-schema.js:295-307). -/
def anyOfLoop (re : RegexEngine) (v s : JValue) (rem : List JValue) (i : Nat)
    (info : TraversalInfo) : VResult :=
  match rem with
  | [] => .error ⟨"0 anyOf schemas matched", v, s, info⟩
  | m :: rest =>
      match jvalidate re v m (schemaPush info (some (.nat i)) m) with
      | .ok i2 => .ok i2
      | .error e => anyOfLoop re v s rest (i + 1) (schemaPop e.info)
  termination_by (sizeJ v, sizeJ (.jarr rem), 0, 0)
  decreasing_by
    all_goals (apply Prod.Lex.right; apply Prod.Lex.left
               first
               | exact sizeJ_head_lt_jarr _ _
               | exact sizeJ_tail_lt_jarr _ _)

/-- `_validateOneOf` (json-schema.js:311-334): every member is tried with
its failure absorbed, successes are counted, and the node succeeds
exactly when the count is `1`, otherwise throwing a message naming the
count (with the `oneOf` frame still pushed, as the final pop sits after
the throw in the source). -/
def validateOneOf (re : RegexEngine) (v s : JValue) (info : TraversalInfo) : VResult :=
  match hone : getProp s "oneOf" with
  | some (.jarr l) =>
      oneOfLoop re v s l 0 0 (schemaPush info (some (.str "oneOf")) (.jarr l))
  | _ => .ok info
  termination_by (sizeJ v, sizeJ s, 2, 0)
  decreasing_by
    · apply Prod.Lex.right; apply Prod.Lex.left
      have := getProp_size hone; omega

/-- Loop body of `_validateOneOf` (json-schema.js:316-333). -/
def oneOfLoop (re : RegexEngine) (v s : JValue) (rem : List JValue) (i count : Nat)
    (info : TraversalInfo) : VResult :=
  match rem with
  | [] =>
      if count ≠ 1 then .error ⟨s!"{count} oneOf schemas matched", v, s, info⟩
      else .ok (schemaPop info)
  | m :: rest =>
      match jvalidate re v m (schemaPush info (some (.nat i)) m) with
      | .ok i2 => oneOfLoop re v s rest (i + 1) (count + 1) (schemaPop i2)
      | .error e => oneOfLoop re v s rest (i + 1) count (schemaPop e.info)
  termination_by (sizeJ v, sizeJ (.jarr rem), 0, 0)
  decreasing_by
    all_goals (apply Prod.Lex.right; apply Prod.Lex.left
               first
               | exact sizeJ_head_lt_jarr _ _
               | exact sizeJ_tail_lt_jarr _ _)

/-- `_validateNoneOf` (json-schema.js:336-353): every listed schema must
fail; the first member that validates triggers a failure naming its
index (on the state the successful member validation left behind); a
member failure pops one frame from the state at the throw and
continues. -/
def validateNoneOf (re : RegexEngine) (v s : JValue) (info : TraversalInfo) : VResult :=
  match hnot : getProp s "not" with
  | some (.jarr l) =>
      noneOfLoop re v s l 0 (schemaPush info (some (.str "not")) (.jarr l))
  | _ => .ok info
  termination_by (sizeJ v, sizeJ s, 1, 0)
  decreasing_by
    · apply Prod.Lex.right; apply Prod.Lex.left
      have := getProp_size hnot; omega

/-- Loop body of `_validateNoneOf` (json-schema.js:341-352). -/
def noneOfLoop (re : RegexEngine) (v s : JValue) (rem : List JValue) (i : Nat)
    (info : TraversalInfo) : VResult :=
  match rem with
  | [] => .ok (schemaPop info)
  | m :: rest =>
      match jvalidate re v m (schemaPush info (some (.nat i)) m) with
      | .ok i2 => .error ⟨s!"not[{i}] schema matched", v, s, i2⟩
      | .error e => noneOfLoop re v s rest (i + 1) (schemaPop e.info)
  termination_by (sizeJ v, sizeJ (.jarr rem), 0, 0)
  decreasing_by
    all_goals (apply Prod.Lex.right; apply Prod.Lex.left
               first
               | exact sizeJ_head_lt_jarr _ _
               | exact sizeJ_tail_lt_jarr _ _)

/-- `_validateArray` (json-schema.js:444-472): `minItems` and `maxItems`
length checks, the `contains` clause, then per-element resolution and
recursive validation. -/
def validateArray (re : RegexEngine) (xs : List JValue) (s : JValue)
    (info : TraversalInfo) : VResult :=
  if (match getProp s "minItems" with
      | some (.jnum m) => decide ((xs.length : Rat) < m)
      | _ => false) then
    .error ⟨"Array length too short", .jarr xs, s, info⟩
  else if (match getProp s "maxItems" with
      | some (.jnum m) => decide ((xs.length : Rat) > m)
      | _ => false) then
    .error ⟨"Array length too long", .jarr xs, s, info⟩
  else
    match validateArrayContains re xs s info with
    | .error e => .error e
    | .ok i1 => arrayElemsLoop re xs s xs 0 i1
  termination_by (sizeJ (.jarr xs), sizeJ s, 7, 0)
  decreasing_by
    all_goals (apply Prod.Lex.right; apply Prod.Lex.right; apply Prod.Lex.left; omega)

/-- `_validateArrayContains` (json-schema.js:474-492): push the
`contains` schema, try each element in order; a success pops the schema
frame and returns with the element's value frame left pushed (the
source's `return` skips `valuePop`); an element failure pops one value
frame from the state at the throw; exhaustion fails on the state with
the `contains` frame still pushed. -/
def validateArrayContains (re : RegexEngine) (xs : List JValue) (s : JValue)
    (info : TraversalInfo) : VResult :=
  match hcont : getProp s "contains" with
  | some (.jobj f) =>
      containsLoop re xs s (.jobj f) xs 0
        (schemaPush info (some (.str "contains")) (.jobj f))
  | _ => .ok info
  termination_by (sizeJ (.jarr xs), sizeJ s, 6, 0)
  decreasing_by
    all_goals (apply Prod.Lex.right; apply Prod.Lex.right; apply Prod.Lex.left; omega)

/-- Loop body of `_validateArrayContains` (json-schema.js:479-490). -/
def containsLoop (re : RegexEngine) (xs : List JValue) (s cs : JValue)
    (pending : List JValue) (i : Nat) (info : TraversalInfo) : VResult :=
  match pending with
  | [] => .error ⟨"contains schema didn\x27t match", .jarr xs, s, info⟩
  | x :: rest =>
      match jvalidate re x cs (valuePush info (some (.nat i)) x) with
      | .ok i2 => .ok (schemaPop i2)
      | .error e => containsLoop re xs s cs rest (i + 1) (valuePop e.info)
  termination_by (sizeJ (.jarr pending), sizeJ s, 1, 0)
  decreasing_by
    all_goals (apply Prod.Lex.left
               first
               | exact sizeJ_head_lt_jarr _ _
               | exact sizeJ_tail_lt_jarr _ _)

/-- Per-element loop of `_validateArray` (json-schema.js:457-471): each
index resolves its sub-schema (a failure to resolve throws `No schema
found for array[i]`), the resolution's trail entries and the element are
pushed, the element is validated, and the pushes are undone in reverse;
an element failure propagates without unwinding. -/
def arrayElemsLoop (re : RegexEngine) (xs : List JValue) (s : JValue)
    (pending : List JValue) (i : Nat) (info : TraversalInfo) : VResult :=
  match pending with
  | [] => .ok info
  | x :: rest =>
      match getPropertySchemaWith s (.nat i) (some (.jarr xs)) with
      | none => .error ⟨s!"No schema found for array[{i}]", .jarr xs, s, info⟩
      | some (psc, spath) =>
          match jvalidate re x psc (valuePush (schemaPushList info spath) (some (.nat i)) x) with
          | .ok i2 => arrayElemsLoop re xs s rest (i + 1) (schemaPopN (valuePop i2) spath.length)
          | .error e => .error e
  termination_by (sizeJ (.jarr pending), sizeJ s, 0, 0)
  decreasing_by
    all_goals (apply Prod.Lex.left
               first
               | exact sizeJ_head_lt_jarr _ _
               | exact sizeJ_tail_lt_jarr _ _)

/-- `_validateObject` (json-schema.js:494-531): the `required` scan
throws on the first missing name; `minProperties` / `maxProperties` read
`properties.length` on a `Set`, which is `undefined`, so `undefined <
minProperties` and `undefined > maxProperties` are both false and
neither check can ever throw — the embedding therefore performs no
count check; then every own property resolves its sub-schema and is
recursively validated. -/
def validateObject (re : RegexEngine) (fs : List (String × JValue)) (s : JValue)
    (info : TraversalInfo) : VResult :=
  match findMissingRequired fs (match getProp s "required" with
      | some (.jarr l) => l
      | _ => []) with
  | some m =>
      let d := jsDisplay m
      .error ⟨s!"Missing property {d}", .jobj fs, s, info⟩
  | none => objPropsLoop re fs s fs info
  termination_by (sizeJ (.jobj fs), sizeJ s, 7, 0)
  decreasing_by
    all_goals (apply Prod.Lex.right; apply Prod.Lex.right; apply Prod.Lex.left; omega)

/-- Per-property loop of `_validateObject` (json-schema.js:516-530),
iterating the value's own properties in order. -/
def objPropsLoop (re : RegexEngine) (fs : List (String × JValue)) (s : JValue)
    (pending : List (String × JValue)) (info : TraversalInfo) : VResult :=
  match pending with
  | [] => .ok info
  | (k, x) :: rest =>
      match getPropertySchemaWith s (.str k) (some (.jobj fs)) with
      | none => .error ⟨s!"No schema found for {k}", .jobj fs, s, info⟩
      | some (psc, spath) =>
          match jvalidate re x psc (valuePush (schemaPushList info spath) (some (.str k)) x) with
          | .ok i2 => objPropsLoop re fs s rest (schemaPopN (valuePop i2) spath.length)
          | .error e => .error e
  termination_by (sizeJ (.jobj pending), sizeJ s, 0, 0)
  decreasing_by
    all_goals (apply Prod.Lex.left
               first
               | exact sizeJ_fst_lt_jobj _ _ _
               | exact sizeJ_tail_lt_jobj _ _ _)

end

/-- The public `validate` (json-schema.js:144-147): runs `_validate` on a
fresh traversal info rooted at the value and schema. -/
def validate (re : RegexEngine) (v s : JValue) : VResult :=
  jvalidate re v s (initInfo v s)

/-- `isValid` (json-schema.js:135-142): collapses the outcome to a
boolean. -/
def isValid (re : RegexEngine) (v s : JValue) : Bool :=
  (validate re v s).isOk

/-- Modelled from the spec: the source calls a global `clone` helper
(defined outside the bundled files) to deep-copy schema defaults and
written values; spec §4.3 and §4.4 describe it as a deep copy.  On
immutable embedded values a deep copy is the value itself — the copy
exists to break object identity, which a value semantics does not
track. -/
def clone (v : JValue) : JValue := v

/-- `_getDefaultTypeValue` (json-schema.js:576-595): the canonical zero
value per type-name string; a non-string or unknown `type` yields
`null`. -/
def getDefaultTypeValue (t : Option JValue) : JValue :=
  match t with
  | some (.jstr st) =>
      if st == "null" then .jnull
      else if st == "boolean" then .jbool false
      else if st == "number" then .jnum 0
      else if st == "integer" then .jnum 0
      else if st == "string" then .jstr ""
      else if st == "array" then .jarr []
      else if st == "object" then .jobj []
      else .jnull
  | _ => .jnull

/-- `_getDefaultSchemaValue` (json-schema.js:597-606): a deep copy of
`schema.default` when that default's own runtime type matches
`schema.type`, else the canonical zero value. -/
def getDefaultSchemaValue (s : JValue) : JValue :=
  match getProp s "default" with
  | some d =>
      if isValueTypeAny d (getValueType (some d)) (getProp s "type") then clone d
      else getDefaultTypeValue (getProp s "type")
  | none => getDefaultTypeValue (getProp s "type")

/-- The replacement step at the head of `_getValidValueOrDefault`
(json-schema.js:609-613): an absent value, or one whose runtime type
does not match `schema.type`, is replaced by the schema's default
value. -/
def substValue (s : JValue) (v : Option JValue) : JValue :=
  match v with
  | none => getDefaultSchemaValue s
  | some vv =>
      if isValueTypeAny vv (getValueType (some vv)) (getProp s "type") then vv
      else getDefaultSchemaValue s

theorem substValue_unconstrained (x : JValue) :
    substValue (.jobj []) (some x) = x := by
  simp [substValue, getProp, lookupField, isValueTypeAny]

/-- Required-list member used as a property key: JavaScript coerces the
member with `ToPropertyKey`; the string members (the only kind occurring
in real schemas) are exact, other members use the approximate display
coercion. -/
def reqKey : JValue → String
  | .jstr st => st
  | m => jsDisplay m

/-- The string-valued required members, which are the ones
`properties.delete(property)` removes from the later per-property pass
(the `Set` holds string names, so non-string members delete nothing). -/
def reqStrNames (l : List JValue) : List String :=
  l.filterMap fun m => match m with | .jstr st => some st | _ => none

theorem sizeF_filter_le (p : String × JValue → Bool) (fs : List (String × JValue)) :
    sizeF (fs.filter p) ≤ sizeF fs := by
  induction fs with
  | nil => simp
  | cons kv rest ih =>
    obtain ⟨k, x⟩ := kv
    have hx := sizeJ_pos x
    cases hp : p (k, x) <;> simp [List.filter_cons, hp, sizeF] <;> omega

theorem resolvedSchema_lt {s : JValue} {key : PKey} {v : Option JValue}
    {sc : JValue} {path : List PathEntry}
    (hres : getPropertySchemaWith s key v = some (sc, path)) (h : 2 ≤ sizeJ s) :
    sizeJ sc < sizeJ s := by
  rcases getPropertySchemaWith_size hres with h1 | h1
  · exact h1
  · subst h1
    simp only [unconstrainedSchema, sizeJ, sizeF]
    omega

theorem lt_ceil_toNat {i : Nat} {q : Rat} (hc : (i : Rat) < q) :
    i < (Int.ceil q).toNat := by
  have h1 : (i : Int) < Int.ceil q := Int.lt_ceil.mpr (by exact_mod_cast hc)
  omega

/-- JavaScript `ToIntegerOrInfinity` truncation (toward zero) of a
finite number, as `Array.prototype.splice` applies to its arguments. -/
def jsTrunc (q : Rat) : Int :=
  if 0 ≤ q then Int.floor q else Int.ceil q

/-- `value.splice(start, deleteCount)` restricted to deletion (the only
form `_populateArrayDefaults` uses, json-schema.js:697): start and count
are truncated toward zero and clamped to the array bounds, and the
covered segment is removed. -/
def jsSpliceDelete (xs : List JValue) (start dc : Rat) : List JValue :=
  let len : Int := xs.length
  let st : Int := jsTrunc start
  let aStart : Int := if st < 0 then max (len + st) 0 else min st len
  let d : Int := jsTrunc dc
  let aDC : Int := min (max d 0) (len - aStart)
  xs.take aStart.toNat ++ xs.drop (aStart + aDC).toNat

/-- The `maxItems` truncation step of `_populateArrayDefaults`
(json-schema.js:695-698): when the array is longer than a numeric
`maxItems`, the tail is removed with
`value.splice(maxItems, value.length - maxItems)`. -/
def arrTruncPhase (cur : List JValue) (s : JValue) : JValue :=
  match getProp s "maxItems" with
  | some (.jnum mx) =>
      if (cur.length : Rat) > mx then
        .jarr (jsSpliceDelete cur mx ((cur.length : Rat) - mx))
      else .jarr cur
  | _ => .jarr cur

mutual

/-- `_getValidValueOrDefault` (json-schema.js:608-633): substitute the
default on absence or type mismatch, then populate object or array
defaults, or, for every other runtime type, keep the value unless it is
invalid and the schema default is valid.  The traversal info the source
threads through this pass is only ever written, never read (validation
inside the pass builds a fresh info), so the embedding omits it. -/
def getValidValueOrDefault (re : RegexEngine) (s : JValue) (v : Option JValue) : JValue :=
  match hsub : substValue s v with
  | .jobj fields => populateObjectDefaults re fields s
  | .jarr elems => populateArrayDefaults re elems s
  | w =>
      if isValid re w s then w
      else
        let d := getDefaultSchemaValue s
        if isValid re d s then d else w
  termination_by (sizeJ s, sizeJ (substValue s v) + 2, 0, 0)
  decreasing_by
    all_goals (apply Prod.Lex.right; apply Prod.Lex.left; rw [hsub]; omega)

/-- `_populateObjectDefaults` (json-schema.js:635-668): first the
required pass (which also removes required string names from the
captured own-property set), then the pass over the remaining own
properties.  The per-property pass iterates the entry-time snapshot of
the own properties with their values; for genuine (duplicate-free)
JavaScript objects this equals the source's loop-time lookups, because
earlier iterations only touch other keys. -/
def populateObjectDefaults (re : RegexEngine) (fields : List (String × JValue))
    (s : JValue) : JValue :=
  match hreq : getProp s "required" with
  | some (.jarr l) =>
      let cur1 := reqLoop re l fields s (by have := getProp_size hreq; omega)
      .jobj (propsLoop re
        (fields.filter fun p => !((reqStrNames l).contains p.1)) cur1 s)
  | _ => .jobj (propsLoop re fields fields s)
  termination_by (sizeJ s, sizeJ (.jobj fields) + 1, 9, 0)
  decreasing_by
    · apply Prod.Lex.right; apply Prod.Lex.left; omega
    · have h1 := sizeF_filter_le (fun p => !((reqStrNames l).contains p.1)) fields
      have h2 := sizeF_filter_le (fun p => !decide (p.1 ∈ reqStrNames l)) fields
      simp only [Prod.lex_def, sizeJ, true_and, and_true, eq_self_iff_true]
      omega
    · simp only [Prod.lex_def, sizeJ, true_and, and_true, eq_self_iff_true]
      omega

/-- The required pass of `_populateObjectDefaults`
(json-schema.js:638-652): for each required member, resolve its
sub-schema against the current value (skipping members that resolve to
nothing) and overwrite the property with the normalization of its
current value, or of an absent value when the property is missing. -/
def reqLoop (re : RegexEngine) (names : List JValue)
    (cur : List (String × JValue)) (s : JValue) (h : 2 ≤ sizeJ s) :
    List (String × JValue) :=
  match names with
  | [] => cur
  | m :: rest =>
      match hres : getPropertySchemaWith s (.str (reqKey m)) (some (.jobj cur)) with
      | none => reqLoop re rest cur s h
      | some (psc, _) =>
          reqLoop re rest
            (setField cur (reqKey m)
              (getValidValueOrDefault re psc (lookupField cur (reqKey m))))
            s h
  termination_by (sizeJ s, 0, 0, names.length)
  decreasing_by
    all_goals
      first
      | (apply Prod.Lex.left; exact resolvedSchema_lt hres h)
      | (apply Prod.Lex.right; apply Prod.Lex.right; apply Prod.Lex.right; simp)

/-- The per-property pass of `_populateObjectDefaults`
(json-schema.js:654-665): a property whose sub-schema does not resolve
is deleted; every other property is overwritten with its normalization. -/
def propsLoop (re : RegexEngine) (pairs : List (String × JValue))
    (cur : List (String × JValue)) (s : JValue) : List (String × JValue) :=
  match pairs with
  | [] => cur
  | (k, x) :: rest =>
      match hres : getPropertySchemaWith s (.str k) (some (.jobj cur)) with
      | none => propsLoop re rest (deleteField cur k) s
      | some (psc, _) =>
          propsLoop re rest (setField cur k (getValidValueOrDefault re psc (some x))) s
  termination_by (sizeJ s, sizeF pairs + 2, 1, 0)
  decreasing_by
    · apply Prod.Lex.right; apply Prod.Lex.left
      simp only [sizeF]; omega
    · rcases getPropertySchemaWith_size hres with h1 | h1
      · apply Prod.Lex.left; exact h1
      · subst h1
        have h2 := sizeJ_pos s
        simp_wf
        simp only [Prod.lex_def, unconstrainedSchema, sizeJ, sizeF]
        rw [substValue_unconstrained]
        omega
    · apply Prod.Lex.right; apply Prod.Lex.left
      simp only [sizeF]; omega

/-- `_populateArrayDefaults` (json-schema.js:670-701): normalize every
existing element in place, then pad up to `minItems` (stopping early
when no sub-schema resolves), then truncate past `maxItems` via
`splice`.  As in the object pass, the element pass iterates the
entry-time snapshot, which equals the source's loop-time reads because
earlier iterations only touch other indices. -/
def populateArrayDefaults (re : RegexEngine) (elems : List JValue) (s : JValue) : JValue :=
  match hmin : getProp s "minItems" with
  | some (.jnum q) =>
      let cur1 := arrNormLoop re elems elems 0 s
      arrTruncPhase
        (if (cur1.length : Rat) < q then
          padLoop re cur1 cur1.length q s (by have := getProp_size hmin; omega)
        else cur1) s
  | _ => arrTruncPhase (arrNormLoop re elems elems 0 s) s
  termination_by (sizeJ s, sizeJ (.jarr elems) + 1, 9, 0)
  decreasing_by
    all_goals
      first
      | (apply Prod.Lex.right; apply Prod.Lex.left; omega)
      | (simp only [Prod.lex_def, sizeJ, true_and, and_true, eq_self_iff_true]; omega)

/-- The element pass of `_populateArrayDefaults`
(json-schema.js:671-679): elements whose index resolves no sub-schema
are left untouched; the rest are overwritten with their
normalization. -/
def arrNormLoop (re : RegexEngine) (pending : List JValue) (cur : List JValue)
    (i : Nat) (s : JValue) : List JValue :=
  match pending with
  | [] => cur
  | x :: rest =>
      match hres : getPropertySchemaWith s (.nat i) (some (.jarr cur)) with
      | none => arrNormLoop re rest cur (i + 1) s
      | some (psc, _) =>
          arrNormLoop re rest
            (cur.set i (getValidValueOrDefault re psc (some x))) (i + 1) s
  termination_by (sizeJ s, sizeL pending + 2, 1, 0)
  decreasing_by
    · apply Prod.Lex.right; apply Prod.Lex.left
      simp only [sizeL]; omega
    · rcases getPropertySchemaWith_size hres with h1 | h1
      · apply Prod.Lex.left; exact h1
      · subst h1
        have h2 := sizeJ_pos s
        simp_wf
        simp only [Prod.lex_def, unconstrainedSchema, sizeJ, sizeF, sizeL]
        rw [substValue_unconstrained]
        omega
    · apply Prod.Lex.right; apply Prod.Lex.left
      simp only [sizeL]; omega

/-- The padding loop of `_populateArrayDefaults`
(json-schema.js:682-693): while the running index stays below
`minItems`, resolve the index's sub-schema against the growing array
(breaking when none resolves) and push the normalization of an absent
value. -/
def padLoop (re : RegexEngine) (cur : List JValue) (i : Nat) (q : Rat)
    (s : JValue) (h : 2 ≤ sizeJ s) : List JValue :=
  if hcond : (i : Rat) < q then
    match hres : getPropertySchemaWith s (.nat i) (some (.jarr cur)) with
    | none => cur
    | some (psc, _) =>
        padLoop re (cur ++ [getValidValueOrDefault re psc none]) (i + 1) q s h
  else cur
  termination_by (sizeJ s, 0, 0, (Int.ceil q).toNat - i)
  decreasing_by
    · apply Prod.Lex.left; exact resolvedSchema_lt hres h
    · apply Prod.Lex.right; apply Prod.Lex.right; apply Prod.Lex.right
      have := lt_ceil_toNat hcond
      omega

end

/-! The guarded view (`JsonSchemaProxyHandler`). -/

/-- A proxy target: a plain object, or an array.  JavaScript arrays also
carry ordinary named properties besides their elements, and the proxy
`set` trap writes non-index string keys straight onto the array
(json-schema.js:86-89), so the embedded array target keeps both. -/
inductive PTarget where
  | obj (fields : List (String × JValue))
  | arr (elems : List JValue) (named : List (String × JValue))

/-- The data value a target denotes (named array properties are not part
of the element data). -/
def targetValue : PTarget → JValue
  | .obj fs => .jobj fs
  | .arr es _ => .jarr es

/-- Failures of the proxy `set`/`deleteProperty` traps: a plain
`new Error(...)` with its message, or a propagated
`JsonSchemaValidationError` from the validation of the written value. -/
inductive ProxySetError where
  | err (msg : String)
  | validationFailure (e : ValidationError)

/-- JavaScript array element write `target[idx] = v` for `idx ≤ length`:
in-range indices overwrite, `idx = length` appends. -/
def setElem (xs : List JValue) (idx : Nat) (v : JValue) : List JValue :=
  if idx < xs.length then xs.set idx v else xs ++ [v]

/-- `JsonSchemaProxyHandler.set` (json-schema.js:79-103).  On an array
target, an all-digits string key becomes an integer index (beyond-length
writes are rejected as out of range), while any other string key is
committed directly onto the array and reported successful — with no
schema resolution, no deep copy and no validation.  Otherwise the key's
sub-schema is resolved (`Property ... not supported` when none), the
value is deep-copied, the copy is validated (a failure propagates and
nothing is written), and only then is the copy committed. -/
def proxySet (re : RegexEngine) (schema : JValue) (target : PTarget)
    (property : String) (value : JValue) : Except ProxySetError PTarget :=
  match target with
  | .arr elems named =>
      if isDigits property then
        let idx := digitsToNat property
        if idx > elems.length then .error (.err "Array index out of range")
        else
          match getPropertySchema schema (.nat idx) (some (.jarr elems)) with
          | none =>
              let d := toString idx
              .error (.err s!"Property {d} not supported")
          | some psc =>
              match validate re (clone value) psc with
              | .error e => .error (.validationFailure e)
              | .ok _ => .ok (.arr (setElem elems idx (clone value)) named)
      else .ok (.arr elems (setField named property value))
  | .obj fields =>
      match getPropertySchema schema (.str property) (some (.jobj fields)) with
      | none => .error (.err s!"Property {property} not supported")
      | some psc =>
          match validate re (clone value) psc with
          | .error e => .error (.validationFailure e)
          | .ok _ => .ok (.obj (setField fields property (clone value)))

/-! Unfolding lemmas for the definitions whose matches carry equation
binders (those binders serve the termination proofs but block direct
rewriting). -/

theorem validateConditional_none {re : RegexEngine} {v s : JValue} {info : TraversalInfo}
    (h : getProp s "if" = none) : validateConditional re v s info = .ok info := by
  rw [validateConditional.eq_def]
  split
  · rename_i f hf; rw [h] at hf; cases hf
  · rfl

theorem validateAllOf_none {re : RegexEngine} {v s : JValue} {info : TraversalInfo}
    (h : getProp s "allOf" = none) : validateAllOf re v s info = .ok info := by
  rw [validateAllOf.eq_def]
  split
  · rename_i l hl; rw [h] at hl; cases hl
  · rfl

theorem validateAllOf_list {re : RegexEngine} {v s : JValue} {info : TraversalInfo}
    {l : List JValue} (h : getProp s "allOf" = some (.jarr l)) :
    validateAllOf re v s info =
      allOfLoop re v l 0 (schemaPush info (some (.str "allOf")) (.jarr l)) := by
  rw [validateAllOf.eq_def]
  split
  · rename_i l' hl; rw [h] at hl; cases hl; rfl
  · rename_i hno; exact absurd h (hno l)

theorem validateAnyOf_none {re : RegexEngine} {v s : JValue} {info : TraversalInfo}
    (h : getProp s "anyOf" = none) : validateAnyOf re v s info = .ok info := by
  rw [validateAnyOf.eq_def]
  split
  · rename_i l hl; rw [h] at hl; cases hl
  · rfl

theorem validateAnyOf_list {re : RegexEngine} {v s : JValue} {info : TraversalInfo}
    {l : List JValue} (h : getProp s "anyOf" = some (.jarr l)) :
    validateAnyOf re v s info =
      anyOfLoop re v s l 0 (schemaPush info (some (.str "anyOf")) (.jarr l)) := by
  rw [validateAnyOf.eq_def]
  split
  · rename_i l' hl; rw [h] at hl; cases hl; rfl
  · rename_i hno; exact absurd h (hno l)

theorem validateOneOf_none {re : RegexEngine} {v s : JValue} {info : TraversalInfo}
    (h : getProp s "oneOf" = none) : validateOneOf re v s info = .ok info := by
  rw [validateOneOf.eq_def]
  split
  · rename_i l hl; rw [h] at hl; cases hl
  · rfl

theorem validateOneOf_list {re : RegexEngine} {v s : JValue} {info : TraversalInfo}
    {l : List JValue} (h : getProp s "oneOf" = some (.jarr l)) :
    validateOneOf re v s info =
      oneOfLoop re v s l 0 0 (schemaPush info (some (.str "oneOf")) (.jarr l)) := by
  rw [validateOneOf.eq_def]
  split
  · rename_i l' hl; rw [h] at hl; cases hl; rfl
  · rename_i hno; exact absurd h (hno l)

theorem validateNoneOf_none {re : RegexEngine} {v s : JValue} {info : TraversalInfo}
    (h : getProp s "not" = none) : validateNoneOf re v s info = .ok info := by
  rw [validateNoneOf.eq_def]
  split
  · rename_i l hl; rw [h] at hl; cases hl
  · rfl

theorem validateNoneOf_list {re : RegexEngine} {v s : JValue} {info : TraversalInfo}
    {l : List JValue} (h : getProp s "not" = some (.jarr l)) :
    validateNoneOf re v s info =
      noneOfLoop re v s l 0 (schemaPush info (some (.str "not")) (.jarr l)) := by
  rw [validateNoneOf.eq_def]
  split
  · rename_i l' hl; rw [h] at hl; cases hl; rfl
  · rename_i hno; exact absurd h (hno l)

theorem validateArrayContains_none {re : RegexEngine} {xs : List JValue} {s : JValue}
    {info : TraversalInfo} (h : getProp s "contains" = none) :
    validateArrayContains re xs s info = .ok info := by
  rw [validateArrayContains.eq_def]
  split
  · rename_i f hf; rw [h] at hf; cases hf
  · rfl

theorem validateArrayContains_obj {re : RegexEngine} {xs : List JValue} {s : JValue}
    {info : TraversalInfo} {f : List (String × JValue)}
    (h : getProp s "contains" = some (.jobj f)) :
    validateArrayContains re xs s info =
      containsLoop re xs s (.jobj f) xs 0
        (schemaPush info (some (.str "contains")) (.jobj f)) := by
  rw [validateArrayContains.eq_def]
  split
  · rename_i f' hf; rw [h] at hf; cases hf; rfl
  · rename_i hno; exact absurd h (hno f)

theorem getValidValueOrDefault_obj {re : RegexEngine} {s : JValue} {v : Option JValue}
    {fields : List (String × JValue)} (h : substValue s v = .jobj fields) :
    getValidValueOrDefault re s v = populateObjectDefaults re fields s := by
  rw [getValidValueOrDefault.eq_def]
  split
  · rename_i fields' hf; rw [h] at hf; cases hf; rfl
  · rename_i elems' hf; rw [h] at hf; cases hf
  · rename_i hno _; rw [h] at hno; exact absurd rfl (hno fields)

theorem getValidValueOrDefault_arr {re : RegexEngine} {s : JValue} {v : Option JValue}
    {elems : List JValue} (h : substValue s v = .jarr elems) :
    getValidValueOrDefault re s v = populateArrayDefaults re elems s := by
  rw [getValidValueOrDefault.eq_def]
  split
  · rename_i fields' hf; rw [h] at hf; cases hf
  · rename_i elems' hf; rw [h] at hf; cases hf; rfl
  · rename_i _ hno; rw [h] at hno; exact absurd rfl (hno elems)

theorem getValidValueOrDefault_prim {re : RegexEngine} {s : JValue} {v : Option JValue}
    {w : JValue} (h : substValue s v = w)
    (hobj : ∀ fields, w ≠ .jobj fields) (harr : ∀ elems, w ≠ .jarr elems) :
    getValidValueOrDefault re s v =
      (if isValid re w s then w
       else if isValid re (getDefaultSchemaValue s) s then getDefaultSchemaValue s else w) := by
  rw [getValidValueOrDefault.eq_def]
  split
  · rename_i fields' hf; rw [h] at hf; exact absurd hf (hobj fields')
  · rename_i elems' hf; rw [h] at hf; exact absurd hf (harr elems')
  · rw [h]

theorem populateObjectDefaults_req {re : RegexEngine} {fields : List (String × JValue)}
    {s : JValue} {l : List JValue} (h : getProp s "required" = some (.jarr l))
    (h2 : 2 ≤ sizeJ s) :
    populateObjectDefaults re fields s =
      .jobj (propsLoop re
        (fields.filter fun p => !((reqStrNames l).contains p.1))
        (reqLoop re l fields s h2) s) := by
  rw [populateObjectDefaults.eq_def]
  split
  · rename_i l' hl; rw [h] at hl; cases hl; rfl
  · rename_i hno; exact absurd h (hno l)

theorem populateObjectDefaults_noreq {re : RegexEngine} {fields : List (String × JValue)}
    {s : JValue} (h : getProp s "required" = none) :
    populateObjectDefaults re fields s = .jobj (propsLoop re fields fields s) := by
  rw [populateObjectDefaults.eq_def]
  split
  · rename_i l' hl; rw [h] at hl; cases hl
  · rfl

theorem reqLoop_nil {re : RegexEngine} {cur : List (String × JValue)} {s : JValue}
    {h : 2 ≤ sizeJ s} : reqLoop re [] cur s h = cur := by
  rw [reqLoop.eq_def]

theorem reqLoop_cons_none {re : RegexEngine} {m : JValue} {rest : List JValue}
    {cur : List (String × JValue)} {s : JValue} {h : 2 ≤ sizeJ s}
    (hres : getPropertySchemaWith s (.str (reqKey m)) (some (.jobj cur)) = none) :
    reqLoop re (m :: rest) cur s h = reqLoop re rest cur s h := by
  rw [reqLoop.eq_def]
  split
  · rename_i heq; cases heq
  · rename_i a b heq
    injection heq with h1 h2
    subst h1; subst h2
    split
    · rfl
    · rename_i psc' path' hr; rw [hres] at hr; cases hr

theorem reqLoop_cons_some {re : RegexEngine} {m : JValue} {rest : List JValue}
    {cur : List (String × JValue)} {s : JValue} {h : 2 ≤ sizeJ s}
    {psc : JValue} {path : List PathEntry}
    (hres : getPropertySchemaWith s (.str (reqKey m)) (some (.jobj cur)) = some (psc, path)) :
    reqLoop re (m :: rest) cur s h =
      reqLoop re rest
        (setField cur (reqKey m)
          (getValidValueOrDefault re psc (lookupField cur (reqKey m)))) s h := by
  rw [reqLoop.eq_def]
  split
  · rename_i heq; cases heq
  · rename_i a b heq
    injection heq with h1 h2
    subst h1; subst h2
    split
    · rename_i hr; rw [hres] at hr; cases hr
    · rename_i psc' path' hr; rw [hres] at hr; cases hr; rfl

theorem propsLoop_nil {re : RegexEngine} {cur : List (String × JValue)} {s : JValue} :
    propsLoop re [] cur s = cur := by
  rw [propsLoop.eq_def]

theorem propsLoop_cons_none {re : RegexEngine} {k : String} {x : JValue}
    {rest : List (String × JValue)} {cur : List (String × JValue)} {s : JValue}
    (hres : getPropertySchemaWith s (.str k) (some (.jobj cur)) = none) :
    propsLoop re ((k, x) :: rest) cur s = propsLoop re rest (deleteField cur k) s := by
  rw [propsLoop.eq_def]
  split
  · rename_i heq; cases heq
  · rename_i a b heq
    injection heq with h1 h2
    injection h1 with hk hx
    subst hk; subst hx; subst h2
    split
    · rfl
    · rename_i psc' path' hr; rw [hres] at hr; cases hr

theorem propsLoop_cons_some {re : RegexEngine} {k : String} {x : JValue}
    {rest : List (String × JValue)} {cur : List (String × JValue)} {s : JValue}
    {psc : JValue} {path : List PathEntry}
    (hres : getPropertySchemaWith s (.str k) (some (.jobj cur)) = some (psc, path)) :
    propsLoop re ((k, x) :: rest) cur s =
      propsLoop re rest (setField cur k (getValidValueOrDefault re psc (some x))) s := by
  rw [propsLoop.eq_def]
  split
  · rename_i heq; cases heq
  · rename_i a b heq
    injection heq with h1 h2
    injection h1 with hk hx
    subst hk; subst hx; subst h2
    split
    · rename_i hr; rw [hres] at hr; cases hr
    · rename_i psc' path' hr; rw [hres] at hr; cases hr; rfl

theorem populateArrayDefaults_min {re : RegexEngine} {elems : List JValue} {s : JValue}
    {q : Rat} (h : getProp s "minItems" = some (.jnum q)) (h2 : 2 ≤ sizeJ s) :
    populateArrayDefaults re elems s =
      (let cur1 := arrNormLoop re elems elems 0 s
       arrTruncPhase
        (if (cur1.length : Rat) < q then padLoop re cur1 cur1.length q s h2 else cur1) s) := by
  rw [populateArrayDefaults.eq_def]
  split
  · rename_i q' hq; rw [h] at hq; cases hq; rfl
  · rename_i hno; exact absurd h (hno q)

theorem populateArrayDefaults_nomin {re : RegexEngine} {elems : List JValue} {s : JValue}
    (h : getProp s "minItems" = none) :
    populateArrayDefaults re elems s = arrTruncPhase (arrNormLoop re elems elems 0 s) s := by
  rw [populateArrayDefaults.eq_def]
  split
  · rename_i q' hq; rw [h] at hq; cases hq
  · rfl

theorem arrNormLoop_nil {re : RegexEngine} {cur : List JValue} {i : Nat} {s : JValue} :
    arrNormLoop re [] cur i s = cur := by
  rw [arrNormLoop.eq_def]

theorem arrNormLoop_cons_none {re : RegexEngine} {x : JValue} {rest : List JValue}
    {cur : List JValue} {i : Nat} {s : JValue}
    (hres : getPropertySchemaWith s (.nat i) (some (.jarr cur)) = none) :
    arrNormLoop re (x :: rest) cur i s = arrNormLoop re rest cur (i + 1) s := by
  rw [arrNormLoop.eq_def]
  split
  · rename_i heq; cases heq
  · rename_i a b heq
    injection heq with h1 h2
    subst h1; subst h2
    split
    · rfl
    · rename_i psc' path' hr; rw [hres] at hr; cases hr

theorem arrNormLoop_cons_some {re : RegexEngine} {x : JValue} {rest : List JValue}
    {cur : List JValue} {i : Nat} {s : JValue} {psc : JValue} {path : List PathEntry}
    (hres : getPropertySchemaWith s (.nat i) (some (.jarr cur)) = some (psc, path)) :
    arrNormLoop re (x :: rest) cur i s =
      arrNormLoop re rest (cur.set i (getValidValueOrDefault re psc (some x))) (i + 1) s := by
  rw [arrNormLoop.eq_def]
  split
  · rename_i heq; cases heq
  · rename_i a b heq
    injection heq with h1 h2
    subst h1; subst h2
    split
    · rename_i hr; rw [hres] at hr; cases hr
    · rename_i psc' path' hr; rw [hres] at hr; cases hr; rfl

theorem padLoop_stop {re : RegexEngine} {cur : List JValue} {i : Nat} {q : Rat}
    {s : JValue} {h : 2 ≤ sizeJ s} (hc : ¬ ((i : Rat) < q)) :
    padLoop re cur i q s h = cur := by
  rw [padLoop.eq_def]
  simp [hc]

theorem padLoop_go_none {re : RegexEngine} {cur : List JValue} {i : Nat} {q : Rat}
    {s : JValue} {h : 2 ≤ sizeJ s} (hc : (i : Rat) < q)
    (hres : getPropertySchemaWith s (.nat i) (some (.jarr cur)) = none) :
    padLoop re cur i q s h = cur := by
  rw [padLoop.eq_def]
  simp only [dif_pos hc]
  split
  · rfl
  · rename_i psc path hr; rw [hres] at hr; cases hr

theorem padLoop_go_some {re : RegexEngine} {cur : List JValue} {i : Nat} {q : Rat}
    {s : JValue} {h : 2 ≤ sizeJ s} {psc : JValue} {path : List PathEntry}
    (hc : (i : Rat) < q)
    (hres : getPropertySchemaWith s (.nat i) (some (.jarr cur)) = some (psc, path)) :
    padLoop re cur i q s h =
      padLoop re (cur ++ [getValidValueOrDefault re psc none]) (i + 1) q s h := by
  rw [padLoop.eq_def]
  simp only [dif_pos hc]
  split
  · rename_i hr; rw [hres] at hr; cases hr
  · rename_i psc' path' hr; rw [hres] at hr; cases hr; rfl

/-- `JsonSchemaProxyHandler.deleteProperty` (json-schema.js:105-111) on
an object target: deleting a key listed in the schema's `required`
throws; otherwise the key is deleted.  (Array targets would leave holes,
which the element-list model does not represent; no claim concerns
them.) -/
def proxyDelete (schema : JValue) (fields : List (String × JValue))
    (property : String) : Except ProxySetError (List (String × JValue)) :=
  match getProp schema "required" with
  | some (.jarr l) =>
      if l.any (fun m => match m with | .jstr st => st == property | _ => false) then
        .error (.err s!"{property} cannot be deleted")
      else .ok (deleteField fields property)
  | _ => .ok (deleteField fields property)

/-! Shared fixtures for concrete instances. -/

/-- A regex engine that refuses every pattern; theorems quantified over
the engine are instantiated with it (no concrete schema below carries a
`pattern`). -/
def noRegex : RegexEngine := ⟨fun _ _ => .error "unsupported"⟩

/-- The number-with-default sub-schema of the spec's normalization
example: `{type:"number", default:5}`. -/
def schemaNum5 : JValue := .jobj [("type", .jstr "number"), ("default", .jnum 5)]

/-- The spec's normalization example schema
`{type:"object", required:["a"], properties:{a:{type:"number", default:5}}}`. -/
def schemaC3 : JValue := .jobj [("type", .jstr "object"),
  ("required", .jarr [.jstr "a"]),
  ("properties", .jobj [("a", schemaNum5)])]

/-- The plain number schema `{type:"number"}`. -/
def schemaNum : JValue := .jobj [("type", .jstr "number")]

/-- The spec's array example schema
`{type:"array", items:{type:"number"}, minItems:3, maxItems:3}`. -/
def schemaC4 : JValue := .jobj [("type", .jstr "array"),
  ("items", schemaNum), ("minItems", .jnum 3), ("maxItems", .jnum 3)]

/-- The spec's guarded-view example schema
`{type:"object", properties:{a:{type:"number"}}, additionalProperties:false}`. -/
def schemaC5 : JValue := .jobj [("type", .jstr "object"),
  ("properties", .jobj [("a", schemaNum)]),
  ("additionalProperties", .jbool false)]

/-- An array schema resolving no sub-schema for any non-index key:
`{type:"array", items:[], additionalItems:false}`. -/
def schemaNoExtra : JValue := .jobj [("type", .jstr "array"),
  ("items", .jarr []), ("additionalItems", .jbool false)]

/-- C6: the claim says validation fails when the count of the value's own
properties is below `minProperties` or above `maxProperties`.  The code
cannot enforce this: `_validateObject` builds `properties` as a `Set`
but reads `properties.length`, which is `undefined` on a `Set` (the
property is `size`), and `undefined < n` / `undefined > n` are both
false, so neither check ever throws.  Evaluating the embedded code at
the claim's failing inputs: `{}` validates against
`{type:"object", minProperties:1}` and `{a:1, b:2}` validates against
`{type:"object", maxProperties:1}`, both succeeding where the claim
requires failure. -/
theorem minMaxProperties_checks_never_fire :
    (∀ re, isValid re (.jobj [])
        (.jobj [("type", .jstr "object"), ("minProperties", .jnum 1)]) = true)
    ∧ (∀ re, isValid re (.jobj [("a", .jnum 1), ("b", .jnum 2)])
        (.jobj [("type", .jstr "object"), ("maxProperties", .jnum 1)]) = true) := by
  refine ⟨fun re => ?_, fun re => ?_⟩ <;>
    simp [isValid, validate, jvalidate, validateSingleSchema, validateNumber, validateString,
      validateObject, validateArray, arrayElemsLoop, objPropsLoop, findMissingRequired,
      validateConditional_none, validateAllOf_none, validateAnyOf_none, validateOneOf_none,
      validateNoneOf_none, validateArrayContains_none,
      getPropertySchema, getPropertySchemaWith, getSchemaOrValueType, additionalPropsFallback,
      additionalItemsFallback, getProp, lookupField, hasField, keyToString, getValueType,
      isValueTypeAny, isValueType, jsStrictEq, valuesAreEqualAny, jsArrayIndex,
      unconstrainedSchema, initInfo, schemaPush, schemaPop, schemaPushList, schemaPopN,
      valuePush, valuePop, Except.toBool, Except.isOk]

/-- C10: on a guarded view over an array target, a write whose string key
is not entirely decimal digits is committed directly onto the backing
array's named properties and reported successful — no sub-schema is
resolved, nothing is deep-copied and nothing is validated (the theorem
holds for every schema, including ones resolving no sub-schema for the
key, and for every written value, including schema-invalid ones; the
committed value is the written value itself, not a copy). -/
theorem arraySet_nonDigit_key_bypasses_validation
    (re : RegexEngine) (schema : JValue) (elems : List JValue)
    (named : List (String × JValue)) (k : String) (v : JValue)
    (hk : isDigits k = false) :
    proxySet re schema (.arr elems named) k v = .ok (.arr elems (setField named k v)) := by
  simp [proxySet, hk]

/-- Witness for C10: the key `"foo"` is not digits, resolves no
sub-schema under `schemaNoExtra`, and the write of a string value (which
the element schema would reject) still succeeds and lands on the
array. -/
theorem arraySet_nonDigit_key_bypasses_validation_witness :
    isDigits "foo" = false
    ∧ getPropertySchema schemaNoExtra (.str "foo") (some (.jarr [])) = none
    ∧ proxySet noRegex schemaNoExtra (.arr [] []) "foo" (.jstr "bad")
        = .ok (.arr [] [("foo", .jstr "bad")]) :=
  ⟨by decide,
   by simp [getPropertySchema, getPropertySchemaWith, getSchemaOrValueType,
        additionalItemsFallback, schemaNoExtra, getProp, lookupField, getValueType,
        jsArrayIndex, isCanonicalIndex, isDigits, keyToString],
   arraySet_nonDigit_key_bypasses_validation noRegex schemaNoExtra [] [] "foo" (.jstr "bad")
     (by decide)⟩

/-- C5: a guarded-view write to an object target throws when no
sub-schema resolves for the key; otherwise the value is deep-copied, the
copy is validated against the resolved sub-schema (a validation failure
propagates as the write's failure, and no new target state is produced,
leaving the backing target unchanged), and only on success is the copy
committed into the backing target.  In particular, over target `{}` with
`{type:"object", properties:{a:{type:"number"}}, additionalProperties:false}`,
writing `a := 5` succeeds with `target.a = 5` afterwards, and writing
`b := 1` throws. -/
theorem objectSet_resolves_copies_validates_commits :
    (∀ (re : RegexEngine) (schema : JValue) (fields : List (String × JValue))
        (k : String) (v : JValue),
      getPropertySchema schema (.str k) (some (.jobj fields)) = none →
      proxySet re schema (.obj fields) k v = .error (.err s!"Property {k} not supported"))
    ∧ (∀ (re : RegexEngine) (schema : JValue) (fields : List (String × JValue))
        (k : String) (v psc : JValue) (e : ValidationError),
      getPropertySchema schema (.str k) (some (.jobj fields)) = some psc →
      validate re (clone v) psc = .error e →
      proxySet re schema (.obj fields) k v = .error (.validationFailure e))
    ∧ (∀ (re : RegexEngine) (schema : JValue) (fields : List (String × JValue))
        (k : String) (v psc : JValue) (i : TraversalInfo),
      getPropertySchema schema (.str k) (some (.jobj fields)) = some psc →
      validate re (clone v) psc = .ok i →
      proxySet re schema (.obj fields) k v = .ok (.obj (setField fields k (clone v))))
    ∧ (∀ re, proxySet re schemaC5 (.obj []) "a" (.jnum 5) = .ok (.obj [("a", .jnum 5)]))
    ∧ lookupField (setField [] "a" (.jnum 5)) "a" = some (.jnum 5)
    ∧ (∀ re, proxySet re schemaC5 (.obj []) "b" (.jnum 1)
        = .error (.err "Property b not supported")) := by
  refine ⟨?_, ?_, ?_, ?_, by simp [setField, lookupField], ?_⟩
  · intro re schema fields k v h
    simp [proxySet, h]
  · intro re schema fields k v psc e h hv
    simp [proxySet, h, hv]
  · intro re schema fields k v psc i h hv
    simp [proxySet, h, hv]
  · intro re
    simp [proxySet, clone, validate, jvalidate, validateSingleSchema, validateNumber,
      validateConditional_none, validateAllOf_none, validateAnyOf_none, validateOneOf_none,
      validateNoneOf_none, schemaC5, schemaNum, getPropertySchema, getPropertySchemaWith,
      getSchemaOrValueType, additionalPropsFallback, getProp, lookupField, keyToString,
      getValueType, isValueTypeAny, isValueType, initInfo, setField]
  · intro re
    have h : getPropertySchema schemaC5 (.str "b") (some (.jobj [])) = none := by
      simp [getPropertySchema, getPropertySchemaWith, getSchemaOrValueType, schemaC5,
        additionalPropsFallback, getProp, lookupField, keyToString, getValueType]
    simp [proxySet, h]
    rfl

/-- Witness for C5, discharging all three conditional clauses at
concrete inputs: `a` resolves and `5` validates (commit case), `a`
resolves and a string fails validation (propagation case), `b` does not
resolve (rejection case). -/
theorem objectSet_resolves_copies_validates_commits_witness :
    proxySet noRegex schemaC5 (.obj []) "a" (.jnum 5) = .ok (.obj [("a", .jnum 5)])
    ∧ proxySet noRegex schemaC5 (.obj []) "b" (.jnum 1)
        = .error (.err "Property b not supported")
    ∧ (∃ e, proxySet noRegex schemaC5 (.obj []) "a" (.jstr "x")
        = .error (.validationFailure e)) := by
  have hres : getPropertySchema schemaC5 (.str "a") (some (.jobj [])) = some schemaNum := by
    simp [getPropertySchema, getPropertySchemaWith, getSchemaOrValueType, schemaC5,
      schemaNum, getProp, lookupField, keyToString, getValueType]
  have hbad : ∃ e, validate noRegex (clone (.jstr "x")) schemaNum = .error e := by
    simp [clone, validate, jvalidate, validateSingleSchema, schemaNum, getProp, lookupField,
      getValueType, isValueTypeAny, isValueType]
  obtain ⟨e, he⟩ := hbad
  refine ⟨objectSet_resolves_copies_validates_commits.2.2.2.1 noRegex,
    objectSet_resolves_copies_validates_commits.2.2.2.2.2 noRegex,
    ⟨e, objectSet_resolves_copies_validates_commits.2.1 noRegex schemaC5 [] "a"
      (.jstr "x") schemaNum e hres he⟩⟩


/-! Evaluation helpers for the concrete normalization examples. -/

theorem isValid_jnum_schemaNum (re : RegexEngine) (q : Rat) :
    isValid re (.jnum q) schemaNum = true := by
  simp [isValid, validate, jvalidate, validateSingleSchema, validateNumber,
    validateConditional_none, validateAllOf_none, validateAnyOf_none, validateOneOf_none,
    validateNoneOf_none, schemaNum, getProp, lookupField, getValueType,
    isValueTypeAny, isValueType, initInfo, Except.toBool, Except.isOk]

theorem isValid_jnum_schemaNum5 (re : RegexEngine) (q : Rat) :
    isValid re (.jnum q) schemaNum5 = true := by
  simp [isValid, validate, jvalidate, validateSingleSchema, validateNumber,
    validateConditional_none, validateAllOf_none, validateAnyOf_none, validateOneOf_none,
    validateNoneOf_none, schemaNum5, getProp, lookupField, getValueType,
    isValueTypeAny, isValueType, initInfo, Except.toBool, Except.isOk]

theorem substValue_schemaNum_none : substValue schemaNum none = .jnum 0 := by
  simp [substValue, getDefaultSchemaValue, getDefaultTypeValue, schemaNum, getProp, lookupField]

theorem gvvod_schemaNum_none (re : RegexEngine) :
    getValidValueOrDefault re schemaNum none = .jnum 0 := by
  rw [getValidValueOrDefault_prim substValue_schemaNum_none (by simp) (by simp)]
  simp [isValid_jnum_schemaNum]

theorem substValue_schemaNum_num (q : Rat) :
    substValue schemaNum (some (.jnum q)) = .jnum q := by
  simp [substValue, schemaNum, getProp, lookupField, isValueTypeAny, isValueType, getValueType]

theorem gvvod_schemaNum_num (re : RegexEngine) (q : Rat) :
    getValidValueOrDefault re schemaNum (some (.jnum q)) = .jnum q := by
  rw [getValidValueOrDefault_prim (substValue_schemaNum_num q) (by simp) (by simp)]
  simp [isValid_jnum_schemaNum]

theorem substValue_schemaNum5_none : substValue schemaNum5 none = .jnum 5 := by
  simp [substValue, getDefaultSchemaValue, getDefaultTypeValue, clone, schemaNum5,
    getProp, lookupField, isValueTypeAny, isValueType, getValueType]

theorem gvvod_schemaNum5_none (re : RegexEngine) :
    getValidValueOrDefault re schemaNum5 none = .jnum 5 := by
  rw [getValidValueOrDefault_prim substValue_schemaNum5_none (by simp) (by simp)]
  simp [isValid_jnum_schemaNum5]

theorem substValue_schemaNum5_str (st : String) :
    substValue schemaNum5 (some (.jstr st)) = .jnum 5 := by
  simp [substValue, getDefaultSchemaValue, getDefaultTypeValue, clone, schemaNum5,
    getProp, lookupField, isValueTypeAny, isValueType, getValueType]

theorem gvvod_schemaNum5_str (re : RegexEngine) (st : String) :
    getValidValueOrDefault re schemaNum5 (some (.jstr st)) = .jnum 5 := by
  rw [getValidValueOrDefault_prim (substValue_schemaNum5_str st) (by simp) (by simp)]
  simp [isValid_jnum_schemaNum5]

/-- `_getValidValueOrDefault` reads its candidate only through the
substitution step: values with equal substitutions normalize alike. -/
theorem gvvod_congr {re : RegexEngine} {s : JValue} {v1 v2 : Option JValue}
    (h : substValue s v1 = substValue s v2) :
    getValidValueOrDefault re s v1 = getValidValueOrDefault re s v2 := by
  have h2 : substValue s v2 = substValue s v1 := h.symm
  cases hs : substValue s v1 with
  | jobj f => rw [getValidValueOrDefault_obj hs, getValidValueOrDefault_obj (h2.trans hs)]
  | jarr e => rw [getValidValueOrDefault_arr hs, getValidValueOrDefault_arr (h2.trans hs)]
  | jnull =>
      rw [getValidValueOrDefault_prim hs (by simp) (by simp),
        getValidValueOrDefault_prim (h2.trans hs) (by simp) (by simp)]
  | jbool b =>
      rw [getValidValueOrDefault_prim hs (by simp) (by simp),
        getValidValueOrDefault_prim (h2.trans hs) (by simp) (by simp)]
  | jnum q =>
      rw [getValidValueOrDefault_prim hs (by simp) (by simp),
        getValidValueOrDefault_prim (h2.trans hs) (by simp) (by simp)]
  | jstr t =>
      rw [getValidValueOrDefault_prim hs (by simp) (by simp),
        getValidValueOrDefault_prim (h2.trans hs) (by simp) (by simp)]

theorem resC3 (cur : List (String × JValue)) :
    getPropertySchemaWith schemaC3 (.str "a") (some (.jobj cur)) =
      some (schemaNum5,
        [(some (.str "properties"), .jobj [("a", schemaNum5)]),
         (some (.str "a"), schemaNum5)]) := by
  simp [getPropertySchemaWith, getSchemaOrValueType, schemaC3, schemaNum5,
    getProp, lookupField, keyToString, getValueType]

theorem resC4 (i : Nat) (cur : List JValue) :
    getPropertySchemaWith schemaC4 (.nat i) (some (.jarr cur)) = some (schemaNum, []) := by
  simp [getPropertySchemaWith, getSchemaOrValueType, schemaC4, schemaNum,
    getProp, lookupField, getValueType]

theorem arrTruncPhase_take {cur : List JValue} {s : JValue} {n : Nat}
    (h : getProp s "maxItems" = some (.jnum (n : Rat)))
    (hlen : n < cur.length) :
    arrTruncPhase cur s = .jarr (cur.take n) := by
  have hq : ((n : Rat)) < (cur.length : Rat) := by exact_mod_cast hlen
  have hlen' : (n : Int) ≤ (cur.length : Int) := by exact_mod_cast hlen.le
  have h1 : jsTrunc ((n : Rat)) = (n : Int) := by
    simp [jsTrunc, Int.floor_natCast]
  have h2 : ((cur.length : Rat) - (n : Rat)) = ((cur.length - n : Nat) : Rat) :=
    (Nat.cast_sub hlen.le).symm
  have h3 : jsTrunc ((cur.length : Rat) - (n : Rat)) = ((cur.length - n : Nat) : Int) := by
    rw [h2]; simp [jsTrunc, Int.floor_natCast]
  simp only [arrTruncPhase, h]
  rw [if_pos hq]
  congr 1
  simp only [jsSpliceDelete, h1, h3]
  rw [if_neg (by omega)]
  rw [min_eq_left hlen']
  have h4 : ((cur.length - n : Nat) : Int) = (cur.length : Int) - (n : Int) := by omega
  rw [h4, max_eq_left (by omega), min_self]
  have h5 : ((n : Int) + ((cur.length : Int) - (n : Int))).toNat = cur.length := by omega
  have h6 : ((n : Int)).toNat = n := by omega
  rw [h5, h6, List.drop_length, List.append_nil]

/-- C3: when the candidate value is absent, or its runtime type does not
match `schema.type`, the substitution step replaces it with the schema's
default value — a deep copy of `schema.default` when that default's own
runtime type matches `schema.type`, otherwise the canonical zero value
for the type (null / false / 0 / 0 / "" / [] / {}); the rest of
`getValidValueOrDefault` depends on the candidate only through this
substitution.  In particular normalizing `{}` against
`{type:"object", required:["a"], properties:{a:{type:"number",
default:5}}}` yields `{a:5}`, and normalizing `{a:"x"}` against the same
schema also yields `{a:5}`. -/
theorem default_substitution_on_absence_or_type_mismatch :
    (∀ s : JValue, substValue s none = getDefaultSchemaValue s)
    ∧ (∀ (s vv : JValue),
        isValueTypeAny vv (getValueType (some vv)) (getProp s "type") = false →
        substValue s (some vv) = getDefaultSchemaValue s)
    ∧ (∀ (s d : JValue), getProp s "default" = some d →
        isValueTypeAny d (getValueType (some d)) (getProp s "type") = true →
        getDefaultSchemaValue s = clone d)
    ∧ (∀ (s d : JValue), getProp s "default" = some d →
        isValueTypeAny d (getValueType (some d)) (getProp s "type") = false →
        getDefaultSchemaValue s = getDefaultTypeValue (getProp s "type"))
    ∧ (getDefaultTypeValue (some (.jstr "null")) = .jnull
        ∧ getDefaultTypeValue (some (.jstr "boolean")) = .jbool false
        ∧ getDefaultTypeValue (some (.jstr "number")) = .jnum 0
        ∧ getDefaultTypeValue (some (.jstr "integer")) = .jnum 0
        ∧ getDefaultTypeValue (some (.jstr "string")) = .jstr ""
        ∧ getDefaultTypeValue (some (.jstr "array")) = .jarr []
        ∧ getDefaultTypeValue (some (.jstr "object")) = .jobj [])
    ∧ (∀ (re : RegexEngine) (s : JValue) (v1 v2 : Option JValue),
        substValue s v1 = substValue s v2 →
        getValidValueOrDefault re s v1 = getValidValueOrDefault re s v2)
    ∧ (∀ re, getValidValueOrDefault re schemaC3 (some (.jobj [])) = .jobj [("a", .jnum 5)])
    ∧ (∀ re, getValidValueOrDefault re schemaC3 (some (.jobj [("a", .jstr "x")]))
        = .jobj [("a", .jnum 5)]) := by
  refine ⟨fun s => rfl, ?_, ?_, ?_,
    ⟨rfl, rfl, rfl, rfl, rfl, rfl, rfl⟩,
    fun re s v1 v2 h => gvvod_congr h, ?_, ?_⟩
  · intro s vv h
    simp [substValue, h]
  · intro s d hd ht
    simp [getDefaultSchemaValue, hd, ht]
  · intro s d hd ht
    simp [getDefaultSchemaValue, hd, ht]
  · intro re
    have hsub : substValue schemaC3 (some (.jobj [])) = .jobj [] := by
      simp [substValue, schemaC3, getProp, lookupField, isValueTypeAny, isValueType, getValueType]
    rw [getValidValueOrDefault_obj hsub]
    have hreq : getProp schemaC3 "required" = some (.jarr [.jstr "a"]) := by
      simp [schemaC3, getProp, lookupField]
    rw [populateObjectDefaults_req hreq (by decide)]
    rw [reqLoop_cons_some (resC3 [])]
    rw [reqLoop_nil]
    simp [reqKey, lookupField, setField, gvvod_schemaNum5_none, propsLoop_nil, reqStrNames]
  · intro re
    have hsub : substValue schemaC3 (some (.jobj [("a", .jstr "x")]))
        = .jobj [("a", .jstr "x")] := by
      simp [substValue, schemaC3, getProp, lookupField, isValueTypeAny, isValueType, getValueType]
    rw [getValidValueOrDefault_obj hsub]
    have hreq : getProp schemaC3 "required" = some (.jarr [.jstr "a"]) := by
      simp [schemaC3, getProp, lookupField]
    rw [populateObjectDefaults_req hreq (by decide)]
    rw [reqLoop_cons_some (resC3 [("a", .jstr "x")])]
    rw [reqLoop_nil]
    simp [reqKey, lookupField, setField, gvvod_schemaNum5_str, propsLoop_nil, reqStrNames]

/-- Witness for C3: the matching default of `{type:"number", default:5}`
is substituted as a copy of `5`, a string candidate triggers the
substitution, and the spec's first concrete example evaluates. -/
theorem default_substitution_witness :
    getDefaultSchemaValue schemaNum5 = clone (.jnum 5)
    ∧ substValue schemaNum5 (some (.jstr "x")) = getDefaultSchemaValue schemaNum5
    ∧ getValidValueOrDefault noRegex schemaC3 (some (.jobj [])) = .jobj [("a", .jnum 5)] :=
  ⟨default_substitution_on_absence_or_type_mismatch.2.2.1 schemaNum5 (.jnum 5) rfl rfl,
   default_substitution_on_absence_or_type_mismatch.2.1 schemaNum5 (.jstr "x") rfl,
   default_substitution_on_absence_or_type_mismatch.2.2.2.2.2.2.1 noRegex⟩

/-- C4: array normalization runs the per-element pass, then, when the
result's length is below a numeric `minItems`, pads with synthesized
trailing elements — each the normalization of an absent value against
the index's resolved sub-schema, stopping early when an index resolves
no sub-schema and stopping when the length reaches `minItems` — and
finally truncates to `maxItems` (a take of the first `maxItems`
elements) when the array is longer.  In particular normalizing `[1]`
against `{type:"array", items:{type:"number"}, minItems:3, maxItems:3}`
yields `[1,0,0]` and normalizing `[1,2,3,4]` yields `[1,2,3]`. -/
theorem array_minItems_pad_maxItems_truncate :
    (∀ (re : RegexEngine) (elems : List JValue) (s : JValue) (q : Rat)
        (h : getProp s "minItems" = some (.jnum q)) (h2 : 2 ≤ sizeJ s),
      populateArrayDefaults re elems s =
        arrTruncPhase
          (if ((arrNormLoop re elems elems 0 s).length : Rat) < q then
            padLoop re (arrNormLoop re elems elems 0 s)
              (arrNormLoop re elems elems 0 s).length q s h2
          else arrNormLoop re elems elems 0 s) s)
    ∧ (∀ (re : RegexEngine) (cur : List JValue) (i : Nat) (q : Rat) (s psc : JValue)
        (path : List PathEntry) (h : 2 ≤ sizeJ s),
      (i : Rat) < q →
      getPropertySchemaWith s (.nat i) (some (.jarr cur)) = some (psc, path) →
      padLoop re cur i q s h =
        padLoop re (cur ++ [getValidValueOrDefault re psc none]) (i + 1) q s h)
    ∧ (∀ (re : RegexEngine) (cur : List JValue) (i : Nat) (q : Rat) (s : JValue)
        (h : 2 ≤ sizeJ s),
      (i : Rat) < q →
      getPropertySchemaWith s (.nat i) (some (.jarr cur)) = none →
      padLoop re cur i q s h = cur)
    ∧ (∀ (re : RegexEngine) (cur : List JValue) (i : Nat) (q : Rat) (s : JValue)
        (h : 2 ≤ sizeJ s), ¬ ((i : Rat) < q) → padLoop re cur i q s h = cur)
    ∧ (∀ (cur : List JValue) (s : JValue) (n : Nat),
      getProp s "maxItems" = some (.jnum (n : Rat)) → n < cur.length →
      arrTruncPhase cur s = .jarr (cur.take n))
    ∧ (∀ re, getValidValueOrDefault re schemaC4 (some (.jarr [.jnum 1]))
        = .jarr [.jnum 1, .jnum 0, .jnum 0])
    ∧ (∀ re, getValidValueOrDefault re schemaC4
          (some (.jarr [.jnum 1, .jnum 2, .jnum 3, .jnum 4]))
        = .jarr [.jnum 1, .jnum 2, .jnum 3]) := by
  refine ⟨fun re elems s q h h2 => populateArrayDefaults_min h h2,
    fun re cur i q s psc path h hc hres => padLoop_go_some hc hres,
    fun re cur i q s h hc hres => padLoop_go_none hc hres,
    fun re cur i q s h hc => padLoop_stop hc,
    fun cur s n h hlen => arrTruncPhase_take h hlen, ?_, ?_⟩
  · intro re
    have hsub : substValue schemaC4 (some (.jarr [.jnum 1])) = .jarr [.jnum 1] := by
      simp [substValue, schemaC4, getProp, lookupField, isValueTypeAny, isValueType, getValueType]
    rw [getValidValueOrDefault_arr hsub]
    have hmin : getProp schemaC4 "minItems" = some (.jnum 3) := by
      simp [schemaC4, getProp, lookupField]
    rw [populateArrayDefaults_min hmin (by decide)]
    have hnorm : arrNormLoop re [.jnum 1] [.jnum 1] 0 schemaC4 = [.jnum 1] := by
      rw [arrNormLoop_cons_some (resC4 0 [.jnum 1]), arrNormLoop_nil]
      simp [gvvod_schemaNum_num]
    simp only [hnorm, List.length_cons, List.length_nil]
    rw [if_pos (by norm_num)]
    rw [padLoop_go_some (by norm_num) (resC4 1 [.jnum 1])]
    simp only [gvvod_schemaNum_none, List.cons_append, List.nil_append]
    rw [padLoop_go_some (by norm_num) (resC4 2 [.jnum 1, .jnum 0])]
    simp only [gvvod_schemaNum_none, List.cons_append, List.nil_append]
    rw [padLoop_stop (by norm_num)]
    simp [arrTruncPhase, schemaC4, getProp, lookupField]
  · intro re
    have hsub : substValue schemaC4 (some (.jarr [.jnum 1, .jnum 2, .jnum 3, .jnum 4]))
        = .jarr [.jnum 1, .jnum 2, .jnum 3, .jnum 4] := by
      simp [substValue, schemaC4, getProp, lookupField, isValueTypeAny, isValueType, getValueType]
    rw [getValidValueOrDefault_arr hsub]
    have hmin : getProp schemaC4 "minItems" = some (.jnum 3) := by
      simp [schemaC4, getProp, lookupField]
    rw [populateArrayDefaults_min hmin (by decide)]
    have hnorm : arrNormLoop re [.jnum 1, .jnum 2, .jnum 3, .jnum 4]
        [.jnum 1, .jnum 2, .jnum 3, .jnum 4] 0 schemaC4
        = [.jnum 1, .jnum 2, .jnum 3, .jnum 4] := by
      rw [arrNormLoop_cons_some (resC4 0 _)]
      simp only [gvvod_schemaNum_num, List.set]
      rw [arrNormLoop_cons_some (resC4 1 _)]
      simp only [gvvod_schemaNum_num, List.set]
      rw [arrNormLoop_cons_some (resC4 2 _)]
      simp only [gvvod_schemaNum_num, List.set]
      rw [arrNormLoop_cons_some (resC4 3 _)]
      simp only [gvvod_schemaNum_num, List.set]
      rw [arrNormLoop_nil]
    simp only [hnorm, List.length_cons, List.length_nil]
    rw [if_neg (by norm_num)]
    have htr := @arrTruncPhase_take [.jnum 1, .jnum 2, .jnum 3, .jnum 4]
      schemaC4 3 (by simp [schemaC4, getProp, lookupField]) (by decide)
    rw [htr]
    rfl

/-- Witness for C4: truncation of a four-element array under
`maxItems:3` keeps the first three elements, and the spec's concrete
padding example evaluates. -/
theorem array_pad_truncate_witness :
    arrTruncPhase [.jnull, .jnull, .jnull, .jnull] schemaC4 = .jarr [.jnull, .jnull, .jnull]
    ∧ getValidValueOrDefault noRegex schemaC4 (some (.jarr [.jnum 1]))
        = .jarr [.jnum 1, .jnum 0, .jnum 0] :=
  ⟨array_minItems_pad_maxItems_truncate.2.2.2.2.1 [.jnull, .jnull, .jnull, .jnull]
      schemaC4 3 (by simp [schemaC4, getProp, lookupField]) (by decide),
   array_minItems_pad_maxItems_truncate.2.2.2.2.2.1 noRegex⟩

/-! Outcome invariance: the threaded traversal info never influences
whether validation succeeds, nor the message, value and schema of the
error it throws (only the `info` snapshot inside the error varies).
`outcome` projects a validation result onto that info-free skeleton. -/

/-- The info-free skeleton of a validation result: `none` for success,
the error's message, value and schema for failure. -/
def outcome : VResult → Option (String × JValue × JValue)
  | .ok _ => none
  | .error e => some (e.message, e.value, e.schema)

theorem outcome_eq_ok {r1 r2 : VResult} (h : outcome r1 = outcome r2)
    {i1 : TraversalInfo} (h1 : r1 = .ok i1) : ∃ i2, r2 = .ok i2 := by
  cases r2 with
  | ok i2 => exact ⟨i2, rfl⟩
  | error e2 => rw [h1] at h; simp [outcome] at h

theorem outcome_eq_err {r1 r2 : VResult} (h : outcome r1 = outcome r2)
    {e1 : ValidationError} (h1 : r1 = .error e1) :
    ∃ e2, r2 = .error e2 ∧ e2.message = e1.message ∧ e2.value = e1.value
      ∧ e2.schema = e1.schema := by
  cases r2 with
  | ok i2 => rw [h1] at h; simp [outcome] at h
  | error e2 =>
      rw [h1] at h
      simp only [outcome, Option.some.injEq, Prod.mk.injEq] at h
      exact ⟨e2, rfl, h.1.symm, h.2.1.symm, h.2.2.symm⟩

theorem outcome_isOk {r1 r2 : VResult} (h : outcome r1 = outcome r2) :
    r1.isOk = r2.isOk := by
  cases r1 <;> cases r2 <;> simp_all [outcome, Except.isOk, Except.toBool]

/-- `_validateNumber` never reads the info it threads through. -/
theorem validateNumber_outcome (q : Rat) (s : JValue) (info info2 : TraversalInfo) :
    outcome (validateNumber q s info) = outcome (validateNumber q s info2) := by
  simp only [validateNumber]
  repeat' split
  all_goals simp [outcome]

/-- `_validateString` never reads the info it threads through. -/
theorem validateString_outcome (re : RegexEngine) (str : String) (s : JValue)
    (info info2 : TraversalInfo) :
    outcome (validateString re str s info) = outcome (validateString re str s info2) := by
  simp only [validateString]
  repeat' split
  all_goals simp [outcome]

/-- `_validateConditional` step: `if` present, its validation succeeds,
`then` present. -/
theorem validateConditional_ok_then {re : RegexEngine} {v s : JValue} {info : TraversalInfo}
    {f g : List (String × JValue)} {i2 : TraversalInfo}
    (hif : getProp s "if" = some (.jobj f))
    (hok : jvalidate re v (.jobj f) (schemaPush info (some (.str "if")) (.jobj f)) = .ok i2)
    (hthen : getProp s "then" = some (.jobj g)) :
    validateConditional re v s info =
      (match jvalidate re v (.jobj g)
          (schemaPush (schemaPop i2) (some (.str "then")) (.jobj g)) with
       | .ok i4 => .ok (schemaPop i4)
       | .error e => .error e) := by
  rw [validateConditional.eq_def]
  split
  · rename_i f' hf
    rw [hif] at hf
    injection hf with h1
    injection h1 with h2
    subst h2
    split
    · rename_i i4 heq
      rw [hok] at heq
      injection heq with h3
      subst h3
      split
      · rename_i g' hthen'
        rw [hthen] at hthen'
        injection hthen' with h4
        injection h4 with h5
        subst h5
        rfl
      · rename_i hno
        exact absurd hthen (hno g)
    · rename_i e heq
      rw [hok] at heq
      cases heq
  · rename_i hno
    exact absurd hif (hno f)

/-- `_validateConditional` step: `if` present and succeeding, no object
`then`. -/
theorem validateConditional_ok_nothen {re : RegexEngine} {v s : JValue}
    {info : TraversalInfo} {f : List (String × JValue)} {i2 : TraversalInfo}
    (hif : getProp s "if" = some (.jobj f))
    (hok : jvalidate re v (.jobj f) (schemaPush info (some (.str "if")) (.jobj f)) = .ok i2)
    (hthen : ∀ g, getProp s "then" ≠ some (.jobj g)) :
    validateConditional re v s info = .ok (schemaPop i2) := by
  rw [validateConditional.eq_def]
  split
  · rename_i f' hf
    rw [hif] at hf
    injection hf with h1
    injection h1 with h2
    subst h2
    split
    · rename_i i4 heq
      rw [hok] at heq
      injection heq with h3
      subst h3
      split
      · rename_i g' hthen'
        exact absurd hthen' (hthen g')
      · rfl
    · rename_i e heq
      rw [hok] at heq
      cases heq
  · rename_i hno
    exact absurd hif (hno f)

/-- `_validateConditional` step: `if` present, its validation fails,
`else` present. -/
theorem validateConditional_err_else {re : RegexEngine} {v s : JValue}
    {info : TraversalInfo} {f g : List (String × JValue)} {e1 : ValidationError}
    (hif : getProp s "if" = some (.jobj f))
    (herr : jvalidate re v (.jobj f) (schemaPush info (some (.str "if")) (.jobj f)) = .error e1)
    (helse : getProp s "else" = some (.jobj g)) :
    validateConditional re v s info =
      (match jvalidate re v (.jobj g)
          (schemaPush (schemaPop e1.info) (some (.str "else")) (.jobj g)) with
       | .ok i4 => .ok (schemaPop i4)
       | .error e => .error e) := by
  rw [validateConditional.eq_def]
  split
  · rename_i f' hf
    rw [hif] at hf
    injection hf with h1
    injection h1 with h2
    subst h2
    split
    · rename_i i4 heq
      rw [herr] at heq
      cases heq
    · rename_i e heq
      rw [herr] at heq
      injection heq with h3
      subst h3
      split
      · rename_i g' helse'
        rw [helse] at helse'
        injection helse' with h4
        injection h4 with h5
        subst h5
        rfl
      · rename_i hno
        exact absurd helse (hno g)
  · rename_i hno
    exact absurd hif (hno f)

/-- `_validateConditional` step: `if` present and failing, no object
`else`: the failure is absorbed. -/
theorem validateConditional_err_noelse {re : RegexEngine} {v s : JValue}
    {info : TraversalInfo} {f : List (String × JValue)} {e1 : ValidationError}
    (hif : getProp s "if" = some (.jobj f))
    (herr : jvalidate re v (.jobj f) (schemaPush info (some (.str "if")) (.jobj f)) = .error e1)
    (helse : ∀ g, getProp s "else" ≠ some (.jobj g)) :
    validateConditional re v s info = .ok (schemaPop e1.info) := by
  rw [validateConditional.eq_def]
  split
  · rename_i f' hf
    rw [hif] at hf
    injection hf with h1
    injection h1 with h2
    subst h2
    split
    · rename_i i4 heq
      rw [herr] at heq
      cases heq
    · rename_i e heq
      rw [herr] at heq
      injection heq with h3
      subst h3
      split
      · rename_i g' helse'
        exact absurd helse' (helse g')
      · rfl
  · rename_i hno
    exact absurd hif (hno f)

/-! Evaluation step lemmas for the validator loops and the array/object
checks, stated with explicit result hypotheses so that concrete and
symbolic runs can be rewritten step by step. -/

theorem noneOfLoop_nil {re : RegexEngine} {v s : JValue} {i : Nat} {info : TraversalInfo} :
    noneOfLoop re v s [] i info = .ok (schemaPop info) := by
  rw [noneOfLoop.eq_def]

theorem noneOfLoop_cons_ok {re : RegexEngine} {v s x : JValue} {xs : List JValue}
    {i : Nat} {info i2 : TraversalInfo}
    (h : jvalidate re v x (schemaPush info (some (.nat i)) x) = .ok i2) :
    noneOfLoop re v s (x :: xs) i info = .error ⟨s!"not[{i}] schema matched", v, s, i2⟩ := by
  rw [noneOfLoop.eq_def]
  split
  · rename_i heq; cases heq
  · rename_i m rest heq
    injection heq with h1 h2
    subst h1; subst h2
    split
    · rename_i i4 hr; rw [h] at hr; injection hr with h3; subst h3; rfl
    · rename_i e hr; rw [h] at hr; cases hr

theorem noneOfLoop_cons_err {re : RegexEngine} {v s x : JValue} {xs : List JValue}
    {i : Nat} {info : TraversalInfo} {e : ValidationError}
    (h : jvalidate re v x (schemaPush info (some (.nat i)) x) = .error e) :
    noneOfLoop re v s (x :: xs) i info = noneOfLoop re v s xs (i + 1) (schemaPop e.info) := by
  rw [noneOfLoop.eq_def]
  split
  · rename_i heq; cases heq
  · rename_i m rest heq
    injection heq with h1 h2
    subst h1; subst h2
    split
    · rename_i i4 hr; rw [h] at hr; cases hr
    · rename_i e' hr; rw [h] at hr; injection hr with h3; subst h3; rfl

theorem oneOfLoop_nil_ne {re : RegexEngine} {v s : JValue} {i count : Nat}
    {info : TraversalInfo} (h : count ≠ 1) :
    oneOfLoop re v s [] i count info =
      .error ⟨s!"{count} oneOf schemas matched", v, s, info⟩ := by
  rw [oneOfLoop.eq_def]
  simp [h]

theorem oneOfLoop_nil_one {re : RegexEngine} {v s : JValue} {i : Nat}
    {info : TraversalInfo} :
    oneOfLoop re v s [] i 1 info = .ok (schemaPop info) := by
  rw [oneOfLoop.eq_def]
  simp

theorem oneOfLoop_cons_ok {re : RegexEngine} {v s x : JValue} {xs : List JValue}
    {i count : Nat} {info i2 : TraversalInfo}
    (h : jvalidate re v x (schemaPush info (some (.nat i)) x) = .ok i2) :
    oneOfLoop re v s (x :: xs) i count info =
      oneOfLoop re v s xs (i + 1) (count + 1) (schemaPop i2) := by
  rw [oneOfLoop.eq_def]
  split
  · rename_i heq; cases heq
  · rename_i m rest heq
    injection heq with h1 h2
    subst h1; subst h2
    split
    · rename_i i4 hr; rw [h] at hr; injection hr with h3; subst h3; rfl
    · rename_i e hr; rw [h] at hr; cases hr

theorem oneOfLoop_cons_err {re : RegexEngine} {v s x : JValue} {xs : List JValue}
    {i count : Nat} {info : TraversalInfo} {e : ValidationError}
    (h : jvalidate re v x (schemaPush info (some (.nat i)) x) = .error e) :
    oneOfLoop re v s (x :: xs) i count info =
      oneOfLoop re v s xs (i + 1) count (schemaPop e.info) := by
  rw [oneOfLoop.eq_def]
  split
  · rename_i heq; cases heq
  · rename_i m rest heq
    injection heq with h1 h2
    subst h1; subst h2
    split
    · rename_i i4 hr; rw [h] at hr; cases hr
    · rename_i e' hr; rw [h] at hr; injection hr with h3; subst h3; rfl

theorem anyOfLoop_nil {re : RegexEngine} {v s : JValue} {i : Nat} {info : TraversalInfo} :
    anyOfLoop re v s [] i info = .error ⟨"0 anyOf schemas matched", v, s, info⟩ := by
  rw [anyOfLoop.eq_def]

theorem anyOfLoop_cons_ok {re : RegexEngine} {v s x : JValue} {xs : List JValue}
    {i : Nat} {info i2 : TraversalInfo}
    (h : jvalidate re v x (schemaPush info (some (.nat i)) x) = .ok i2) :
    anyOfLoop re v s (x :: xs) i info = .ok i2 := by
  rw [anyOfLoop.eq_def]
  split
  · rename_i heq; cases heq
  · rename_i m rest heq
    injection heq with h1 h2
    subst h1; subst h2
    split
    · rename_i i4 hr; rw [h] at hr; injection hr with h3; subst h3; rfl
    · rename_i e hr; rw [h] at hr; cases hr

theorem anyOfLoop_cons_err {re : RegexEngine} {v s x : JValue} {xs : List JValue}
    {i : Nat} {info : TraversalInfo} {e : ValidationError}
    (h : jvalidate re v x (schemaPush info (some (.nat i)) x) = .error e) :
    anyOfLoop re v s (x :: xs) i info = anyOfLoop re v s xs (i + 1) (schemaPop e.info) := by
  rw [anyOfLoop.eq_def]
  split
  · rename_i heq; cases heq
  · rename_i m rest heq
    injection heq with h1 h2
    subst h1; subst h2
    split
    · rename_i i4 hr; rw [h] at hr; cases hr
    · rename_i e' hr; rw [h] at hr; injection hr with h3; subst h3; rfl

theorem allOfLoop_nil {re : RegexEngine} {v : JValue} {i : Nat} {info : TraversalInfo} :
    allOfLoop re v [] i info = .ok (schemaPop info) := by
  rw [allOfLoop.eq_def]

theorem allOfLoop_cons_ok {re : RegexEngine} {v x : JValue} {xs : List JValue}
    {i : Nat} {info i2 : TraversalInfo}
    (h : jvalidate re v x (schemaPush info (some (.nat i)) x) = .ok i2) :
    allOfLoop re v (x :: xs) i info = allOfLoop re v xs (i + 1) (schemaPop i2) := by
  rw [allOfLoop.eq_def]
  split
  · rename_i heq; cases heq
  · rename_i m rest heq
    injection heq with h1 h2
    subst h1; subst h2
    split
    · rename_i i4 hr; rw [h] at hr; injection hr with h3; subst h3; rfl
    · rename_i e hr; rw [h] at hr; cases hr

theorem allOfLoop_cons_err {re : RegexEngine} {v x : JValue} {xs : List JValue}
    {i : Nat} {info : TraversalInfo} {e : ValidationError}
    (h : jvalidate re v x (schemaPush info (some (.nat i)) x) = .error e) :
    allOfLoop re v (x :: xs) i info = .error e := by
  rw [allOfLoop.eq_def]
  split
  · rename_i heq; cases heq
  · rename_i m rest heq
    injection heq with h1 h2
    subst h1; subst h2
    split
    · rename_i i4 hr; rw [h] at hr; cases hr
    · rename_i e' hr; rw [h] at hr; injection hr with h3; subst h3; rfl

theorem objPropsLoop_nil {re : RegexEngine} {fs : List (String × JValue)} {s : JValue}
    {info : TraversalInfo} : objPropsLoop re fs s [] info = .ok info := by
  rw [objPropsLoop.eq_def]

theorem objPropsLoop_cons_none {re : RegexEngine} {fs : List (String × JValue)}
    {s : JValue} {k : String} {x : JValue} {rest : List (String × JValue)}
    {info : TraversalInfo}
    (h : getPropertySchemaWith s (.str k) (some (.jobj fs)) = none) :
    objPropsLoop re fs s ((k, x) :: rest) info =
      .error ⟨s!"No schema found for {k}", .jobj fs, s, info⟩ := by
  rw [objPropsLoop.eq_def]
  split
  · rename_i heq; cases heq
  · rename_i a b heq
    injection heq with h1 h2
    injection h1 with hk hx
    subst hk; subst hx; subst h2
    split
    · rfl
    · rename_i psc spath hr; rw [h] at hr; cases hr

theorem objPropsLoop_cons_ok {re : RegexEngine} {fs : List (String × JValue)}
    {s : JValue} {k : String} {x : JValue} {rest : List (String × JValue)}
    {info : TraversalInfo} {psc : JValue} {spath : List PathEntry} {i2 : TraversalInfo}
    (h : getPropertySchemaWith s (.str k) (some (.jobj fs)) = some (psc, spath))
    (hv : jvalidate re x psc (valuePush (schemaPushList info spath) (some (.str k)) x) = .ok i2) :
    objPropsLoop re fs s ((k, x) :: rest) info =
      objPropsLoop re fs s rest (schemaPopN (valuePop i2) spath.length) := by
  rw [objPropsLoop.eq_def]
  split
  · rename_i heq; cases heq
  · rename_i a b heq
    injection heq with h1 h2
    injection h1 with hk hx
    subst hk; subst hx; subst h2
    split
    · rename_i hr; rw [h] at hr; cases hr
    · rename_i psc' spath' hr
      rw [h] at hr
      injection hr with h3
      injection h3 with h4 h5
      subst h4; subst h5
      split
      · rename_i i4 hjr; rw [hv] at hjr; injection hjr with h6; subst h6; rfl
      · rename_i e hjr; rw [hv] at hjr; cases hjr

theorem objPropsLoop_cons_err {re : RegexEngine} {fs : List (String × JValue)}
    {s : JValue} {k : String} {x : JValue} {rest : List (String × JValue)}
    {info : TraversalInfo} {psc : JValue} {spath : List PathEntry} {e : ValidationError}
    (h : getPropertySchemaWith s (.str k) (some (.jobj fs)) = some (psc, spath))
    (hv : jvalidate re x psc (valuePush (schemaPushList info spath) (some (.str k)) x)
        = .error e) :
    objPropsLoop re fs s ((k, x) :: rest) info = .error e := by
  rw [objPropsLoop.eq_def]
  split
  · rename_i heq; cases heq
  · rename_i a b heq
    injection heq with h1 h2
    injection h1 with hk hx
    subst hk; subst hx; subst h2
    split
    · rename_i hr; rw [h] at hr; cases hr
    · rename_i psc' spath' hr
      rw [h] at hr
      injection hr with h3
      injection h3 with h4 h5
      subst h4; subst h5
      split
      · rename_i i4 hjr; rw [hv] at hjr; cases hjr
      · rename_i e' hjr; rw [hv] at hjr; injection hjr with h6; subst h6; rfl

theorem arrayElemsLoop_nil {re : RegexEngine} {xs : List JValue} {s : JValue}
    {i : Nat} {info : TraversalInfo} : arrayElemsLoop re xs s [] i info = .ok info := by
  rw [arrayElemsLoop.eq_def]

theorem arrayElemsLoop_cons_none {re : RegexEngine} {xs : List JValue} {s x : JValue}
    {rest : List JValue} {i : Nat} {info : TraversalInfo}
    (h : getPropertySchemaWith s (.nat i) (some (.jarr xs)) = none) :
    arrayElemsLoop re xs s (x :: rest) i info =
      .error ⟨s!"No schema found for array[{i}]", .jarr xs, s, info⟩ := by
  rw [arrayElemsLoop.eq_def]
  split
  · rename_i heq; cases heq
  · rename_i a b heq
    injection heq with h1 h2
    subst h1; subst h2
    split
    · rfl
    · rename_i psc spath hr; rw [h] at hr; cases hr

theorem arrayElemsLoop_cons_ok {re : RegexEngine} {xs : List JValue} {s x : JValue}
    {rest : List JValue} {i : Nat} {info : TraversalInfo}
    {psc : JValue} {spath : List PathEntry} {i2 : TraversalInfo}
    (h : getPropertySchemaWith s (.nat i) (some (.jarr xs)) = some (psc, spath))
    (hv : jvalidate re x psc (valuePush (schemaPushList info spath) (some (.nat i)) x)
        = .ok i2) :
    arrayElemsLoop re xs s (x :: rest) i info =
      arrayElemsLoop re xs s rest (i + 1) (schemaPopN (valuePop i2) spath.length) := by
  rw [arrayElemsLoop.eq_def]
  split
  · rename_i heq; cases heq
  · rename_i a b heq
    injection heq with h1 h2
    subst h1; subst h2
    split
    · rename_i hr; rw [h] at hr; cases hr
    · rename_i psc' spath' hr
      rw [h] at hr
      injection hr with h3
      injection h3 with h4 h5
      subst h4; subst h5
      split
      · rename_i i4 hjr; rw [hv] at hjr; injection hjr with h6; subst h6; rfl
      · rename_i e hjr; rw [hv] at hjr; cases hjr

theorem arrayElemsLoop_cons_err {re : RegexEngine} {xs : List JValue} {s x : JValue}
    {rest : List JValue} {i : Nat} {info : TraversalInfo}
    {psc : JValue} {spath : List PathEntry} {e : ValidationError}
    (h : getPropertySchemaWith s (.nat i) (some (.jarr xs)) = some (psc, spath))
    (hv : jvalidate re x psc (valuePush (schemaPushList info spath) (some (.nat i)) x)
        = .error e) :
    arrayElemsLoop re xs s (x :: rest) i info = .error e := by
  rw [arrayElemsLoop.eq_def]
  split
  · rename_i heq; cases heq
  · rename_i a b heq
    injection heq with h1 h2
    subst h1; subst h2
    split
    · rename_i hr; rw [h] at hr; cases hr
    · rename_i psc' spath' hr
      rw [h] at hr
      injection hr with h3
      injection h3 with h4 h5
      subst h4; subst h5
      split
      · rename_i i4 hjr; rw [hv] at hjr; cases hjr
      · rename_i e' hjr; rw [hv] at hjr; injection hjr with h6; subst h6; rfl

theorem containsLoop_nil {re : RegexEngine} {xs : List JValue} {s cs : JValue}
    {i : Nat} {info : TraversalInfo} :
    containsLoop re xs s cs [] i info =
      .error ⟨"contains schema didn\x27t match", .jarr xs, s, info⟩ := by
  rw [containsLoop.eq_def]

theorem containsLoop_cons_ok {re : RegexEngine} {xs : List JValue} {s cs x : JValue}
    {rest : List JValue} {i : Nat} {info i2 : TraversalInfo}
    (h : jvalidate re x cs (valuePush info (some (.nat i)) x) = .ok i2) :
    containsLoop re xs s cs (x :: rest) i info = .ok (schemaPop i2) := by
  rw [containsLoop.eq_def]
  split
  · rename_i heq; cases heq
  · rename_i a b heq
    injection heq with h1 h2
    subst h1; subst h2
    split
    · rename_i i4 hr; rw [h] at hr; injection hr with h3; subst h3; rfl
    · rename_i e hr; rw [h] at hr; cases hr

theorem containsLoop_cons_err {re : RegexEngine} {xs : List JValue} {s cs x : JValue}
    {rest : List JValue} {i : Nat} {info : TraversalInfo} {e : ValidationError}
    (h : jvalidate re x cs (valuePush info (some (.nat i)) x) = .error e) :
    containsLoop re xs s cs (x :: rest) i info =
      containsLoop re xs s cs rest (i + 1) (valuePop e.info) := by
  rw [containsLoop.eq_def]
  split
  · rename_i heq; cases heq
  · rename_i a b heq
    injection heq with h1 h2
    subst h1; subst h2
    split
    · rename_i i4 hr; rw [h] at hr; cases hr
    · rename_i e' hr; rw [h] at hr; injection hr with h3; subst h3; rfl

theorem validateArray_short {re : RegexEngine} {xs : List JValue} {s : JValue}
    {info : TraversalInfo}
    (h : (match getProp s "minItems" with
          | some (.jnum m) => decide ((xs.length : Rat) < m)
          | _ => false) = true) :
    validateArray re xs s info = .error ⟨"Array length too short", .jarr xs, s, info⟩ := by
  rw [validateArray.eq_def]
  rw [if_pos h]

theorem validateArray_long {re : RegexEngine} {xs : List JValue} {s : JValue}
    {info : TraversalInfo}
    (h1 : ¬ (match getProp s "minItems" with
          | some (.jnum m) => decide ((xs.length : Rat) < m)
          | _ => false) = true)
    (h2 : (match getProp s "maxItems" with
          | some (.jnum m) => decide ((xs.length : Rat) > m)
          | _ => false) = true) :
    validateArray re xs s info = .error ⟨"Array length too long", .jarr xs, s, info⟩ := by
  rw [validateArray.eq_def]
  rw [if_neg h1, if_pos h2]

theorem validateArray_contains_err {re : RegexEngine} {xs : List JValue} {s : JValue}
    {info : TraversalInfo} {e : ValidationError}
    (h1 : ¬ (match getProp s "minItems" with
          | some (.jnum m) => decide ((xs.length : Rat) < m)
          | _ => false) = true)
    (h2 : ¬ (match getProp s "maxItems" with
          | some (.jnum m) => decide ((xs.length : Rat) > m)
          | _ => false) = true)
    (h3 : validateArrayContains re xs s info = .error e) :
    validateArray re xs s info = .error e := by
  rw [validateArray.eq_def]
  rw [if_neg h1, if_neg h2]
  split
  · rename_i e' hr; rw [h3] at hr; injection hr with h4; subst h4; rfl
  · rename_i i1 hr; rw [h3] at hr; cases hr

theorem validateArray_contains_ok {re : RegexEngine} {xs : List JValue} {s : JValue}
    {info : TraversalInfo} {i1 : TraversalInfo}
    (h1 : ¬ (match getProp s "minItems" with
          | some (.jnum m) => decide ((xs.length : Rat) < m)
          | _ => false) = true)
    (h2 : ¬ (match getProp s "maxItems" with
          | some (.jnum m) => decide ((xs.length : Rat) > m)
          | _ => false) = true)
    (h3 : validateArrayContains re xs s info = .ok i1) :
    validateArray re xs s info = arrayElemsLoop re xs s xs 0 i1 := by
  rw [validateArray.eq_def]
  rw [if_neg h1, if_neg h2]
  split
  · rename_i e' hr; rw [h3] at hr; cases hr
  · rename_i i1' hr; rw [h3] at hr; injection hr with h4; subst h4; rfl

theorem validateObject_missing {re : RegexEngine} {fs : List (String × JValue)}
    {s : JValue} {info : TraversalInfo} {m : JValue}
    (h : findMissingRequired fs (match getProp s "required" with
          | some (.jarr l) => l
          | _ => []) = some m) :
    validateObject re fs s info =
      .error ⟨s!"Missing property {jsDisplay m}", .jobj fs, s, info⟩ := by
  rw [validateObject.eq_def]
  split
  · rename_i m' hr; rw [h] at hr; injection hr with h1; subst h1; rfl
  · rename_i hr; rw [h] at hr; cases hr

theorem validateObject_scan_ok {re : RegexEngine} {fs : List (String × JValue)}
    {s : JValue} {info : TraversalInfo}
    (h : findMissingRequired fs (match getProp s "required" with
          | some (.jarr l) => l
          | _ => []) = none) :
    validateObject re fs s info = objPropsLoop re fs s fs info := by
  rw [validateObject.eq_def]
  split
  · rename_i m' hr; rw [h] at hr; cases hr
  · rfl

theorem validateNoneOf_noList {re : RegexEngine} {v s : JValue} {info : TraversalInfo}
    (h : ∀ l, getProp s "not" ≠ some (.jarr l)) : validateNoneOf re v s info = .ok info := by
  rw [validateNoneOf.eq_def]
  split
  · rename_i l hl; exact absurd hl (h l)
  · rfl

theorem validateOneOf_noList {re : RegexEngine} {v s : JValue} {info : TraversalInfo}
    (h : ∀ l, getProp s "oneOf" ≠ some (.jarr l)) : validateOneOf re v s info = .ok info := by
  rw [validateOneOf.eq_def]
  split
  · rename_i l hl; exact absurd hl (h l)
  · rfl

theorem validateAnyOf_noList {re : RegexEngine} {v s : JValue} {info : TraversalInfo}
    (h : ∀ l, getProp s "anyOf" ≠ some (.jarr l)) : validateAnyOf re v s info = .ok info := by
  rw [validateAnyOf.eq_def]
  split
  · rename_i l hl; exact absurd hl (h l)
  · rfl

theorem validateAllOf_noList {re : RegexEngine} {v s : JValue} {info : TraversalInfo}
    (h : ∀ l, getProp s "allOf" ≠ some (.jarr l)) : validateAllOf re v s info = .ok info := by
  rw [validateAllOf.eq_def]
  split
  · rename_i l hl; exact absurd hl (h l)
  · rfl

theorem validateConditional_noIf {re : RegexEngine} {v s : JValue} {info : TraversalInfo}
    (h : ∀ g, getProp s "if" ≠ some (.jobj g)) : validateConditional re v s info = .ok info := by
  rw [validateConditional.eq_def]
  split
  · rename_i g hg; exact absurd hg (h g)
  · rfl

theorem validateArrayContains_noObj {re : RegexEngine} {xs : List JValue} {s : JValue}
    {info : TraversalInfo} (h : ∀ g, getProp s "contains" ≠ some (.jobj g)) :
    validateArrayContains re xs s info = .ok info := by
  rw [validateArrayContains.eq_def]
  split
  · rename_i g hg; exact absurd hg (h g)
  · rfl

theorem vss_type_fail {re : RegexEngine} {v s : JValue} {info : TraversalInfo}
    (h : isValueTypeAny v (getValueType (some v)) (getProp s "type") = false) :
    validateSingleSchema re v s info =
      (let t := getValueType (some v)
       let td := typeDisplay (getProp s "type")
       .error ⟨s!"Value type {t} does not match schema type {td}", v, s, info⟩) := by
  cases v <;> simp [validateSingleSchema, h]

theorem vss_const_fail {re : RegexEngine} {v s : JValue} {info : TraversalInfo}
    (hty : isValueTypeAny v (getValueType (some v)) (getProp s "type") = true)
    (hc : (match getProp s "const" with
          | some c => !(jsStrictEq v c)
          | none => false) = true) :
    validateSingleSchema re v s info = .error ⟨"Invalid constant value", v, s, info⟩ := by
  cases v <;> simp_all [validateSingleSchema]

theorem vss_enum_fail {re : RegexEngine} {v s : JValue} {info : TraversalInfo}
    (hty : isValueTypeAny v (getValueType (some v)) (getProp s "type") = true)
    (hc : (match getProp s "const" with
          | some c => !(jsStrictEq v c)
          | none => false) = false)
    (he : (match getProp s "enum" with
          | some (.jarr l) => !(valuesAreEqualAny v l)
          | _ => false) = true) :
    validateSingleSchema re v s info = .error ⟨"Invalid enum value", v, s, info⟩ := by
  cases v <;> simp_all [validateSingleSchema]

theorem vss_pass {re : RegexEngine} {v s : JValue} {info : TraversalInfo}
    (hty : isValueTypeAny v (getValueType (some v)) (getProp s "type") = true)
    (hc : (match getProp s "const" with
          | some c => !(jsStrictEq v c)
          | none => false) = false)
    (he : (match getProp s "enum" with
          | some (.jarr l) => !(valuesAreEqualAny v l)
          | _ => false) = false) :
    validateSingleSchema re v s info =
      (match v with
       | .jnum q => validateNumber q s info
       | .jstr str => validateString re str s info
       | .jarr xs => validateArray re xs s info
       | .jobj fs => validateObject re fs s info
       | _ => .ok info) := by
  cases v <;> simp_all [validateSingleSchema]

theorem bool_eq_false {b : Bool} (h : ¬ b = true) : b = false := by
  cases b
  · rfl
  · exact absurd rfl h

/-- The traversal info threaded through validation never influences the
validation outcome: success stays success, and a failure keeps its
message, value and schema (only the info snapshot inside the error
varies).  One conjunct per function of the validator's mutual block. -/
theorem outcome_invariance (re : RegexEngine) :
    (∀ (v s : JValue) (info : TraversalInfo), ∀ info2,
      outcome (jvalidate re v s info) = outcome (jvalidate re v s info2))
    ∧ (∀ (v s : JValue) (info : TraversalInfo), ∀ info2,
      outcome (validateNoneOf re v s info) = outcome (validateNoneOf re v s info2))
    ∧ (∀ (v s : JValue) (rem : List JValue) (i : Nat) (info : TraversalInfo), ∀ info2,
      outcome (noneOfLoop re v s rem i info) = outcome (noneOfLoop re v s rem i info2))
    ∧ (∀ (v s : JValue) (info : TraversalInfo), ∀ info2,
      outcome (validateOneOf re v s info) = outcome (validateOneOf re v s info2))
    ∧ (∀ (v s : JValue) (rem : List JValue) (i count : Nat) (info : TraversalInfo), ∀ info2,
      outcome (oneOfLoop re v s rem i count info) = outcome (oneOfLoop re v s rem i count info2))
    ∧ (∀ (v s : JValue) (info : TraversalInfo), ∀ info2,
      outcome (validateAnyOf re v s info) = outcome (validateAnyOf re v s info2))
    ∧ (∀ (v s : JValue) (rem : List JValue) (i : Nat) (info : TraversalInfo), ∀ info2,
      outcome (anyOfLoop re v s rem i info) = outcome (anyOfLoop re v s rem i info2))
    ∧ (∀ (v s : JValue) (info : TraversalInfo), ∀ info2,
      outcome (validateAllOf re v s info) = outcome (validateAllOf re v s info2))
    ∧ (∀ (v : JValue) (rem : List JValue) (i : Nat) (info : TraversalInfo), ∀ info2,
      outcome (allOfLoop re v rem i info) = outcome (allOfLoop re v rem i info2))
    ∧ (∀ (v s : JValue) (info : TraversalInfo), ∀ info2,
      outcome (validateConditional re v s info) = outcome (validateConditional re v s info2))
    ∧ (∀ (v s : JValue) (info : TraversalInfo), ∀ info2,
      outcome (validateSingleSchema re v s info) = outcome (validateSingleSchema re v s info2))
    ∧ (∀ (fs : List (String × JValue)) (s : JValue) (info : TraversalInfo), ∀ info2,
      outcome (validateObject re fs s info) = outcome (validateObject re fs s info2))
    ∧ (∀ (fs : List (String × JValue)) (s : JValue) (pending : List (String × JValue))
        (info : TraversalInfo), ∀ info2,
      outcome (objPropsLoop re fs s pending info) = outcome (objPropsLoop re fs s pending info2))
    ∧ (∀ (xs : List JValue) (s : JValue) (info : TraversalInfo), ∀ info2,
      outcome (validateArray re xs s info) = outcome (validateArray re xs s info2))
    ∧ (∀ (xs : List JValue) (s : JValue) (pending : List JValue) (i : Nat)
        (info : TraversalInfo), ∀ info2,
      outcome (arrayElemsLoop re xs s pending i info) = outcome (arrayElemsLoop re xs s pending i info2))
    ∧ (∀ (xs : List JValue) (s : JValue) (info : TraversalInfo), ∀ info2,
      outcome (validateArrayContains re xs s info) = outcome (validateArrayContains re xs s info2))
    ∧ (∀ (xs : List JValue) (s cs : JValue) (pending : List JValue) (i : Nat)
        (info : TraversalInfo), ∀ info2,
      outcome (containsLoop re xs s cs pending i info) = outcome (containsLoop re xs s cs pending i info2)) := by
  apply jvalidate.mutual_induct re
  -- jvalidate: single-schema phase fails
  · intro v s info e he ihss info2
    obtain ⟨e2, he2, _, _, _⟩ := outcome_eq_err (ihss info2) he
    have h1 := ihss info2
    rw [he, he2] at h1
    simp only [jvalidate.eq_def, he, he2]
    exact h1
  -- jvalidate: conditional phase fails
  · intro v s info i5 hss e hce ihss ihc info2
    obtain ⟨i5', hss'⟩ := outcome_eq_ok (ihss info2) hss
    obtain ⟨e2, hce2, _, _, _⟩ := outcome_eq_err (ihc i5') hce
    have h1 := ihc i5'
    rw [hce, hce2] at h1
    simp only [jvalidate.eq_def, hss, hss', hce, hce2]
    exact h1
  -- jvalidate: allOf phase fails
  · intro v s info i5 hss i51 hcond e hae ihss ihc iha info2
    obtain ⟨i5', hss'⟩ := outcome_eq_ok (ihss info2) hss
    obtain ⟨i51', hcond'⟩ := outcome_eq_ok (ihc i5') hcond
    obtain ⟨e2, hae2, _, _, _⟩ := outcome_eq_err (iha i51') hae
    have h1 := iha i51'
    rw [hae, hae2] at h1
    simp only [jvalidate.eq_def, hss, hss', hcond, hcond', hae, hae2]
    exact h1
  -- jvalidate: anyOf phase fails
  · intro v s info i5 hss i51 hcond i52 hall e hany ihss ihc iha ihany info2
    obtain ⟨i5', hss'⟩ := outcome_eq_ok (ihss info2) hss
    obtain ⟨i51', hcond'⟩ := outcome_eq_ok (ihc i5') hcond
    obtain ⟨i52', hall'⟩ := outcome_eq_ok (iha i51') hall
    obtain ⟨e2, hany2, _, _, _⟩ := outcome_eq_err (ihany i52') hany
    have h1 := ihany i52'
    rw [hany, hany2] at h1
    simp only [jvalidate.eq_def, hss, hss', hcond, hcond', hall, hall', hany, hany2]
    exact h1
  -- jvalidate: oneOf phase fails
  · intro v s info i5 hss i51 hcond i52 hall i53 hany e hone ihss ihc iha ihany ihone info2
    obtain ⟨i5', hss'⟩ := outcome_eq_ok (ihss info2) hss
    obtain ⟨i51', hcond'⟩ := outcome_eq_ok (ihc i5') hcond
    obtain ⟨i52', hall'⟩ := outcome_eq_ok (iha i51') hall
    obtain ⟨i53', hany'⟩ := outcome_eq_ok (ihany i52') hany
    obtain ⟨e2, hone2, _, _, _⟩ := outcome_eq_err (ihone i53') hone
    have h1 := ihone i53'
    rw [hone, hone2] at h1
    simp only [jvalidate.eq_def, hss, hss', hcond, hcond', hall, hall', hany, hany', hone, hone2]
    exact h1
  -- jvalidate: all phases up to oneOf succeed, fall through to noneOf
  · intro v s info i5 hss i51 hcond i52 hall i53 hany i54 hone ihss ihc iha ihany ihone ihn info2
    obtain ⟨i5', hss'⟩ := outcome_eq_ok (ihss info2) hss
    obtain ⟨i51', hcond'⟩ := outcome_eq_ok (ihc i5') hcond
    obtain ⟨i52', hall'⟩ := outcome_eq_ok (iha i51') hall
    obtain ⟨i53', hany'⟩ := outcome_eq_ok (ihany i52') hany
    obtain ⟨i54', hone'⟩ := outcome_eq_ok (ihone i53') hone
    simp only [jvalidate.eq_def, hss, hss', hcond, hcond', hall, hall', hany, hany', hone, hone']
    exact ihn i54'
  -- validateNoneOf: list present
  · intro v s info l hl ihl info2
    rw [validateNoneOf_list hl, validateNoneOf_list hl]
    exact ihl _
  -- validateNoneOf: no list
  · intro v s info hno info2
    rw [validateNoneOf_noList hno, validateNoneOf_noList hno]
    rfl
  -- noneOfLoop: exhausted
  · intro v s i info info2
    rw [noneOfLoop_nil, noneOfLoop_nil]
    rfl
  -- noneOfLoop: member matches
  · intro v s i info x xs i4 hok ihj info2
    obtain ⟨i4', hok'⟩ := outcome_eq_ok (ihj (schemaPush info2 (some (.nat i)) x)) hok
    rw [noneOfLoop_cons_ok hok, noneOfLoop_cons_ok hok']
    rfl
  -- noneOfLoop: member fails, absorbed
  · intro v s i info x xs e herr ihj ihl info2
    obtain ⟨e2, herr', _, _, _⟩ := outcome_eq_err (ihj (schemaPush info2 (some (.nat i)) x)) herr
    rw [noneOfLoop_cons_err herr, noneOfLoop_cons_err herr']
    exact ihl _
  -- validateOneOf: list present
  · intro v s info l hl ihl info2
    rw [validateOneOf_list hl, validateOneOf_list hl]
    exact ihl _
  -- validateOneOf: no list
  · intro v s info hno info2
    rw [validateOneOf_noList hno, validateOneOf_noList hno]
    rfl
  -- oneOfLoop: exhausted, count not one
  · intro v s i count info hne info2
    rw [oneOfLoop_nil_ne hne, oneOfLoop_nil_ne hne]
    rfl
  -- oneOfLoop: exhausted, count one
  · intro v s i count info hnn info2
    have h1 : count = 1 := not_not.mp hnn
    subst h1
    rw [oneOfLoop_nil_one, oneOfLoop_nil_one]
    rfl
  -- oneOfLoop: member matches
  · intro v s i count info x xs i4 hok ihj ihl info2
    obtain ⟨i4', hok'⟩ := outcome_eq_ok (ihj (schemaPush info2 (some (.nat i)) x)) hok
    rw [oneOfLoop_cons_ok hok, oneOfLoop_cons_ok hok']
    exact ihl _
  -- oneOfLoop: member fails, absorbed
  · intro v s i count info x xs e herr ihj ihl info2
    obtain ⟨e2, herr', _, _, _⟩ := outcome_eq_err (ihj (schemaPush info2 (some (.nat i)) x)) herr
    rw [oneOfLoop_cons_err herr, oneOfLoop_cons_err herr']
    exact ihl _
  -- validateAnyOf: list present
  · intro v s info l hl ihl info2
    rw [validateAnyOf_list hl, validateAnyOf_list hl]
    exact ihl _
  -- validateAnyOf: no list
  · intro v s info hno info2
    rw [validateAnyOf_noList hno, validateAnyOf_noList hno]
    rfl
  -- anyOfLoop: exhausted
  · intro v s i info info2
    rw [anyOfLoop_nil, anyOfLoop_nil]
    rfl
  -- anyOfLoop: member matches
  · intro v s i info x xs i4 hok ihj info2
    obtain ⟨i4', hok'⟩ := outcome_eq_ok (ihj (schemaPush info2 (some (.nat i)) x)) hok
    rw [anyOfLoop_cons_ok hok, anyOfLoop_cons_ok hok']
    rfl
  -- anyOfLoop: member fails, absorbed
  · intro v s i info x xs e herr ihj ihl info2
    obtain ⟨e2, herr', _, _, _⟩ := outcome_eq_err (ihj (schemaPush info2 (some (.nat i)) x)) herr
    rw [anyOfLoop_cons_err herr, anyOfLoop_cons_err herr']
    exact ihl _
  -- validateAllOf: list present
  · intro v s info l hl ihl info2
    rw [validateAllOf_list hl, validateAllOf_list hl]
    exact ihl _
  -- validateAllOf: no list
  · intro v s info hno info2
    rw [validateAllOf_noList hno, validateAllOf_noList hno]
    rfl
  -- allOfLoop: exhausted
  · intro v i info info2
    rw [allOfLoop_nil, allOfLoop_nil]
    rfl
  -- allOfLoop: member succeeds
  · intro v i info x xs i4 hok ihj ihl info2
    obtain ⟨i4', hok'⟩ := outcome_eq_ok (ihj (schemaPush info2 (some (.nat i)) x)) hok
    rw [allOfLoop_cons_ok hok, allOfLoop_cons_ok hok']
    exact ihl _
  -- allOfLoop: member fails, propagated
  · intro v i info x xs e herr ihj info2
    obtain ⟨e2, herr', _, _, _⟩ := outcome_eq_err (ihj (schemaPush info2 (some (.nat i)) x)) herr
    have h1 := ihj (schemaPush info2 (some (.nat i)) x)
    rw [herr, herr'] at h1
    rw [allOfLoop_cons_err herr, allOfLoop_cons_err herr']
    exact h1
  -- validateConditional: if ok, then present and ok
  · exact fun v s info g hif i4 hifok g1 hthen i4b hthenok ihif ihthen info2 => by
      obtain ⟨i4', hifok'⟩ :=
        outcome_eq_ok (ihif (schemaPush info2 (some (.str "if")) (.jobj g))) hifok
      obtain ⟨i4b', hthenok'⟩ :=
        outcome_eq_ok (ihthen (schemaPush (schemaPop i4') (some (.str "then")) (.jobj g1))) hthenok
      rw [validateConditional_ok_then hif hifok hthen,
        validateConditional_ok_then hif hifok' hthen]
      rw [hthenok, hthenok']
      rfl
  -- validateConditional: if ok, then present and failing
  · exact fun v s info g hif i4 hifok g1 hthen e hthenerr ihif ihthen info2 => by
      obtain ⟨i4', hifok'⟩ :=
        outcome_eq_ok (ihif (schemaPush info2 (some (.str "if")) (.jobj g))) hifok
      have h1 := ihthen (schemaPush (schemaPop i4') (some (.str "then")) (.jobj g1))
      obtain ⟨e2, hthen2, _, _, _⟩ := outcome_eq_err h1 hthenerr
      rw [hthenerr, hthen2] at h1
      rw [validateConditional_ok_then hif hifok hthen,
        validateConditional_ok_then hif hifok' hthen]
      rw [hthenerr, hthen2]
      exact h1
  -- validateConditional: if ok, no then
  · exact fun v s info g hif i4 hifok hno ihif info2 => by
      obtain ⟨i4', hifok'⟩ :=
        outcome_eq_ok (ihif (schemaPush info2 (some (.str "if")) (.jobj g))) hifok
      rw [validateConditional_ok_nothen hif hifok hno,
        validateConditional_ok_nothen hif hifok' hno]
      rfl
  -- validateConditional: if fails, else present and ok
  · exact fun v s info g hif e hiferr g1 helse i4b helseok ihif ihelse info2 => by
      obtain ⟨e2, hiferr', _, _, _⟩ :=
        outcome_eq_err (ihif (schemaPush info2 (some (.str "if")) (.jobj g))) hiferr
      obtain ⟨i4b', helseok'⟩ :=
        outcome_eq_ok (ihelse (schemaPush (schemaPop e2.info) (some (.str "else")) (.jobj g1))) helseok
      rw [validateConditional_err_else hif hiferr helse,
        validateConditional_err_else hif hiferr' helse]
      rw [helseok, helseok']
      rfl
  -- validateConditional: if fails, else present and failing
  · exact fun v s info g hif e hiferr g1 helse e3 helseerr ihif ihelse info2 => by
      obtain ⟨e2, hiferr', _, _, _⟩ :=
        outcome_eq_err (ihif (schemaPush info2 (some (.str "if")) (.jobj g))) hiferr
      have h1 := ihelse (schemaPush (schemaPop e2.info) (some (.str "else")) (.jobj g1))
      obtain ⟨e4, helse2, _, _, _⟩ := outcome_eq_err h1 helseerr
      rw [helseerr, helse2] at h1
      rw [validateConditional_err_else hif hiferr helse,
        validateConditional_err_else hif hiferr' helse]
      rw [helseerr, helse2]
      exact h1
  -- validateConditional: if fails, no else
  · exact fun v s info g hif e hiferr hno ihif info2 => by
      obtain ⟨e2, hiferr', _, _, _⟩ :=
        outcome_eq_err (ihif (schemaPush info2 (some (.str "if")) (.jobj g))) hiferr
      rw [validateConditional_err_noelse hif hiferr hno,
        validateConditional_err_noelse hif hiferr' hno]
      rfl
  -- validateConditional: no if
  · intro v s info hno info2
    rw [validateConditional_noIf hno, validateConditional_noIf hno]
    rfl
  -- validateSingleSchema: type mismatch
  · exact fun v s info h info2 => by
      have hb := bool_eq_false h
      rw [vss_type_fail hb, vss_type_fail hb]
      rfl
  -- validateSingleSchema: const mismatch
  · exact fun v s info hty0 hc info2 => by
      have hty := not_not.mp hty0
      rw [vss_const_fail hty hc, vss_const_fail hty hc]
      rfl
  -- validateSingleSchema: enum mismatch
  · exact fun v s info hty0 hc0 he info2 => by
      have hty := not_not.mp hty0
      have hc := bool_eq_false hc0
      rw [vss_enum_fail hty hc he, vss_enum_fail hty hc he]
      rfl
  -- validateSingleSchema: number
  · exact fun s info q hty0 hc0 he0 info2 => by
      have hty := not_not.mp hty0
      have hc := bool_eq_false hc0
      have he := bool_eq_false he0
      rw [vss_pass hty hc he, vss_pass hty hc he]
      exact validateNumber_outcome q s info info2
  -- validateSingleSchema: string
  · exact fun s info str hty0 hc0 he0 info2 => by
      have hty := not_not.mp hty0
      have hc := bool_eq_false hc0
      have he := bool_eq_false he0
      rw [vss_pass hty hc he, vss_pass hty hc he]
      exact validateString_outcome re str s info info2
  -- validateSingleSchema: array
  · exact fun s info xs hty0 hc0 he0 iha info2 => by
      have hty := not_not.mp hty0
      have hc := bool_eq_false hc0
      have he := bool_eq_false he0
      rw [vss_pass hty hc he, vss_pass hty hc he]
      exact iha info2
  -- validateSingleSchema: object
  · exact fun s info fs hty0 hc0 he0 iho info2 => by
      have hty := not_not.mp hty0
      have hc := bool_eq_false hc0
      have he := bool_eq_false he0
      rw [vss_pass hty hc he, vss_pass hty hc he]
      exact iho info2
  -- validateSingleSchema: null and boolean
  · exact fun v s info hty0 hc0 he0 hnn hns hna hno info2 => by
      have hty := not_not.mp hty0
      have hc := bool_eq_false hc0
      have he := bool_eq_false he0
      rw [vss_pass hty hc he, vss_pass hty hc he]
      cases v with
      | jnull => rfl
      | jbool b => rfl
      | jnum q => exact absurd rfl (hnn q)
      | jstr t => exact absurd rfl (hns t)
      | jarr xs => exact absurd rfl (hna xs)
      | jobj fs => exact absurd rfl (hno fs)
  -- validateObject: required member missing
  · intro fs s info m h info2
    rw [validateObject_missing h, validateObject_missing h]
    rfl
  -- validateObject: required scan passes
  · intro fs s info h ihl info2
    rw [validateObject_scan_ok h, validateObject_scan_ok h]
    exact ihl info2
  -- objPropsLoop: exhausted
  · intro fs s info info2
    rw [objPropsLoop_nil, objPropsLoop_nil]
    rfl
  -- objPropsLoop: no sub-schema for key
  · intro fs s info k x rest h info2
    rw [objPropsLoop_cons_none h, objPropsLoop_cons_none h]
    rfl
  -- objPropsLoop: property validates
  · intro fs s info k x rest psc spath h i4 hok ihj ihl info2
    obtain ⟨i4', hok'⟩ :=
      outcome_eq_ok (ihj (valuePush (schemaPushList info2 spath) (some (.str k)) x)) hok
    rw [objPropsLoop_cons_ok h hok, objPropsLoop_cons_ok h hok']
    exact ihl _
  -- objPropsLoop: property fails, propagated
  · intro fs s info k x rest psc spath h e herr ihj info2
    obtain ⟨e2, herr', _, _, _⟩ :=
      outcome_eq_err (ihj (valuePush (schemaPushList info2 spath) (some (.str k)) x)) herr
    have h1 := ihj (valuePush (schemaPushList info2 spath) (some (.str k)) x)
    rw [herr, herr'] at h1
    rw [objPropsLoop_cons_err h herr, objPropsLoop_cons_err h herr']
    exact h1
  -- validateArray: too short
  · intro xs s info h info2
    rw [validateArray_short h, validateArray_short h]
    rfl
  -- validateArray: too long
  · intro xs s info h1 h2 info2
    rw [validateArray_long h1 h2, validateArray_long h1 h2]
    rfl
  -- validateArray: contains fails
  · intro xs s info h1n h2n e h3 ihc info2
    obtain ⟨e2, h3', _, _, _⟩ := outcome_eq_err (ihc info2) h3
    have hh := ihc info2
    rw [h3, h3'] at hh
    rw [validateArray_contains_err h1n h2n h3, validateArray_contains_err h1n h2n h3']
    exact hh
  -- validateArray: contains passes
  · intro xs s info h1n h2n i5 h3 ihc ihl info2
    obtain ⟨i5', h3'⟩ := outcome_eq_ok (ihc info2) h3
    rw [validateArray_contains_ok h1n h2n h3, validateArray_contains_ok h1n h2n h3']
    exact ihl i5'
  -- arrayElemsLoop: exhausted
  · intro xs s i info info2
    rw [arrayElemsLoop_nil, arrayElemsLoop_nil]
    rfl
  -- arrayElemsLoop: no sub-schema for index
  · intro xs s i info x rest h info2
    rw [arrayElemsLoop_cons_none h, arrayElemsLoop_cons_none h]
    rfl
  -- arrayElemsLoop: element validates
  · intro xs s i info x rest psc spath h i4 hok ihj ihl info2
    obtain ⟨i4', hok'⟩ :=
      outcome_eq_ok (ihj (valuePush (schemaPushList info2 spath) (some (.nat i)) x)) hok
    rw [arrayElemsLoop_cons_ok h hok, arrayElemsLoop_cons_ok h hok']
    exact ihl _
  -- arrayElemsLoop: element fails, propagated
  · intro xs s i info x rest psc spath h e herr ihj info2
    obtain ⟨e2, herr', _, _, _⟩ :=
      outcome_eq_err (ihj (valuePush (schemaPushList info2 spath) (some (.nat i)) x)) herr
    have h1 := ihj (valuePush (schemaPushList info2 spath) (some (.nat i)) x)
    rw [herr, herr'] at h1
    rw [arrayElemsLoop_cons_err h herr, arrayElemsLoop_cons_err h herr']
    exact h1
  -- validateArrayContains: contains present
  · intro xs s info g h ihl info2
    rw [validateArrayContains_obj h, validateArrayContains_obj h]
    exact ihl _
  -- validateArrayContains: no contains
  · intro xs s info hno info2
    rw [validateArrayContains_noObj hno, validateArrayContains_noObj hno]
    rfl
  -- containsLoop: exhausted
  · intro xs s cs i info info2
    rw [containsLoop_nil, containsLoop_nil]
    rfl
  -- containsLoop: element matches
  · intro xs s cs i info x rest i4 hok ihj info2
    obtain ⟨i4', hok'⟩ := outcome_eq_ok (ihj (valuePush info2 (some (.nat i)) x)) hok
    rw [containsLoop_cons_ok hok, containsLoop_cons_ok hok']
    rfl
  -- containsLoop: element fails, absorbed
  · intro xs s cs i info x rest e herr ihj ihl info2
    obtain ⟨e2, herr', _, _, _⟩ := outcome_eq_err (ihj (valuePush info2 (some (.nat i)) x)) herr
    rw [containsLoop_cons_err herr, containsLoop_cons_err herr']
    exact ihl _

/-- Outcome invariance specialized to `_validate`. -/
theorem jvalidate_outcome (re : RegexEngine) (v s : JValue) (info info2 : TraversalInfo) :
    outcome (jvalidate re v s info) = outcome (jvalidate re v s info2) :=
  (outcome_invariance re).1 v s info info2

/-- Whether a recursive validation call succeeds never depends on the
threaded info, and equals the public `isValid`. -/
theorem jvalidate_isOk (re : RegexEngine) (v s : JValue) (info : TraversalInfo) :
    (jvalidate re v s info).isOk = isValid re v s :=
  outcome_isOk ((outcome_invariance re).1 v s info (initInfo v s))

/-- The number of members of `l` that the value validates against
(`isValid` runs each member validation on a fresh traversal info, which
by outcome invariance agrees with the in-loop validations). -/
def memberMatchCount (re : RegexEngine) (v : JValue) (l : List JValue) : Nat :=
  (l.filter fun m => isValid re v m).length

theorem memberMatchCount_cons_true {re : RegexEngine} {v m : JValue} {rest : List JValue}
    (h : isValid re v m = true) :
    memberMatchCount re v (m :: rest) = memberMatchCount re v rest + 1 := by
  simp [memberMatchCount, List.filter_cons, h]

theorem memberMatchCount_cons_false {re : RegexEngine} {v m : JValue} {rest : List JValue}
    (h : isValid re v m = false) :
    memberMatchCount re v (m :: rest) = memberMatchCount re v rest := by
  simp [memberMatchCount, List.filter_cons, h]

/-- Behaviour of the `_validateOneOf` loop: exceptions from members are
absorbed into the running count; the loop succeeds exactly when the
final count is one and otherwise throws naming the count. -/
theorem oneOfLoop_spec (re : RegexEngine) (v s : JValue) :
    ∀ (rem : List JValue) (i count : Nat) (info : TraversalInfo),
      (count + memberMatchCount re v rem = 1 →
        ∃ i2, oneOfLoop re v s rem i count info = .ok i2)
      ∧ (count + memberMatchCount re v rem ≠ 1 →
        ∃ e, oneOfLoop re v s rem i count info = .error e
          ∧ e.message = s!"{count + memberMatchCount re v rem} oneOf schemas matched"
          ∧ e.value = v ∧ e.schema = s) := by
  intro rem
  induction rem with
  | nil =>
      intro i count info
      have hz : count + memberMatchCount re v [] = count := by
        simp [memberMatchCount]
      rw [hz]
      refine ⟨fun h1 => ?_, fun h1 => ?_⟩
      · subst h1
        exact ⟨_, oneOfLoop_nil_one⟩
      · exact ⟨_, oneOfLoop_nil_ne h1, rfl, rfl, rfl⟩
  | cons m rest ih =>
      intro i count info
      cases hok : jvalidate re v m (schemaPush info (some (.nat i)) m) with
      | ok i2 =>
          have hval : isValid re v m = true := by
            rw [← jvalidate_isOk re v m (schemaPush info (some (.nat i)) m), hok]
            rfl
          have hcnt : count + memberMatchCount re v (m :: rest)
              = (count + 1) + memberMatchCount re v rest := by
            rw [memberMatchCount_cons_true hval]
            omega
          rw [hcnt, oneOfLoop_cons_ok hok]
          exact ih (i + 1) (count + 1) (schemaPop i2)
      | error e =>
          have hval : isValid re v m = false := by
            rw [← jvalidate_isOk re v m (schemaPush info (some (.nat i)) m), hok]
            rfl
          have hcnt : count + memberMatchCount re v (m :: rest)
              = count + memberMatchCount re v rest := by
            rw [memberMatchCount_cons_false hval]
          rw [hcnt, oneOfLoop_cons_err hok]
          exact ih (i + 1) count (schemaPop e.info)

/-- Behaviour of the `_validateNoneOf` loop: member exceptions are
absorbed; the loop succeeds when every member fails and throws naming
the running index of the first member that validates. -/
theorem noneOfLoop_spec (re : RegexEngine) (v s : JValue) :
    ∀ (rem : List JValue) (i : Nat) (info : TraversalInfo),
      ((∀ m ∈ rem, isValid re v m = false) →
        ∃ i2, noneOfLoop re v s rem i info = .ok i2)
      ∧ ((∃ m ∈ rem, isValid re v m = true) →
        ∃ e, noneOfLoop re v s rem i info = .error e
          ∧ e.message = s!"not[{i + rem.findIdx fun m => isValid re v m}] schema matched"
          ∧ e.value = v ∧ e.schema = s) := by
  intro rem
  induction rem with
  | nil =>
      intro i info
      refine ⟨fun h1 => ⟨_, noneOfLoop_nil⟩, fun h1 => ?_⟩
      obtain ⟨m, hm, _⟩ := h1
      cases hm
  | cons m rest ih =>
      intro i info
      cases hok : jvalidate re v m (schemaPush info (some (.nat i)) m) with
      | ok i2 =>
          have hval : isValid re v m = true := by
            rw [← jvalidate_isOk re v m (schemaPush info (some (.nat i)) m), hok]
            rfl
          refine ⟨fun h1 => ?_, fun h1 => ?_⟩
          · exact absurd (h1 m (List.mem_cons_self m rest)) (by simp [hval])
          · exact ⟨_, noneOfLoop_cons_ok hok, by simp [List.findIdx_cons, hval], rfl, rfl⟩
      | error e =>
          have hval : isValid re v m = false := by
            rw [← jvalidate_isOk re v m (schemaPush info (some (.nat i)) m), hok]
            rfl
          rw [noneOfLoop_cons_err hok]
          refine ⟨fun h1 => ?_, fun h1 => ?_⟩
          · exact (ih (i + 1) (schemaPop e.info)).1
              (fun y hy => h1 y (List.mem_cons_of_mem m hy))
          · obtain ⟨y, hy, hyv⟩ := h1
            rcases List.mem_cons.mp hy with h2 | h2
            · subst h2; rw [hval] at hyv; cases hyv
            · obtain ⟨e2, he2, hm2, hv2, hs2⟩ :=
                (ih (i + 1) (schemaPop e.info)).2 ⟨y, h2, hyv⟩
              refine ⟨e2, he2, ?_, hv2, hs2⟩
              rw [hm2]
              have harith : (i + 1) + (rest.findIdx fun m => isValid re v m)
                  = i + ((m :: rest).findIdx fun m => isValid re v m) := by
                simp [List.findIdx_cons, hval]
                omega
              rw [harith]

/-! The unconstrained schema `{}` accepts every value, returning the
threaded info unchanged (every descent it makes is popped back). -/

theorem getProp_unconstrained (k : String) : getProp unconstrainedSchema k = none := rfl

theorem valuePop_push (info : TraversalInfo) (p : Option PKey) (x : JValue) :
    valuePop (valuePush info p x) = info := by
  simp [valuePush, valuePop, List.dropLast_concat]

theorem schemaPop_push (info : TraversalInfo) (p : Option PKey) (x : JValue) :
    schemaPop (schemaPush info p x) = info := by
  simp [schemaPush, schemaPop, List.dropLast_concat]

theorem schemaPopN_pushList (info : TraversalInfo) (entries : List PathEntry) :
    schemaPopN (schemaPushList info entries) entries.length = info := by
  simp [schemaPushList, schemaPopN, List.length_append, Nat.add_sub_cancel, List.take_left]

theorem sizeJ_lt_of_mem {x : JValue} {xs : List JValue} (h : x ∈ xs) :
    sizeJ x < sizeJ (.jarr xs) := by
  induction xs with
  | nil => cases h
  | cons a rest ih =>
      rcases List.mem_cons.mp h with h1 | h1
      · subst h1; exact sizeJ_head_lt_jarr _ _
      · exact lt_trans (ih h1) (sizeJ_tail_lt_jarr _ _)

theorem sizeJ_lt_of_memF {k : String} {x : JValue} {fs : List (String × JValue)}
    (h : (k, x) ∈ fs) : sizeJ x < sizeJ (.jobj fs) := by
  induction fs with
  | nil => cases h
  | cons a rest ih =>
      rcases List.mem_cons.mp h with h1 | h1
      · rw [← h1]; exact sizeJ_fst_lt_jobj _ _ _
      · exact lt_trans (ih h1) (sizeJ_tail_lt_jobj a.1 a.2 rest)

theorem resW_noKeys_arr {s : JValue} (hty : getProp s "type" = none)
    (hitems : getProp s "items" = none) (haddI : getProp s "additionalItems" = none)
    (key : PKey) (xs : List JValue) :
    getPropertySchemaWith s key (some (.jarr xs))
      = some (unconstrainedSchema, [(none, unconstrainedSchema)]) := by
  simp [getPropertySchemaWith, getSchemaOrValueType, additionalItemsFallback,
    hty, hitems, haddI, getValueType]

theorem resW_noKeys_obj {s : JValue} (hty : getProp s "type" = none)
    (hprops : getProp s "properties" = none) (haddP : getProp s "additionalProperties" = none)
    (key : PKey) (fs : List (String × JValue)) :
    getPropertySchemaWith s key (some (.jobj fs))
      = some (unconstrainedSchema, [(none, unconstrainedSchema)]) := by
  simp [getPropertySchemaWith, getSchemaOrValueType, additionalPropsFallback,
    hty, hprops, haddP, getValueType]

theorem validateNumber_noKeys {q : Rat} {s : JValue} {info : TraversalInfo}
    (hmul : getProp s "multipleOf" = none) (hmin : getProp s "minimum" = none)
    (hemin : getProp s "exclusiveMinimum" = none) (hmax : getProp s "maximum" = none)
    (hemax : getProp s "exclusiveMaximum" = none) :
    validateNumber q s info = .ok info := by
  simp [validateNumber, hmul, hmin, hemin, hmax, hemax]

theorem validateString_noKeys {re : RegexEngine} {str : String} {s : JValue}
    {info : TraversalInfo} (hminL : getProp s "minLength" = none)
    (hmaxL : getProp s "maxLength" = none) (hpat : getProp s "pattern" = none) :
    validateString re str s info = .ok info := by
  simp [validateString, hminL, hmaxL, hpat]

theorem arrayElemsLoop_unconstrained_ok (re : RegexEngine) (xs : List JValue) (s : JValue)
    (hres : ∀ i : Nat, getPropertySchemaWith s (.nat i) (some (.jarr xs))
        = some (unconstrainedSchema, [(none, unconstrainedSchema)])) :
    ∀ (pending : List JValue),
      (∀ x ∈ pending, ∀ info2, jvalidate re x unconstrainedSchema info2 = .ok info2) →
      ∀ (i : Nat) (info : TraversalInfo), arrayElemsLoop re xs s pending i info = .ok info := by
  intro pending
  induction pending with
  | nil => intro h i info; exact arrayElemsLoop_nil
  | cons x rest ih =>
      intro h i info
      have hx := h x (List.mem_cons_self x rest)
      rw [arrayElemsLoop_cons_ok (hres i)
        (hx (valuePush (schemaPushList info [(none, unconstrainedSchema)]) (some (.nat i)) x))]
      have hrew : schemaPopN
          (valuePop (valuePush (schemaPushList info [(none, unconstrainedSchema)])
            (some (.nat i)) x))
          ([((none : Option PKey), unconstrainedSchema)] : List PathEntry).length = info := by
        rw [valuePop_push]
        exact schemaPopN_pushList info [(none, unconstrainedSchema)]
      rw [hrew]
      exact ih (fun y hy => h y (List.mem_cons_of_mem x hy)) (i + 1) info

theorem objPropsLoop_unconstrained_ok (re : RegexEngine) (fs : List (String × JValue))
    (s : JValue)
    (hres : ∀ k : String, getPropertySchemaWith s (.str k) (some (.jobj fs))
        = some (unconstrainedSchema, [(none, unconstrainedSchema)])) :
    ∀ (pending : List (String × JValue)),
      (∀ p ∈ pending, ∀ info2, jvalidate re p.2 unconstrainedSchema info2 = .ok info2) →
      ∀ (info : TraversalInfo), objPropsLoop re fs s pending info = .ok info := by
  intro pending
  induction pending with
  | nil => intro h info; exact objPropsLoop_nil
  | cons p rest ih =>
      intro h info
      obtain ⟨k, x⟩ := p
      have hx := h (k, x) (List.mem_cons_self (k, x) rest)
      rw [objPropsLoop_cons_ok (hres k)
        (hx (valuePush (schemaPushList info [(none, unconstrainedSchema)]) (some (.str k)) x))]
      have hrew : schemaPopN
          (valuePop (valuePush (schemaPushList info [(none, unconstrainedSchema)])
            (some (.str k)) x))
          ([((none : Option PKey), unconstrainedSchema)] : List PathEntry).length = info := by
        rw [valuePop_push]
        exact schemaPopN_pushList info [(none, unconstrainedSchema)]
      rw [hrew]
      exact ih (fun y hy => h y (List.mem_cons_of_mem (k, x) hy)) info

/-- `_validateSingleSchema` against a schema that carries none of the
structural keys: every check passes and the info comes back unchanged.
The recursion hypothesis covers the element/property validations against
the unconstrained fallback. -/
theorem validateSingleSchema_noKeys (re : RegexEngine) (v s : JValue)
    (hty : getProp s "type" = none) (hconst : getProp s "const" = none)
    (henum : getProp s "enum" = none)
    (hmul : getProp s "multipleOf" = none) (hmin : getProp s "minimum" = none)
    (hemin : getProp s "exclusiveMinimum" = none) (hmax : getProp s "maximum" = none)
    (hemax : getProp s "exclusiveMaximum" = none)
    (hminL : getProp s "minLength" = none) (hmaxL : getProp s "maxLength" = none)
    (hpat : getProp s "pattern" = none)
    (hminI : getProp s "minItems" = none) (hmaxI : getProp s "maxItems" = none)
    (hcont : getProp s "contains" = none) (hitems : getProp s "items" = none)
    (haddI : getProp s "additionalItems" = none)
    (hreq : getProp s "required" = none) (hprops : getProp s "properties" = none)
    (haddP : getProp s "additionalProperties" = none)
    (hrec : ∀ x, sizeJ x < sizeJ v → ∀ info2, jvalidate re x unconstrainedSchema info2 = .ok info2)
    (info : TraversalInfo) :
    validateSingleSchema re v s info = .ok info := by
  have hpass := @vss_pass re v s info
    (by rw [hty]; rfl) (by rw [hconst]) (by rw [henum])
  rw [hpass]
  cases v with
  | jnull => rfl
  | jbool b => rfl
  | jnum q =>
      show validateNumber q s info = .ok info
      exact validateNumber_noKeys hmul hmin hemin hmax hemax
  | jstr str =>
      show validateString re str s info = .ok info
      exact validateString_noKeys hminL hmaxL hpat
  | jarr xs =>
      show validateArray re xs s info = .ok info
      have h1 : ¬ (match getProp s "minItems" with
          | some (.jnum m) => decide ((xs.length : Rat) < m)
          | _ => false) = true := by rw [hminI]; simp
      have h2 : ¬ (match getProp s "maxItems" with
          | some (.jnum m) => decide ((xs.length : Rat) > m)
          | _ => false) = true := by rw [hmaxI]; simp
      rw [validateArray_contains_ok h1 h2 (validateArrayContains_none hcont)]
      exact arrayElemsLoop_unconstrained_ok re xs s
        (fun i => resW_noKeys_arr hty hitems haddI (.nat i) xs) xs
        (fun x hx info2 => hrec x (sizeJ_lt_of_mem hx) info2) 0 info
  | jobj fs =>
      show validateObject re fs s info = .ok info
      have h1 : findMissingRequired fs (match getProp s "required" with
          | some (.jarr l) => l
          | _ => []) = none := by rw [hreq]; rfl
      rw [validateObject_scan_ok h1]
      exact objPropsLoop_unconstrained_ok re fs s
        (fun k => resW_noKeys_obj hty hprops haddP (.str k) fs) fs
        (fun p hp info2 => hrec p.2 (@sizeJ_lt_of_memF p.1 p.2 fs (by simpa using hp)) info2)
        info

/-- Validating any value against the unconstrained schema `{}` succeeds
and returns the threaded info unchanged. -/
theorem jvalidate_unconstrained (re : RegexEngine) :
    ∀ (n : Nat) (v : JValue), sizeJ v ≤ n → ∀ info,
      jvalidate re v unconstrainedSchema info = .ok info := by
  intro n
  induction n with
  | zero =>
      intro v hv
      have := sizeJ_pos v
      omega
  | succ n ih =>
      intro v hv info
      have hss : validateSingleSchema re v unconstrainedSchema info = .ok info :=
        validateSingleSchema_noKeys re v unconstrainedSchema rfl rfl rfl rfl rfl rfl rfl rfl
          rfl rfl rfl rfl rfl rfl rfl rfl rfl rfl rfl
          (fun x hx info2 => ih x (by omega) info2) info
      simp only [jvalidate.eq_def, hss,
        validateConditional_none (getProp_unconstrained "if"),
        validateAllOf_none (getProp_unconstrained "allOf"),
        validateAnyOf_none (getProp_unconstrained "anyOf"),
        validateOneOf_none (getProp_unconstrained "oneOf"),
        validateNoneOf_none (getProp_unconstrained "not")]

theorem jvalidate_unconstrained_ok (re : RegexEngine) (v : JValue) (info : TraversalInfo) :
    jvalidate re v unconstrainedSchema info = .ok info :=
  jvalidate_unconstrained re (sizeJ v) v le_rfl info

/-- `_validate` when the first four phases pass without touching the
info: the outcome is the `oneOf` phase followed by the `not` phase. -/
theorem jvalidate_phases {re : RegexEngine} {v s : JValue} {info : TraversalInfo}
    (hss : validateSingleSchema re v s info = .ok info)
    (hif : getProp s "if" = none) (hall : getProp s "allOf" = none)
    (hany : getProp s "anyOf" = none) :
    jvalidate re v s info =
      (match validateOneOf re v s info with
       | .error e => .error e
       | .ok i5 => validateNoneOf re v s i5) := by
  simp only [jvalidate.eq_def, hss, validateConditional_none hif,
    validateAllOf_none hall, validateAnyOf_none hany]

theorem isValid_jstr_schemaNum (re : RegexEngine) (st : String) :
    isValid re (.jstr st) schemaNum = false := by
  simp [isValid, validate, jvalidate, validateSingleSchema, schemaNum, getProp, lookupField,
    getValueType, isValueTypeAny, isValueType, Except.isOk, Except.toBool]

/-- C1: the `oneOf` clause counts the members the value validates
against, absorbing member exceptions into the count (a member failure
never propagates), succeeds exactly when the count is one, and otherwise
throws a ValidationError whose message names the actual count; for the
pure schema `{oneOf: l}` the same characterization holds of the
top-level `validate`. -/
theorem oneOf_requires_exactly_one_match :
    (∀ (re : RegexEngine) (v s x : JValue) (xs : List JValue) (i count : Nat)
        (info : TraversalInfo) (e : ValidationError),
      jvalidate re v x (schemaPush info (some (.nat i)) x) = .error e →
      oneOfLoop re v s (x :: xs) i count info
        = oneOfLoop re v s xs (i + 1) count (schemaPop e.info))
    ∧ (∀ (re : RegexEngine) (v s : JValue) (l : List JValue) (info : TraversalInfo),
      getProp s "oneOf" = some (.jarr l) →
      (memberMatchCount re v l = 1 → ∃ i2, validateOneOf re v s info = .ok i2)
      ∧ (memberMatchCount re v l ≠ 1 →
        ∃ e, validateOneOf re v s info = .error e
          ∧ e.message = s!"{memberMatchCount re v l} oneOf schemas matched"
          ∧ e.value = v ∧ e.schema = s))
    ∧ (∀ (re : RegexEngine) (v : JValue) (l : List JValue),
      (memberMatchCount re v l = 1 →
        ∃ i2, validate re v (.jobj [("oneOf", .jarr l)]) = .ok i2)
      ∧ (memberMatchCount re v l ≠ 1 →
        ∃ e, validate re v (.jobj [("oneOf", .jarr l)]) = .error e
          ∧ e.message = s!"{memberMatchCount re v l} oneOf schemas matched"
          ∧ e.value = v ∧ e.schema = .jobj [("oneOf", .jarr l)])) := by
  refine ⟨fun re v s x xs i count info e h => oneOfLoop_cons_err h, ?_, ?_⟩
  · intro re v s l info h
    have hspec := oneOfLoop_spec re v s l 0 0
      (schemaPush info (some (.str "oneOf")) (.jarr l))
    constructor
    · intro h1
      obtain ⟨i2, hloop⟩ := hspec.1 (by omega)
      exact ⟨i2, by rw [validateOneOf_list h]; exact hloop⟩
    · intro h1
      obtain ⟨e, hloop, hm, hv, hs⟩ := hspec.2 (by omega)
      refine ⟨e, by rw [validateOneOf_list h]; exact hloop, ?_, hv, hs⟩
      rw [hm, Nat.zero_add]
  · intro re v l
    have hss : ∀ info, validateSingleSchema re v (.jobj [("oneOf", .jarr l)]) info
        = .ok info := fun info =>
      validateSingleSchema_noKeys re v _
        (by simp [getProp, lookupField]) (by simp [getProp, lookupField])
        (by simp [getProp, lookupField]) (by simp [getProp, lookupField])
        (by simp [getProp, lookupField]) (by simp [getProp, lookupField])
        (by simp [getProp, lookupField]) (by simp [getProp, lookupField])
        (by simp [getProp, lookupField]) (by simp [getProp, lookupField])
        (by simp [getProp, lookupField]) (by simp [getProp, lookupField])
        (by simp [getProp, lookupField]) (by simp [getProp, lookupField])
        (by simp [getProp, lookupField]) (by simp [getProp, lookupField])
        (by simp [getProp, lookupField]) (by simp [getProp, lookupField])
        (by simp [getProp, lookupField])
        (fun x _ info2 => jvalidate_unconstrained_ok re x info2) info
    have hone0 : getProp (.jobj [("oneOf", .jarr l)]) "oneOf" = some (.jarr l) := by
      simp [getProp, lookupField]
    have hchain : ∀ info, jvalidate re v (.jobj [("oneOf", .jarr l)]) info =
        (match validateOneOf re v (.jobj [("oneOf", .jarr l)]) info with
         | .error e => .error e
         | .ok i5 => validateNoneOf re v (.jobj [("oneOf", .jarr l)]) i5) := fun info =>
      jvalidate_phases (hss info) (by simp [getProp, lookupField])
        (by simp [getProp, lookupField]) (by simp [getProp, lookupField])
    have hspec := oneOfLoop_spec re v (.jobj [("oneOf", .jarr l)]) l 0 0
      (schemaPush (initInfo v (.jobj [("oneOf", .jarr l)])) (some (.str "oneOf")) (.jarr l))
    constructor
    · intro h1
      obtain ⟨i2, hloop⟩ := hspec.1 (by omega)
      have hone : validateOneOf re v (.jobj [("oneOf", .jarr l)])
          (initInfo v (.jobj [("oneOf", .jarr l)])) = .ok i2 := by
        rw [validateOneOf_list hone0]; exact hloop
      refine ⟨i2, ?_⟩
      show jvalidate re v (.jobj [("oneOf", .jarr l)])
        (initInfo v (.jobj [("oneOf", .jarr l)])) = .ok i2
      rw [hchain _, hone]
      exact validateNoneOf_none (by simp [getProp, lookupField])
    · intro h1
      obtain ⟨e, hloop, hm, hv, hs⟩ := hspec.2 (by omega)
      have hone : validateOneOf re v (.jobj [("oneOf", .jarr l)])
          (initInfo v (.jobj [("oneOf", .jarr l)])) = .error e := by
        rw [validateOneOf_list hone0]; exact hloop
      refine ⟨e, ?_, ?_, hv, hs⟩
      · show jvalidate re v (.jobj [("oneOf", .jarr l)])
          (initInfo v (.jobj [("oneOf", .jarr l)])) = .error e
        rw [hchain _, hone]
      · rw [hm, Nat.zero_add]

/-- Witness for C1: against `{oneOf:[{type:"number"}]}` the number `1`
matches exactly one member and validates; against
`{oneOf:[{type:"number"},{type:"number"}]}` two members match and
validation throws naming the count two. -/
theorem oneOf_requires_exactly_one_match_witness :
    memberMatchCount noRegex (.jnum 1) [schemaNum] = 1
    ∧ (∃ i2, validate noRegex (.jnum 1) (.jobj [("oneOf", .jarr [schemaNum])]) = .ok i2)
    ∧ memberMatchCount noRegex (.jnum 1) [schemaNum, schemaNum] = 2
    ∧ (∃ e, validate noRegex (.jnum 1)
          (.jobj [("oneOf", .jarr [schemaNum, schemaNum])]) = .error e
        ∧ e.message = "2 oneOf schemas matched") := by
  have h1 : memberMatchCount noRegex (.jnum 1) [schemaNum] = 1 := by
    simp [memberMatchCount, isValid_jnum_schemaNum]
  have h2 : memberMatchCount noRegex (.jnum 1) [schemaNum, schemaNum] = 2 := by
    simp [memberMatchCount, isValid_jnum_schemaNum]
  refine ⟨h1, (oneOf_requires_exactly_one_match.2.2 noRegex (.jnum 1) [schemaNum]).1 h1,
    h2, ?_⟩
  obtain ⟨e, he, hm, _, _⟩ :=
    (oneOf_requires_exactly_one_match.2.2 noRegex (.jnum 1) [schemaNum, schemaNum]).2
      (by rw [h2]; omega)
  refine ⟨e, he, ?_⟩
  rw [hm, h2]
  rfl

/-- C2: the `not` clause requires every listed sub-schema to fail;
member exceptions are absorbed (a member failure never propagates), and
the first member that does validate makes the node throw naming that
member's index; in particular for the pure schema `{not:[A]}`, a value
matching `A` makes `validate` throw naming index `0`, and a value
failing `A` validates. -/
theorem noneOf_rejects_first_matching_member :
    (∀ (re : RegexEngine) (v s x : JValue) (xs : List JValue) (i : Nat)
        (info : TraversalInfo) (e : ValidationError),
      jvalidate re v x (schemaPush info (some (.nat i)) x) = .error e →
      noneOfLoop re v s (x :: xs) i info
        = noneOfLoop re v s xs (i + 1) (schemaPop e.info))
    ∧ (∀ (re : RegexEngine) (v s : JValue) (l : List JValue) (info : TraversalInfo),
      getProp s "not" = some (.jarr l) →
      ((∀ m ∈ l, isValid re v m = false) → ∃ i2, validateNoneOf re v s info = .ok i2)
      ∧ ((∃ m ∈ l, isValid re v m = true) →
        ∃ e, validateNoneOf re v s info = .error e
          ∧ e.message = s!"not[{l.findIdx fun m => isValid re v m}] schema matched"
          ∧ e.value = v ∧ e.schema = s))
    ∧ (∀ (re : RegexEngine) (v A : JValue),
      (isValid re v A = true →
        ∃ e, validate re v (.jobj [("not", .jarr [A])]) = .error e
          ∧ e.message = "not[0] schema matched" ∧ e.value = v)
      ∧ (isValid re v A = false →
        ∃ i2, validate re v (.jobj [("not", .jarr [A])]) = .ok i2)) := by
  refine ⟨fun re v s x xs i info e h => noneOfLoop_cons_err h, ?_, ?_⟩
  · intro re v s l info h
    have hspec := noneOfLoop_spec re v s l 0
      (schemaPush info (some (.str "not")) (.jarr l))
    constructor
    · intro h1
      obtain ⟨i2, hloop⟩ := hspec.1 h1
      exact ⟨i2, by rw [validateNoneOf_list h]; exact hloop⟩
    · intro h1
      obtain ⟨e, hloop, hm, hv, hs⟩ := hspec.2 h1
      refine ⟨e, by rw [validateNoneOf_list h]; exact hloop, ?_, hv, hs⟩
      rw [hm, Nat.zero_add]
  · intro re v A
    have hss : ∀ info, validateSingleSchema re v (.jobj [("not", .jarr [A])]) info
        = .ok info := fun info =>
      validateSingleSchema_noKeys re v _
        (by simp [getProp, lookupField]) (by simp [getProp, lookupField])
        (by simp [getProp, lookupField]) (by simp [getProp, lookupField])
        (by simp [getProp, lookupField]) (by simp [getProp, lookupField])
        (by simp [getProp, lookupField]) (by simp [getProp, lookupField])
        (by simp [getProp, lookupField]) (by simp [getProp, lookupField])
        (by simp [getProp, lookupField]) (by simp [getProp, lookupField])
        (by simp [getProp, lookupField]) (by simp [getProp, lookupField])
        (by simp [getProp, lookupField]) (by simp [getProp, lookupField])
        (by simp [getProp, lookupField]) (by simp [getProp, lookupField])
        (by simp [getProp, lookupField])
        (fun x _ info2 => jvalidate_unconstrained_ok re x info2) info
    have hnot0 : getProp (.jobj [("not", .jarr [A])]) "not" = some (.jarr [A]) := by
      simp [getProp, lookupField]
    have hchain : ∀ info, jvalidate re v (.jobj [("not", .jarr [A])]) info =
        (match validateOneOf re v (.jobj [("not", .jarr [A])]) info with
         | .error e => .error e
         | .ok i5 => validateNoneOf re v (.jobj [("not", .jarr [A])]) i5) := fun info =>
      jvalidate_phases (hss info) (by simp [getProp, lookupField])
        (by simp [getProp, lookupField]) (by simp [getProp, lookupField])
    have honeNone : ∀ info, validateOneOf re v (.jobj [("not", .jarr [A])]) info
        = .ok info := fun info => validateOneOf_none (by simp [getProp, lookupField])
    have hspec := noneOfLoop_spec re v (.jobj [("not", .jarr [A])]) [A] 0
      (schemaPush (initInfo v (.jobj [("not", .jarr [A])])) (some (.str "not")) (.jarr [A]))
    constructor
    · intro hA
      obtain ⟨e, hloop, hm, hv, _⟩ := hspec.2 ⟨A, List.mem_singleton_self A, hA⟩
      refine ⟨e, ?_, ?_, hv⟩
      · show jvalidate re v (.jobj [("not", .jarr [A])])
          (initInfo v (.jobj [("not", .jarr [A])])) = .error e
        rw [hchain _, honeNone _]
        show validateNoneOf re v (.jobj [("not", .jarr [A])])
          (initInfo v (.jobj [("not", .jarr [A])])) = .error e
        rw [validateNoneOf_list hnot0]
        exact hloop
      · rw [hm]
        have hidx : (0 + List.findIdx (fun m => isValid re v m) [A]) = 0 := by
          simp [List.findIdx_cons, hA]
        rw [hidx]
        rfl
    · intro hA
      obtain ⟨i2, hloop⟩ := hspec.1 (by
        intro m hm
        rw [List.mem_singleton.mp hm]
        exact hA)
      refine ⟨i2, ?_⟩
      show jvalidate re v (.jobj [("not", .jarr [A])])
        (initInfo v (.jobj [("not", .jarr [A])])) = .ok i2
      rw [hchain _, honeNone _]
      show validateNoneOf re v (.jobj [("not", .jarr [A])])
        (initInfo v (.jobj [("not", .jarr [A])])) = .ok i2
      rw [validateNoneOf_list hnot0]
      exact hloop

/-- Witness for C2: the number `1` matches `{type:"number"}`, so
`{not:[{type:"number"}]}` rejects it naming index 0; the string `"x"`
fails `{type:"number"}`, so the same schema accepts it. -/
theorem noneOf_rejects_first_matching_member_witness :
    isValid noRegex (.jnum 1) schemaNum = true
    ∧ (∃ e, validate noRegex (.jnum 1) (.jobj [("not", .jarr [schemaNum])]) = .error e
        ∧ e.message = "not[0] schema matched")
    ∧ isValid noRegex (.jstr "x") schemaNum = false
    ∧ (∃ i2, validate noRegex (.jstr "x") (.jobj [("not", .jarr [schemaNum])]) = .ok i2) := by
  have h1 := isValid_jnum_schemaNum noRegex 1
  have h2 := isValid_jstr_schemaNum noRegex "x"
  obtain ⟨e, he, hm, _⟩ :=
    (noneOf_rejects_first_matching_member.2.2 noRegex (.jnum 1) schemaNum).1 h1
  exact ⟨h1, ⟨e, he, hm⟩, h2,
    (noneOf_rejects_first_matching_member.2.2 noRegex (.jstr "x") schemaNum).2 h2⟩

/-! Combinator-free schemas: no `if`, `allOf`, `anyOf`, `oneOf`, `not`
or `contains` key anywhere in the schema tree.  These are the clauses
that absorb inner failures (or return early on success) and thereby
leak traversal frames; without them, a successful validation restores
the trails exactly. -/

mutual

def combFree : JValue → Bool
  | .jobj fs =>
      !(hasField fs "if") && !(hasField fs "allOf") && !(hasField fs "anyOf")
        && !(hasField fs "oneOf") && !(hasField fs "not") && !(hasField fs "contains")
        && combFreeF fs
  | .jarr xs => combFreeL xs
  | _ => true

def combFreeL : List JValue → Bool
  | [] => true
  | x :: xs => combFree x && combFreeL xs

def combFreeF : List (String × JValue) → Bool
  | [] => true
  | (_, x) :: fs => combFree x && combFreeF fs

end

theorem combFree_unconstrained : combFree unconstrainedSchema = true := rfl

theorem lookupField_none_of_hasField {fs : List (String × JValue)} {k : String}
    (h : hasField fs k = false) : lookupField fs k = none := by
  simpa [hasField, Option.isSome_iff_exists] using h

theorem combFree_no {s : JValue} (h : combFree s = true) :
    getProp s "if" = none ∧ getProp s "allOf" = none ∧ getProp s "anyOf" = none
    ∧ getProp s "oneOf" = none ∧ getProp s "not" = none ∧ getProp s "contains" = none := by
  cases s with
  | jobj fs =>
      simp only [combFree, Bool.and_eq_true, Bool.not_eq_true'] at h
      exact ⟨lookupField_none_of_hasField h.1.1.1.1.1.1,
        lookupField_none_of_hasField h.1.1.1.1.1.2,
        lookupField_none_of_hasField h.1.1.1.1.2,
        lookupField_none_of_hasField h.1.1.1.2,
        lookupField_none_of_hasField h.1.1.2,
        lookupField_none_of_hasField h.1.2⟩
  | jnull => exact ⟨rfl, rfl, rfl, rfl, rfl, rfl⟩
  | jbool b => exact ⟨rfl, rfl, rfl, rfl, rfl, rfl⟩
  | jnum q => exact ⟨rfl, rfl, rfl, rfl, rfl, rfl⟩
  | jstr t => exact ⟨rfl, rfl, rfl, rfl, rfl, rfl⟩
  | jarr xs => exact ⟨rfl, rfl, rfl, rfl, rfl, rfl⟩

theorem combFreeF_lookup {fs : List (String × JValue)} {k : String} {x : JValue}
    (hf : combFreeF fs = true) (h : lookupField fs k = some x) : combFree x = true := by
  induction fs with
  | nil => simp [lookupField] at h
  | cons p rest ih =>
      obtain ⟨k', v⟩ := p
      simp only [combFreeF, Bool.and_eq_true] at hf
      simp only [lookupField] at h
      by_cases hk : k' = k
      · rw [if_pos hk] at h
        injection h with h1
        subst h1
        exact hf.1
      · rw [if_neg hk] at h
        exact ih hf.2 h

theorem combFree_getProp {s : JValue} {k : String} {x : JValue}
    (h : combFree s = true) (hg : getProp s k = some x) : combFree x = true := by
  cases s with
  | jobj fs =>
      simp only [getProp] at hg
      simp only [combFree, Bool.and_eq_true] at h
      exact combFreeF_lookup h.2 hg
  | jnull => simp [getProp] at hg
  | jbool b => simp [getProp] at hg
  | jnum q => simp [getProp] at hg
  | jstr t => simp [getProp] at hg
  | jarr xs => simp [getProp] at hg

theorem combFreeL_get {xs : List JValue} {n : Nat} {x : JValue}
    (hl : combFreeL xs = true) (h : xs.get? n = some x) : combFree x = true := by
  induction xs generalizing n with
  | nil => simp at h
  | cons a rest ih =>
      simp only [combFreeL, Bool.and_eq_true] at hl
      cases n with
      | zero =>
          simp only [List.get?] at h
          injection h with h1
          subst h1
          exact hl.1
      | succ m =>
          simp only [List.get?] at h
          exact ih hl.2 h

theorem combFree_jsArrayIndex {xs : List JValue} {key : PKey} {x : JValue}
    (hl : combFreeL xs = true) (h : jsArrayIndex xs key = some x) : combFree x = true := by
  cases key with
  | nat n => exact combFreeL_get hl h
  | str st =>
      simp only [jsArrayIndex] at h
      split at h
      · exact combFreeL_get hl h
      · cases h

theorem combFree_addProps {s psc : JValue} {path : List PathEntry}
    (h : combFree s = true) (hres : additionalPropsFallback s = some (psc, path)) :
    combFree psc = true := by
  simp only [additionalPropsFallback] at hres
  split at hres
  · cases hres
  · rename_i f hf
    injection hres with h1
    injection h1 with h2 h3
    rw [← h2]
    exact combFree_getProp h hf
  · injection hres with h1
    injection h1 with h2 h3
    rw [← h2]
    exact combFree_unconstrained

theorem combFree_addItems {s psc : JValue} {path : List PathEntry}
    (h : combFree s = true) (hres : additionalItemsFallback s = some (psc, path)) :
    combFree psc = true := by
  simp only [additionalItemsFallback] at hres
  split at hres
  · cases hres
  · rename_i f hf
    injection hres with h1
    injection h1 with h2 h3
    rw [← h2]
    exact combFree_getProp h hf
  · injection hres with h1
    injection h1 with h2 h3
    rw [← h2]
    exact combFree_unconstrained

/-- Every sub-schema `_getPropertySchema` resolves out of a
combinator-free schema is itself combinator-free. -/
theorem combFree_resolution {s : JValue} {key : PKey} {vv : Option JValue}
    {psc : JValue} {path : List PathEntry}
    (h : combFree s = true) (hres : getPropertySchemaWith s key vv = some (psc, path)) :
    combFree psc = true := by
  simp only [getPropertySchemaWith] at hres
  split at hres
  · -- effective type object
    split at hres
    · -- properties is an object
      rename_i pf hpf
      split at hres
      · -- key found among properties
        rename_i psf hlook
        injection hres with h1
        injection h1 with h2 h3
        rw [← h2]
        have hp : combFree (.jobj pf) = true := combFree_getProp h hpf
        simp only [combFree, Bool.and_eq_true] at hp
        exact combFreeF_lookup hp.2 hlook
      · exact combFree_addProps h hres
    · exact combFree_addProps h hres
  · -- effective type array
    split at hres
    · -- single-object items
      rename_i f hf
      injection hres with h1
      injection h1 with h2 h3
      rw [← h2]
      exact combFree_getProp h hf
    · -- tuple items
      rename_i il hil
      split at hres
      · rename_i psf hidx
        injection hres with h1
        injection h1 with h2 h3
        rw [← h2]
        have hl : combFree (.jarr il) = true := combFree_getProp h hil
        exact combFree_jsArrayIndex (by simpa [combFree] using hl) hidx
      · exact combFree_addItems h hres
    · exact combFree_addItems h hres
  · cases hres

theorem validateNumber_ok {q : Rat} {s : JValue} {info i : TraversalInfo}
    (h : validateNumber q s info = .ok i) : i = info := by
  simp only [validateNumber] at h
  repeat' split at h
  all_goals (try cases h)
  all_goals rfl

theorem validateString_ok {re : RegexEngine} {str : String} {s : JValue}
    {info i : TraversalInfo} (h : validateString re str s info = .ok i) : i = info := by
  simp only [validateString] at h
  repeat' split at h
  all_goals (try cases h)
  all_goals rfl

theorem arrayElemsLoop_restores (re : RegexEngine) (xs : List JValue) (s : JValue)
    (hcf : combFree s = true)
    (hrec : ∀ x psc, x ∈ xs → combFree psc = true →
      ∀ info info2, jvalidate re x psc info = .ok info2 → info2 = info) :
    ∀ (pending : List JValue), (∀ x ∈ pending, x ∈ xs) →
      ∀ (i : Nat) (info info2 : TraversalInfo),
        arrayElemsLoop re xs s pending i info = .ok info2 → info2 = info := by
  intro pending
  induction pending with
  | nil =>
      intro hsub i info info2 h
      rw [arrayElemsLoop_nil] at h
      injection h with h1
      exact h1.symm
  | cons x rest ih =>
      intro hsub i info info2 h
      cases hres : getPropertySchemaWith s (.nat i) (some (.jarr xs)) with
      | none => rw [arrayElemsLoop_cons_none hres] at h; cases h
      | some pr =>
          obtain ⟨psc, spath⟩ := pr
          cases hj : jvalidate re x psc
              (valuePush (schemaPushList info spath) (some (.nat i)) x) with
          | error e => rw [arrayElemsLoop_cons_err hres hj] at h; cases h
          | ok i2 =>
              rw [arrayElemsLoop_cons_ok hres hj] at h
              have hpsc := combFree_resolution hcf hres
              have hi2 : i2 = valuePush (schemaPushList info spath) (some (.nat i)) x :=
                hrec x psc (hsub x (List.mem_cons_self x rest)) hpsc _ _ hj
              rw [hi2, valuePop_push, schemaPopN_pushList] at h
              exact ih (fun y hy => hsub y (List.mem_cons_of_mem x hy)) (i + 1) info info2 h

theorem objPropsLoop_restores (re : RegexEngine) (fs : List (String × JValue)) (s : JValue)
    (hcf : combFree s = true)
    (hrec : ∀ p psc, p ∈ fs → combFree psc = true →
      ∀ info info2, jvalidate re (Prod.snd p) psc info = .ok info2 → info2 = info) :
    ∀ (pending : List (String × JValue)), (∀ p ∈ pending, p ∈ fs) →
      ∀ (info info2 : TraversalInfo),
        objPropsLoop re fs s pending info = .ok info2 → info2 = info := by
  intro pending
  induction pending with
  | nil =>
      intro hsub info info2 h
      rw [objPropsLoop_nil] at h
      injection h with h1
      exact h1.symm
  | cons p rest ih =>
      intro hsub info info2 h
      obtain ⟨k, x⟩ := p
      cases hres : getPropertySchemaWith s (.str k) (some (.jobj fs)) with
      | none => rw [objPropsLoop_cons_none hres] at h; cases h
      | some pr =>
          obtain ⟨psc, spath⟩ := pr
          cases hj : jvalidate re x psc
              (valuePush (schemaPushList info spath) (some (.str k)) x) with
          | error e => rw [objPropsLoop_cons_err hres hj] at h; cases h
          | ok i2 =>
              rw [objPropsLoop_cons_ok hres hj] at h
              have hpsc := combFree_resolution hcf hres
              have hi2 : i2 = valuePush (schemaPushList info spath) (some (.str k)) x :=
                hrec (k, x) psc (hsub (k, x) (List.mem_cons_self (k, x) rest)) hpsc _ _ hj
              rw [hi2, valuePop_push, schemaPopN_pushList] at h
              exact ih (fun y hy => hsub y (List.mem_cons_of_mem (k, x) hy)) info info2 h

theorem validateSingleSchema_restores (re : RegexEngine) (v s : JValue)
    (hcf : combFree s = true)
    (hrec : ∀ x psc, sizeJ x < sizeJ v → combFree psc = true →
      ∀ info info2, jvalidate re x psc info = .ok info2 → info2 = info)
    (info info2 : TraversalInfo)
    (h : validateSingleSchema re v s info = .ok info2) : info2 = info := by
  cases hty : isValueTypeAny v (getValueType (some v)) (getProp s "type") with
  | false => rw [vss_type_fail hty] at h; cases h
  | true =>
  cases hc : (match getProp s "const" with
      | some c => !(jsStrictEq v c)
      | none => false) with
  | true => rw [vss_const_fail hty hc] at h; cases h
  | false =>
  cases he : (match getProp s "enum" with
      | some (.jarr l) => !(valuesAreEqualAny v l)
      | _ => false) with
  | true => rw [vss_enum_fail hty hc he] at h; cases h
  | false =>
  rw [vss_pass hty hc he] at h
  cases v with
  | jnull => injection h with h1; exact h1.symm
  | jbool b => injection h with h1; exact h1.symm
  | jnum q => exact validateNumber_ok h
  | jstr str => exact validateString_ok h
  | jarr xs =>
      have h0 : validateArray re xs s info = .ok info2 := h
      cases hc1 : (match getProp s "minItems" with
          | some (.jnum m) => decide ((xs.length : Rat) < m)
          | _ => false) with
      | true => rw [validateArray_short hc1] at h0; cases h0
      | false =>
      cases hc2 : (match getProp s "maxItems" with
          | some (.jnum m) => decide ((xs.length : Rat) > m)
          | _ => false) with
      | true => rw [validateArray_long (by simp [hc1]) hc2] at h0; cases h0
      | false =>
      have hcont : validateArrayContains re xs s info = .ok info :=
        validateArrayContains_none (combFree_no hcf).2.2.2.2.2
      rw [validateArray_contains_ok (by simp [hc1]) (by simp [hc2]) hcont] at h0
      exact arrayElemsLoop_restores re xs s hcf
        (fun x psc hx hpsc info' info2' hj =>
          hrec x psc (sizeJ_lt_of_mem hx) hpsc info' info2' hj)
        xs (fun y hy => hy) 0 info info2 h0
  | jobj fs =>
      have h0 : validateObject re fs s info = .ok info2 := h
      cases hmiss : findMissingRequired fs (match getProp s "required" with
          | some (.jarr l) => l
          | _ => []) with
      | some m => rw [validateObject_missing hmiss] at h0; cases h0
      | none =>
      rw [validateObject_scan_ok hmiss] at h0
      exact objPropsLoop_restores re fs s hcf
        (fun p psc hp hpsc info' info2' hj =>
          hrec p.2 psc (@sizeJ_lt_of_memF p.1 p.2 fs (by simpa using hp)) hpsc info' info2' hj)
        fs (fun y hy => hy) info info2 h0

/-- Validation of any value against a combinator-free schema restores
the traversal info exactly on success. -/
theorem jvalidate_combFree (re : RegexEngine) :
    ∀ (n : Nat) (v : JValue), sizeJ v ≤ n → ∀ (s : JValue), combFree s = true →
      ∀ (info info2 : TraversalInfo), jvalidate re v s info = .ok info2 → info2 = info := by
  intro n
  induction n with
  | zero =>
      intro v hv
      have := sizeJ_pos v
      omega
  | succ n ih =>
      intro v hv s hcf info info2 h
      obtain ⟨hif, hall, hany, hone, hnot, hcont⟩ := combFree_no hcf
      cases hss : validateSingleSchema re v s info with
      | error e =>
          simp only [jvalidate.eq_def, hss] at h
          cases h
      | ok i1 =>
          have hi1 : i1 = info :=
            validateSingleSchema_restores re v s hcf
              (fun x psc hx hpsc info' info2' hj =>
                ih x (by omega) psc hpsc info' info2' hj) info i1 hss
          subst hi1
          simp only [jvalidate.eq_def, hss, validateConditional_none hif,
            validateAllOf_none hall, validateAnyOf_none hany,
            validateOneOf_none hone, validateNoneOf_none hnot] at h
          injection h with h1
          exact h1.symm

/-- The schema `{type:"array", contains:{type:"number"}}` of the
counterexample run. -/
def schemaC7 : JValue := .jobj [("type", .jstr "array"), ("contains", schemaNum)]

theorem jvalidate_jnum_typeNumber (re : RegexEngine) (q : Rat) (info : TraversalInfo) :
    jvalidate re (.jnum q) (.jobj [("type", .jstr "number")]) info = .ok info := by
  have hss : validateSingleSchema re (.jnum q) (.jobj [("type", .jstr "number")]) info
      = .ok info := by
    rw [vss_pass (by simp [getProp, lookupField, isValueTypeAny, isValueType, getValueType])
      (by simp [getProp, lookupField]) (by simp [getProp, lookupField])]
    show validateNumber q (.jobj [("type", .jstr "number")]) info = .ok info
    exact validateNumber_noKeys (by simp [getProp, lookupField])
      (by simp [getProp, lookupField]) (by simp [getProp, lookupField])
      (by simp [getProp, lookupField]) (by simp [getProp, lookupField])
  simp only [jvalidate.eq_def, hss,
    validateConditional_none (by simp [getProp, lookupField] :
      getProp (.jobj [("type", .jstr "number")]) "if" = none),
    validateAllOf_none (by simp [getProp, lookupField] :
      getProp (.jobj [("type", .jstr "number")]) "allOf" = none),
    validateAnyOf_none (by simp [getProp, lookupField] :
      getProp (.jobj [("type", .jstr "number")]) "anyOf" = none),
    validateOneOf_none (by simp [getProp, lookupField] :
      getProp (.jobj [("type", .jstr "number")]) "oneOf" = none),
    validateNoneOf_none (by simp [getProp, lookupField] :
      getProp (.jobj [("type", .jstr "number")]) "not" = none)]

/-- C7: amended trail-restoration statement.  The claimed stack
discipline fails in general (see the counterexample for `contains`), but
holds for combinator-free schemas — no `if`, `allOf`, `anyOf`, `oneOf`,
`not` or `contains` key anywhere in the schema tree: every successful
validation returns the trails exactly as they were, and a successful
top-level `validate` ends with only the root `(null, value)` and
`(null, schema)` entries. -/
theorem trails_restored_for_combinator_free :
    (∀ (re : RegexEngine) (v s : JValue) (info info2 : TraversalInfo),
      combFree s = true → jvalidate re v s info = .ok info2 → info2 = info)
    ∧ (∀ (re : RegexEngine) (v s : JValue) (info2 : TraversalInfo),
      combFree s = true → validate re v s = .ok info2 →
      info2 = ⟨[(none, v)], [(none, s)]⟩) := by
  have hmain : ∀ (re : RegexEngine) (v s : JValue) (info info2 : TraversalInfo),
      combFree s = true → jvalidate re v s info = .ok info2 → info2 = info :=
    fun re v s info info2 hcf h =>
      jvalidate_combFree re (sizeJ v) v le_rfl s hcf info info2 h
  refine ⟨hmain, fun re v s info2 hcf h => ?_⟩
  have h1 := hmain re v s (initInfo v s) info2 hcf h
  rw [h1]
  rfl

/-- Witness for C7's amended statement: `{type:"number"}` is
combinator-free, `5` validates against it, and the returned info is the
untouched root info. -/
theorem trails_restored_for_combinator_free_witness :
    combFree schemaNum = true
    ∧ validate noRegex (.jnum 5) schemaNum = .ok (initInfo (.jnum 5) schemaNum)
    ∧ initInfo (.jnum 5) schemaNum
        = ⟨[(none, .jnum 5)], [(none, schemaNum)]⟩ := by
  have hval : validate noRegex (.jnum 5) schemaNum = .ok (initInfo (.jnum 5) schemaNum) :=
    jvalidate_jnum_typeNumber noRegex 5 (initInfo (.jnum 5) schemaNum)
  exact ⟨by decide, hval,
    trails_restored_for_combinator_free.2 noRegex (.jnum 5) schemaNum
      (initInfo (.jnum 5) schemaNum) (by decide) hval⟩

/-- Counterexample to C7 as claimed: validating `[1]` against
`{type:"array", contains:{type:"number"}}` succeeds, but the `contains`
clause's early return skips the element's `valuePop`, so the returned
info still carries the element entry `(0, 1)` on `valuePath` — the
trails do not hold the entries they held before the call. -/
theorem contains_success_leaks_value_frame :
    validate noRegex (.jarr [.jnum 1]) schemaC7
      = .ok ⟨[(none, .jarr [.jnum 1]), (some (.nat 0), .jnum 1)], [(none, schemaC7)]⟩
    ∧ (⟨[(none, .jarr [.jnum 1]), (some (.nat 0), .jnum 1)],
        [(none, schemaC7)]⟩ : TraversalInfo)
      ≠ initInfo (.jarr [.jnum 1]) schemaC7 := by
  constructor
  · have hcontEq : getProp schemaC7 "contains" = some (.jobj [("type", .jstr "number")]) := by
      simp [schemaC7, schemaNum, getProp, lookupField]
    have hcontOK : validateArrayContains noRegex [.jnum 1] schemaC7
        (initInfo (.jarr [.jnum 1]) schemaC7)
        = .ok ⟨[(none, .jarr [.jnum 1]), (some (.nat 0), .jnum 1)], [(none, schemaC7)]⟩ := by
      rw [validateArrayContains_obj hcontEq]
      rw [containsLoop_cons_ok (jvalidate_jnum_typeNumber noRegex 1 _)]
      rfl
    have hresA : getPropertySchemaWith schemaC7 (.nat 0) (some (.jarr [.jnum 1]))
        = some (unconstrainedSchema, [(none, unconstrainedSchema)]) := by
      simp [getPropertySchemaWith, getSchemaOrValueType, schemaC7, schemaNum,
        additionalItemsFallback, getProp, lookupField, getValueType]
    have hssA : validateSingleSchema noRegex (.jarr [.jnum 1]) schemaC7
        (initInfo (.jarr [.jnum 1]) schemaC7)
        = .ok ⟨[(none, .jarr [.jnum 1]), (some (.nat 0), .jnum 1)], [(none, schemaC7)]⟩ := by
      rw [vss_pass
        (by simp [schemaC7, schemaNum, getProp, lookupField, isValueTypeAny, isValueType,
          getValueType])
        (by simp [schemaC7, schemaNum, getProp, lookupField])
        (by simp [schemaC7, schemaNum, getProp, lookupField])]
      show validateArray noRegex [.jnum 1] schemaC7 _
        = .ok ⟨[(none, .jarr [.jnum 1]), (some (.nat 0), .jnum 1)], [(none, schemaC7)]⟩
      rw [validateArray_contains_ok (by simp [schemaC7, schemaNum, getProp, lookupField])
        (by simp [schemaC7, schemaNum, getProp, lookupField]) hcontOK]
      rw [arrayElemsLoop_cons_ok hresA (jvalidate_unconstrained_ok noRegex (.jnum 1) _)]
      rw [valuePop_push, schemaPopN_pushList]
      rw [arrayElemsLoop_nil]
    show jvalidate noRegex (.jarr [.jnum 1]) schemaC7 (initInfo (.jarr [.jnum 1]) schemaC7)
      = .ok ⟨[(none, .jarr [.jnum 1]), (some (.nat 0), .jnum 1)], [(none, schemaC7)]⟩
    simp only [jvalidate.eq_def, hssA,
      validateConditional_none (by simp [schemaC7, schemaNum, getProp, lookupField] :
        getProp schemaC7 "if" = none),
      validateAllOf_none (by simp [schemaC7, schemaNum, getProp, lookupField] :
        getProp schemaC7 "allOf" = none),
      validateAnyOf_none (by simp [schemaC7, schemaNum, getProp, lookupField] :
        getProp schemaC7 "anyOf" = none),
      validateOneOf_none (by simp [schemaC7, schemaNum, getProp, lookupField] :
        getProp schemaC7 "oneOf" = none),
      validateNoneOf_none (by simp [schemaC7, schemaNum, getProp, lookupField] :
        getProp schemaC7 "not" = none)]
  · intro h
    have h2 := congrArg (fun i => i.valuePath.length) h
    simp [initInfo] at h2

end JsonSchema
namespace JsonSchema

/-! Well-formed values: JavaScript objects cannot carry duplicate
property keys, so the embedded field lists of a genuine engine value are
duplicate-free at every level. -/

def keysND : List (String × JValue) → Bool
  | [] => true
  | (k, _) :: fs => !(hasField fs k) && keysND fs

mutual

def wfJ : JValue → Bool
  | .jobj fs => keysND fs && wfF fs
  | .jarr xs => wfL xs
  | _ => true

def wfL : List JValue → Bool
  | [] => true
  | x :: xs => wfJ x && wfL xs

def wfF : List (String × JValue) → Bool
  | [] => true
  | (_, x) :: fs => wfJ x && wfF fs

end

theorem wfF_mem {fs : List (String × JValue)} {k : String} {x : JValue}
    (h : wfF fs = true) (hm : (k, x) ∈ fs) : wfJ x = true := by
  induction fs with
  | nil => cases hm
  | cons p rest ih =>
      obtain ⟨k', v⟩ := p
      simp only [wfF, Bool.and_eq_true] at h
      rcases List.mem_cons.mp hm with h1 | h1
      · injection h1 with h2 h3; subst h3; exact h.1
      · exact ih h.2 h1

theorem wfL_get {xs : List JValue} {j : Nat} {x : JValue}
    (h : wfL xs = true) (hg : xs.get? j = some x) : wfJ x = true := by
  induction xs generalizing j with
  | nil => simp at hg
  | cons a rest ih =>
      simp only [wfL, Bool.and_eq_true] at h
      cases j with
      | zero =>
          simp only [List.get?] at hg
          injection hg with h1; subst h1
          exact h.1
      | succ m =>
          simp only [List.get?] at hg
          exact ih h.2 hg

theorem hasField_of_mem {fs : List (String × JValue)} {k : String} {x : JValue}
    (h : (k, x) ∈ fs) : hasField fs k = true := by
  induction fs with
  | nil => cases h
  | cons p rest ih =>
      obtain ⟨k', v⟩ := p
      simp only [hasField, lookupField]
      by_cases hk : k' = k
      · simp [hk]
      · rw [if_neg hk]
        rcases List.mem_cons.mp h with h1 | h1
        · injection h1 with h2 h3; exact absurd h2.symm hk
        · simpa [hasField] using ih h1

theorem lookup_of_mem_nodup {fs : List (String × JValue)} {k : String} {x : JValue}
    (hnd : keysND fs = true) (h : (k, x) ∈ fs) : lookupField fs k = some x := by
  induction fs with
  | nil => cases h
  | cons p rest ih =>
      obtain ⟨k', v⟩ := p
      simp only [keysND, Bool.and_eq_true, Bool.not_eq_true'] at hnd
      simp only [lookupField]
      rcases List.mem_cons.mp h with h1 | h1
      · injection h1 with h2 h3
        subst h2; subst h3
        simp
      · by_cases hk : k' = k
        · subst hk
          rw [hasField_of_mem h1] at hnd
          cases hnd.1
        · rw [if_neg hk]
          exact ih hnd.2 h1

theorem lookupField_mem {fs : List (String × JValue)} {k : String} {x : JValue}
    (h : lookupField fs k = some x) : (k, x) ∈ fs := by
  induction fs with
  | nil => simp [lookupField] at h
  | cons p rest ih =>
      obtain ⟨k', v⟩ := p
      simp only [lookupField] at h
      by_cases hk : k' = k
      · rw [if_pos hk] at h
        injection h with h1
        subst hk; subst h1
        exact List.mem_cons_self _ _
      · rw [if_neg hk] at h
        exact List.mem_cons_of_mem _ (ih h)

theorem setField_self {fs : List (String × JValue)} {k : String} {x : JValue}
    (h : lookupField fs k = some x) : setField fs k x = fs := by
  induction fs with
  | nil => simp [lookupField] at h
  | cons p rest ih =>
      obtain ⟨k', v⟩ := p
      simp only [lookupField] at h
      simp only [setField]
      by_cases hk : k' = k
      · rw [if_pos hk] at h
        injection h with h1
        subst hk; subst h1
        simp
      · rw [if_neg hk] at h
        rw [if_neg hk, ih h]

theorem set_get_self {xs : List JValue} {i : Nat} {x : JValue}
    (h : xs.get? i = some x) : xs.set i x = xs := by
  induction xs generalizing i with
  | nil => simp at h
  | cons a rest ih =>
      cases i with
      | zero =>
          simp only [List.get?] at h
          injection h with h1
          subst h1
          rfl
      | succ m =>
          simp only [List.get?] at h
          simp [List.set, ih h]

theorem isValid_unconstrained (re : RegexEngine) (v : JValue) :
    isValid re v unconstrainedSchema = true := by
  simp [isValid, validate, jvalidate_unconstrained_ok, Except.isOk, Except.toBool]

/-! Success inversion through the validator: what a successful
validation says about the value. -/

theorem isValid_vss_ok {re : RegexEngine} {v s : JValue} (h : isValid re v s = true) :
    ∃ i1, validateSingleSchema re v s (initInfo v s) = .ok i1 := by
  cases hss : validateSingleSchema re v s (initInfo v s) with
  | ok i1 => exact ⟨i1, rfl⟩
  | error e =>
      simp [isValid, validate, jvalidate.eq_def, hss, Except.isOk, Except.toBool] at h

theorem vss_ok_checks {re : RegexEngine} {v s : JValue} {info i1 : TraversalInfo}
    (h : validateSingleSchema re v s info = .ok i1) :
    isValueTypeAny v (getValueType (some v)) (getProp s "type") = true
    ∧ (match getProp s "const" with
        | some c => !(jsStrictEq v c)
        | none => false) = false
    ∧ (match getProp s "enum" with
        | some (.jarr l) => !(valuesAreEqualAny v l)
        | _ => false) = false := by
  cases hty : isValueTypeAny v (getValueType (some v)) (getProp s "type") with
  | false => rw [vss_type_fail hty] at h; cases h
  | true =>
  cases hc : (match getProp s "const" with
      | some c => !(jsStrictEq v c)
      | none => false) with
  | true => rw [vss_const_fail hty hc] at h; cases h
  | false =>
  cases he : (match getProp s "enum" with
      | some (.jarr l) => !(valuesAreEqualAny v l)
      | _ => false) with
  | true => rw [vss_enum_fail hty hc he] at h; cases h
  | false => exact ⟨rfl, rfl, rfl⟩

theorem vss_ok_obj {re : RegexEngine} {fs : List (String × JValue)} {s : JValue}
    {info i1 : TraversalInfo} (h : validateSingleSchema re (.jobj fs) s info = .ok i1) :
    validateObject re fs s info = .ok i1 := by
  obtain ⟨hty, hc, he⟩ := vss_ok_checks h
  rw [vss_pass hty hc he] at h
  exact h

theorem vss_ok_arr {re : RegexEngine} {xs : List JValue} {s : JValue}
    {info i1 : TraversalInfo} (h : validateSingleSchema re (.jarr xs) s info = .ok i1) :
    validateArray re xs s info = .ok i1 := by
  obtain ⟨hty, hc, he⟩ := vss_ok_checks h
  rw [vss_pass hty hc he] at h
  exact h

theorem validateObject_ok_inv {re : RegexEngine} {fs : List (String × JValue)}
    {s : JValue} {info i2 : TraversalInfo} (h : validateObject re fs s info = .ok i2) :
    findMissingRequired fs (match getProp s "required" with
        | some (.jarr l) => l
        | _ => []) = none
    ∧ objPropsLoop re fs s fs info = .ok i2 := by
  cases hm : findMissingRequired fs (match getProp s "required" with
      | some (.jarr l) => l
      | _ => []) with
  | some m => rw [validateObject_missing hm] at h; cases h
  | none =>
      rw [validateObject_scan_ok hm] at h
      exact ⟨rfl, h⟩

theorem objPropsLoop_ok_inv {re : RegexEngine} {fs : List (String × JValue)} {s : JValue} :
    ∀ {pending : List (String × JValue)} {info i2 : TraversalInfo},
      objPropsLoop re fs s pending info = .ok i2 →
      ∀ p ∈ pending, ∃ psc path,
        getPropertySchemaWith s (.str p.1) (some (.jobj fs)) = some (psc, path)
        ∧ isValid re p.2 psc = true := by
  intro pending
  induction pending with
  | nil => intro info i2 h p hp; cases hp
  | cons q rest ih =>
      intro info i2 h p hp
      obtain ⟨k, x⟩ := q
      cases hres : getPropertySchemaWith s (.str k) (some (.jobj fs)) with
      | none => rw [objPropsLoop_cons_none hres] at h; cases h
      | some pr =>
          obtain ⟨psc, spath⟩ := pr
          cases hj : jvalidate re x psc
              (valuePush (schemaPushList info spath) (some (.str k)) x) with
          | error e => rw [objPropsLoop_cons_err hres hj] at h; cases h
          | ok i4 =>
              rw [objPropsLoop_cons_ok hres hj] at h
              rcases List.mem_cons.mp hp with h1 | h1
              · subst h1
                refine ⟨psc, spath, hres, ?_⟩
                rw [← jvalidate_isOk re x psc
                  (valuePush (schemaPushList info spath) (some (.str k)) x), hj]
                rfl
              · exact ih h p h1

theorem validateArray_ok_inv {re : RegexEngine} {xs : List JValue} {s : JValue}
    {info i2 : TraversalInfo} (h : validateArray re xs s info = .ok i2) :
    (match getProp s "minItems" with
        | some (.jnum m) => decide ((xs.length : Rat) < m)
        | _ => false) = false
    ∧ (match getProp s "maxItems" with
        | some (.jnum m) => decide ((xs.length : Rat) > m)
        | _ => false) = false
    ∧ ∃ i1, arrayElemsLoop re xs s xs 0 i1 = .ok i2 := by
  cases hc1 : (match getProp s "minItems" with
      | some (.jnum m) => decide ((xs.length : Rat) < m)
      | _ => false) with
  | true => rw [validateArray_short hc1] at h; cases h
  | false =>
  cases hc2 : (match getProp s "maxItems" with
      | some (.jnum m) => decide ((xs.length : Rat) > m)
      | _ => false) with
  | true => rw [validateArray_long (by simp [hc1]) hc2] at h; cases h
  | false =>
  cases hcont : validateArrayContains re xs s info with
  | error e =>
      rw [validateArray_contains_err (by simp [hc1]) (by simp [hc2]) hcont] at h
      cases h
  | ok i1 =>
      rw [validateArray_contains_ok (by simp [hc1]) (by simp [hc2]) hcont] at h
      exact ⟨rfl, rfl, i1, h⟩

theorem arrayElemsLoop_ok_inv {re : RegexEngine} {xs : List JValue} {s : JValue} :
    ∀ {pending : List JValue} {i : Nat} {info i2 : TraversalInfo},
      arrayElemsLoop re xs s pending i info = .ok i2 →
      ∀ (j : Nat) (x : JValue), pending.get? j = some x →
        ∃ psc path, getPropertySchemaWith s (.nat (i + j)) (some (.jarr xs)) = some (psc, path)
          ∧ isValid re x psc = true := by
  intro pending
  induction pending with
  | nil => intro i info i2 h j x hx; simp at hx
  | cons y rest ih =>
      intro i info i2 h j x hx
      cases hres : getPropertySchemaWith s (.nat i) (some (.jarr xs)) with
      | none => rw [arrayElemsLoop_cons_none hres] at h; cases h
      | some pr =>
          obtain ⟨psc, spath⟩ := pr
          cases hj : jvalidate re y psc
              (valuePush (schemaPushList info spath) (some (.nat i)) y) with
          | error e => rw [arrayElemsLoop_cons_err hres hj] at h; cases h
          | ok i4 =>
              rw [arrayElemsLoop_cons_ok hres hj] at h
              cases j with
              | zero =>
                  simp only [List.get?] at hx
                  injection hx with h1
                  subst h1
                  refine ⟨psc, spath, ?_, ?_⟩
                  · rw [Nat.add_zero]; exact hres
                  · rw [← jvalidate_isOk re y psc
                      (valuePush (schemaPushList info spath) (some (.nat i)) y), hj]
                    rfl
              | succ m =>
                  simp only [List.get?] at hx
                  have h2 := ih h m x hx
                  rw [show i + (m + 1) = (i + 1) + m by omega]
                  exact h2

theorem findMissingRequired_none {fs : List (String × JValue)} :
    ∀ {l : List JValue}, findMissingRequired fs l = none →
      ∀ m ∈ l, ∃ k, m = .jstr k ∧ hasField fs k = true := by
  intro l
  induction l with
  | nil => intro h m hm; cases hm
  | cons m0 rest ih =>
      intro h m hm
      cases m0 with
      | jstr st =>
          simp only [findMissingRequired] at h
          cases hh : hasField fs st with
          | false => rw [hh] at h; simp at h
          | true =>
              rw [hh] at h
              simp only [if_true] at h
              rcases List.mem_cons.mp hm with h1 | h1
              · subst h1; exact ⟨st, rfl, hh⟩
              · exact ih h m h1
      | jnull => simp only [findMissingRequired] at h; cases h
      | jbool b => simp only [findMissingRequired] at h; cases h
      | jnum q => simp only [findMissingRequired] at h; cases h
      | jarr a => simp only [findMissingRequired] at h; cases h
      | jobj a => simp only [findMissingRequired] at h; cases h

theorem populateObjectDefaults_noreqList {re : RegexEngine} {fields : List (String × JValue)}
    {s : JValue} (h : ∀ l, getProp s "required" ≠ some (.jarr l)) :
    populateObjectDefaults re fields s = .jobj (propsLoop re fields fields s) := by
  rw [populateObjectDefaults.eq_def]
  split
  · rename_i l hl; exact absurd hl (h l)
  · rfl

theorem arrTruncPhase_noop {cur : List JValue} {s : JValue}
    (h : (match getProp s "maxItems" with
        | some (.jnum m) => decide ((cur.length : Rat) > m)
        | _ => false) = false) :
    arrTruncPhase cur s = .jarr cur := by
  simp only [arrTruncPhase]
  split
  · rename_i mx hmx
    rw [hmx] at h
    simp only [decide_eq_false_iff_not] at h
    rw [if_neg h]
  · rfl

theorem substValue_of_typed {s vv : JValue}
    (hty : isValueTypeAny vv (getValueType (some vv)) (getProp s "type") = true) :
    substValue s (some vv) = vv := by
  simp [substValue, hty]

theorem substValue_idem (s : JValue) (v : Option JValue) :
    substValue s (some (substValue s v)) = substValue s v := by
  have hd : substValue s (some (getDefaultSchemaValue s)) = getDefaultSchemaValue s := by
    by_cases h : isValueTypeAny (getDefaultSchemaValue s)
        (getValueType (some (getDefaultSchemaValue s))) (getProp s "type") = true
    · simp [substValue, h]
    · simp only [substValue, h]
      simp
  cases v with
  | none => exact hd
  | some vv =>
      by_cases h : isValueTypeAny vv (getValueType (some vv)) (getProp s "type") = true
      · simp [substValue, h]
      · have h2 : substValue s (some vv) = getDefaultSchemaValue s := by
          simp only [substValue]
          rw [if_neg (by simp [h])]
        rw [h2]
        exact hd

end JsonSchema
namespace JsonSchema

theorem populateArrayDefaults_nonum {re : RegexEngine} {elems : List JValue} {s : JValue}
    (h : ∀ q, getProp s "minItems" ≠ some (.jnum q)) :
    populateArrayDefaults re elems s = arrTruncPhase (arrNormLoop re elems elems 0 s) s := by
  rw [populateArrayDefaults.eq_def]
  split
  · rename_i q hq; exact absurd hq (h q)
  · rfl

/-- A value that validates against a schema is a fixpoint of
normalization (strong double induction on schema size, then value
size). -/
theorem gvvod_fix_aux (re : RegexEngine) : ∀ (a b : Nat) (s v : JValue),
    sizeJ s ≤ a → sizeJ v ≤ b → wfJ v = true → isValid re v s = true →
    getValidValueOrDefault re s (some v) = v := by
  intro a
  induction a with
  | zero =>
      intro b s v hs hv hwf hval
      have := sizeJ_pos s
      omega
  | succ a iha =>
      intro b
      induction b with
      | zero =>
          intro s v hs hv hwf hval
          have := sizeJ_pos v
          omega
      | succ b ihb =>
          intro s v hs hv hwf hval
          obtain ⟨i1, hss⟩ := isValid_vss_ok hval
          have hty := (vss_ok_checks hss).1
          have hsub : substValue s (some v) = v := substValue_of_typed hty
          have hsz1 : sizeJ unconstrainedSchema = 1 := by decide
          cases v with
          | jnull =>
              rw [getValidValueOrDefault_prim hsub (fun _ h => by cases h)
                (fun _ h => by cases h)]
              simp [hval]
          | jbool bb =>
              rw [getValidValueOrDefault_prim hsub (fun _ h => by cases h)
                (fun _ h => by cases h)]
              simp [hval]
          | jnum q =>
              rw [getValidValueOrDefault_prim hsub (fun _ h => by cases h)
                (fun _ h => by cases h)]
              simp [hval]
          | jstr st =>
              rw [getValidValueOrDefault_prim hsub (fun _ h => by cases h)
                (fun _ h => by cases h)]
              simp [hval]
          | jarr elems =>
              rw [getValidValueOrDefault_arr hsub]
              have harr := vss_ok_arr hss
              obtain ⟨hminF, hmaxF, i1', helems⟩ := validateArray_ok_inv harr
              simp only [wfJ] at hwf
              have hfixA : ∀ (j : Nat) (x : JValue), elems.get? j = some x →
                  ∀ psc path,
                    getPropertySchemaWith s (.nat j) (some (.jarr elems)) = some (psc, path) →
                    getValidValueOrDefault re psc (some x) = x := by
                intro j x hg psc path hres
                obtain ⟨psc', path', hres', hvalid⟩ := arrayElemsLoop_ok_inv helems j x hg
                rw [Nat.zero_add] at hres'
                rw [hres] at hres'
                injection hres' with h1
                injection h1 with h2 h3
                subst h2
                have hwfx : wfJ x = true := wfL_get hwf hg
                rcases getPropertySchemaWith_size hres with hlt | huncon
                · exact iha (sizeJ x) psc x (by omega) le_rfl hwfx hvalid
                · subst huncon
                  have hxlt : sizeJ x < sizeJ (.jarr elems) :=
                    sizeJ_lt_of_mem (List.get?_mem hg)
                  exact ihb unconstrainedSchema x (by omega) (by omega) hwfx hvalid
              have hnorm : ∀ (pend : List JValue) (i : Nat),
                  (∀ (j : Nat) (x : JValue), pend.get? j = some x →
                    elems.get? (i + j) = some x) →
                  arrNormLoop re pend elems i s = elems := by
                intro pend
                induction pend with
                | nil => intro i _; exact arrNormLoop_nil
                | cons x rest ih =>
                    intro i hidx
                    have hg : elems.get? i = some x := by
                      have h0 := hidx 0 x rfl
                      rwa [Nat.add_zero] at h0
                    have hrest : ∀ (j : Nat) (y : JValue), rest.get? j = some y →
                        elems.get? ((i + 1) + j) = some y := by
                      intro j y hy
                      have h1 := hidx (j + 1) y (by simpa using hy)
                      rwa [show i + (j + 1) = (i + 1) + j by omega] at h1
                    cases hres : getPropertySchemaWith s (.nat i) (some (.jarr elems)) with
                    | none =>
                        rw [arrNormLoop_cons_none hres]
                        exact ih (i + 1) hrest
                    | some pr =>
                        obtain ⟨psc, path⟩ := pr
                        rw [arrNormLoop_cons_some hres, hfixA i x hg psc path hres,
                          set_get_self hg]
                        exact ih (i + 1) hrest
              have hnorm0 : arrNormLoop re elems elems 0 s = elems :=
                hnorm elems 0 (fun j x h => by rwa [Nat.zero_add])
              by_cases hminA : ∃ q, getProp s "minItems" = some (.jnum q)
              · obtain ⟨q, hmin⟩ := hminA
                have h2s : 2 ≤ sizeJ s := by have := getProp_size hmin; omega
                rw [populateArrayDefaults_min hmin h2s]
                simp only [hnorm0]
                have hcond : ¬ ((elems.length : Rat) < q) := by
                  rw [hmin] at hminF
                  simpa using hminF
                rw [if_neg hcond]
                exact arrTruncPhase_noop hmaxF
              · push_neg at hminA
                rw [populateArrayDefaults_nonum hminA, hnorm0]
                exact arrTruncPhase_noop hmaxF
          | jobj fields =>
              rw [getValidValueOrDefault_obj hsub]
              have hobj := vss_ok_obj hss
              obtain ⟨hmiss, hscan⟩ := validateObject_ok_inv hobj
              simp only [wfJ, Bool.and_eq_true] at hwf
              obtain ⟨hnd, hwff⟩ := hwf
              have hfix : ∀ (k : String) (x : JValue), (k, x) ∈ fields →
                  ∀ psc path,
                    getPropertySchemaWith s (.str k) (some (.jobj fields)) = some (psc, path) →
                    getValidValueOrDefault re psc (some x) = x := by
                intro k x hm psc path hres
                obtain ⟨psc', path', hres', hvalid⟩ := objPropsLoop_ok_inv hscan (k, x) hm
                rw [hres] at hres'
                injection hres' with h1
                injection h1 with h2 h3
                subst h2
                have hwfx : wfJ x = true := wfF_mem hwff hm
                rcases getPropertySchemaWith_size hres with hlt | huncon
                · exact iha (sizeJ x) psc x (by omega) le_rfl hwfx hvalid
                · subst huncon
                  have hxlt : sizeJ x < sizeJ (.jobj fields) := sizeJ_lt_of_memF hm
                  exact ihb unconstrainedSchema x (by omega) (by omega) hwfx hvalid
              have hpropsfix : ∀ (pend : List (String × JValue)),
                  (∀ p ∈ pend, p ∈ fields) → propsLoop re pend fields s = fields := by
                intro pend
                induction pend with
                | nil => intro _; exact propsLoop_nil
                | cons p rest ih =>
                    intro hsubset
                    obtain ⟨k, x⟩ := p
                    have hm : (k, x) ∈ fields := hsubset (k, x) (List.mem_cons_self _ _)
                    obtain ⟨psc, path, hres, hvd⟩ := objPropsLoop_ok_inv hscan (k, x) hm
                    rw [propsLoop_cons_some hres, hfix k x hm psc path hres,
                      setField_self (lookup_of_mem_nodup hnd hm)]
                    exact ih (fun p hp => hsubset p (List.mem_cons_of_mem _ hp))
              by_cases hreqA : ∃ l, getProp s "required" = some (.jarr l)
              · obtain ⟨l, hreq⟩ := hreqA
                have h2s : 2 ≤ sizeJ s := by have := getProp_size hreq; omega
                have hmiss' : findMissingRequired fields l = none := by
                  rw [hreq] at hmiss
                  exact hmiss
                have hreqfix : ∀ (l' : List JValue), (∀ m ∈ l', m ∈ l) →
                    reqLoop re l' fields s h2s = fields := by
                  intro l'
                  induction l' with
                  | nil => intro _; exact reqLoop_nil
                  | cons m rest ih =>
                      intro hsubset
                      obtain ⟨k, hk, hhas⟩ := findMissingRequired_none hmiss' m
                        (hsubset m (List.mem_cons_self _ _))
                      subst hk
                      obtain ⟨x, hx⟩ := Option.isSome_iff_exists.mp
                        (by simpa [hasField] using hhas)
                      have hm : (k, x) ∈ fields := lookupField_mem hx
                      cases hres : getPropertySchemaWith s (.str (reqKey (.jstr k)))
                          (some (.jobj fields)) with
                      | none =>
                          rw [reqLoop_cons_none hres]
                          exact ih (fun m2 hm2 => hsubset m2 (List.mem_cons_of_mem _ hm2))
                      | some pr =>
                          obtain ⟨psc, path⟩ := pr
                          rw [reqLoop_cons_some hres]
                          simp only [reqKey]
                          rw [hx, hfix k x hm psc path hres, setField_self hx]
                          exact ih (fun m2 hm2 => hsubset m2 (List.mem_cons_of_mem _ hm2))
                rw [populateObjectDefaults_req hreq h2s, hreqfix l (fun m hm => hm),
                  hpropsfix _ (fun p hp => List.mem_of_mem_filter hp)]
              · push_neg at hreqA
                rw [populateObjectDefaults_noreqList hreqA,
                  hpropsfix fields (fun p hp => hp)]

/-- Valid well-formed values are fixpoints of `_getValidValueOrDefault`. -/
theorem gvvod_of_valid {re : RegexEngine} {s v : JValue}
    (hwf : wfJ v = true) (hval : isValid re v s = true) :
    getValidValueOrDefault re s (some v) = v :=
  gvvod_fix_aux re (sizeJ s) (sizeJ v) s v le_rfl le_rfl hwf hval

end JsonSchema
namespace JsonSchema

/-- The idempotence counterexample schema: a fractional `maxItems` below
`minItems` makes the pad/truncate phases fight each other. -/
def schemaC9 : JValue := .jobj [("type", .jstr "array"), ("items", schemaNum),
  ("minItems", .jnum 4), ("maxItems", .jnum (5 / 2 : Rat))]

theorem resC9 (i : Nat) (cur : List JValue) :
    getPropertySchemaWith schemaC9 (.nat i) (some (.jarr cur)) = some (schemaNum, []) := by
  simp [getPropertySchemaWith, getSchemaOrValueType, schemaC9, schemaNum,
    getProp, lookupField, getValueType]

theorem jsTrunc_c9a : jsTrunc (5 / 2 : Rat) = 2 := by
  rw [jsTrunc, if_pos (by norm_num)]
  rw [Int.floor_eq_iff]
  constructor <;> norm_num

theorem jsTrunc_c9b : jsTrunc ((4 : Rat) - 5 / 2) = 1 := by
  rw [jsTrunc, if_pos (by norm_num)]
  rw [show (4 : Rat) - 5 / 2 = 3 / 2 by norm_num]
  rw [Int.floor_eq_iff]
  constructor <;> norm_num

theorem arrTruncPhase_c9 (a b c d : JValue) :
    arrTruncPhase [a, b, c, d] schemaC9 = .jarr [a, b, d] := by
  have hmx : getProp schemaC9 "maxItems" = some (.jnum (5 / 2 : Rat)) := by
    simp [schemaC9, getProp, lookupField]
  simp only [arrTruncPhase, hmx, List.length_cons, List.length_nil]
  rw [if_pos (by norm_num)]
  congr 1
  have h4 : ((4 : Nat) : Rat) = (4 : Rat) := by norm_num
  simp only [jsSpliceDelete, h4, jsTrunc_c9a, jsTrunc_c9b]
  norm_num
  rfl

theorem substValue_schemaNum5_num (q : Rat) :
    substValue schemaNum5 (some (.jnum q)) = .jnum q := by
  simp [substValue, schemaNum5, getProp, lookupField, isValueTypeAny, isValueType, getValueType]

theorem gvvod_schemaNum5_num (re : RegexEngine) (q : Rat) :
    getValidValueOrDefault re schemaNum5 (some (.jnum q)) = .jnum q := by
  rw [getValidValueOrDefault_prim (substValue_schemaNum5_num q) (by simp) (by simp)]
  simp [isValid_jnum_schemaNum5]

theorem gvvod_schemaC3_empty (re : RegexEngine) :
    getValidValueOrDefault re schemaC3 (some (.jobj [])) = .jobj [("a", .jnum 5)] := by
  have hsub : substValue schemaC3 (some (.jobj [])) = .jobj [] := by
    simp [substValue, schemaC3, getProp, lookupField, isValueTypeAny, isValueType, getValueType]
  rw [getValidValueOrDefault_obj hsub]
  have hreq : getProp schemaC3 "required" = some (.jarr [.jstr "a"]) := by
    simp [schemaC3, getProp, lookupField]
  rw [populateObjectDefaults_req hreq (by decide)]
  rw [reqLoop_cons_some (resC3 [])]
  rw [reqLoop_nil]
  simp [reqKey, lookupField, setField, gvvod_schemaNum5_none, propsLoop_nil, reqStrNames]

theorem gvvod_schemaC3_a5 (re : RegexEngine) :
    getValidValueOrDefault re schemaC3 (some (.jobj [("a", .jnum 5)]))
      = .jobj [("a", .jnum 5)] := by
  have hsub : substValue schemaC3 (some (.jobj [("a", .jnum 5)]))
      = .jobj [("a", .jnum 5)] := by
    simp [substValue, schemaC3, getProp, lookupField, isValueTypeAny, isValueType, getValueType]
  rw [getValidValueOrDefault_obj hsub]
  have hreq : getProp schemaC3 "required" = some (.jarr [.jstr "a"]) := by
    simp [schemaC3, getProp, lookupField]
  rw [populateObjectDefaults_req hreq (by decide)]
  rw [reqLoop_cons_some (resC3 [("a", .jnum 5)])]
  rw [reqLoop_nil]
  simp [reqKey, lookupField, setField, gvvod_schemaNum5_num, propsLoop_nil, reqStrNames]

theorem wfJ_of_not_container {w : JValue}
    (hobj : ∀ fields, w ≠ .jobj fields) (harr : ∀ elems, w ≠ .jarr elems) :
    wfJ w = true := by
  cases w with
  | jobj fields => exact absurd rfl (hobj fields)
  | jarr elems => exact absurd rfl (harr elems)
  | jnull => rfl
  | jbool b => rfl
  | jnum q => rfl
  | jstr st => rfl

theorem gvvod_sC9_pass1 :
    getValidValueOrDefault noRegex schemaC9
        (some (.jarr [.jnum 10, .jnum 20, .jnum 30, .jnum 40]))
      = .jarr [.jnum 10, .jnum 20, .jnum 40] := by
  have hsub : substValue schemaC9 (some (.jarr [.jnum 10, .jnum 20, .jnum 30, .jnum 40]))
      = .jarr [.jnum 10, .jnum 20, .jnum 30, .jnum 40] := by
    simp [substValue, schemaC9, getProp, lookupField, isValueTypeAny, isValueType, getValueType]
  rw [getValidValueOrDefault_arr hsub]
  have hmin : getProp schemaC9 "minItems" = some (.jnum 4) := by
    simp [schemaC9, getProp, lookupField]
  rw [populateArrayDefaults_min hmin (by decide)]
  have hnorm : arrNormLoop noRegex [.jnum 10, .jnum 20, .jnum 30, .jnum 40]
      [.jnum 10, .jnum 20, .jnum 30, .jnum 40] 0 schemaC9
      = [.jnum 10, .jnum 20, .jnum 30, .jnum 40] := by
    rw [arrNormLoop_cons_some (resC9 0 _)]
    simp only [gvvod_schemaNum_num, List.set]
    rw [arrNormLoop_cons_some (resC9 1 _)]
    simp only [gvvod_schemaNum_num, List.set]
    rw [arrNormLoop_cons_some (resC9 2 _)]
    simp only [gvvod_schemaNum_num, List.set]
    rw [arrNormLoop_cons_some (resC9 3 _)]
    simp only [gvvod_schemaNum_num, List.set]
    rw [arrNormLoop_nil]
  simp only [hnorm, List.length_cons, List.length_nil]
  rw [if_neg (by norm_num)]
  exact arrTruncPhase_c9 _ _ _ _

theorem gvvod_sC9_pass2 :
    getValidValueOrDefault noRegex schemaC9
        (some (.jarr [.jnum 10, .jnum 20, .jnum 40]))
      = .jarr [.jnum 10, .jnum 20, .jnum 0] := by
  have hsub : substValue schemaC9 (some (.jarr [.jnum 10, .jnum 20, .jnum 40]))
      = .jarr [.jnum 10, .jnum 20, .jnum 40] := by
    simp [substValue, schemaC9, getProp, lookupField, isValueTypeAny, isValueType, getValueType]
  rw [getValidValueOrDefault_arr hsub]
  have hmin : getProp schemaC9 "minItems" = some (.jnum 4) := by
    simp [schemaC9, getProp, lookupField]
  rw [populateArrayDefaults_min hmin (by decide)]
  have hnorm : arrNormLoop noRegex [.jnum 10, .jnum 20, .jnum 40]
      [.jnum 10, .jnum 20, .jnum 40] 0 schemaC9
      = [.jnum 10, .jnum 20, .jnum 40] := by
    rw [arrNormLoop_cons_some (resC9 0 _)]
    simp only [gvvod_schemaNum_num, List.set]
    rw [arrNormLoop_cons_some (resC9 1 _)]
    simp only [gvvod_schemaNum_num, List.set]
    rw [arrNormLoop_cons_some (resC9 2 _)]
    simp only [gvvod_schemaNum_num, List.set]
    rw [arrNormLoop_nil]
  simp only [hnorm, List.length_cons, List.length_nil]
  rw [if_pos (by norm_num)]
  rw [padLoop_go_some (by norm_num) (resC9 3 _)]
  simp only [gvvod_schemaNum_none, List.cons_append, List.nil_append]
  rw [padLoop_stop (by norm_num)]
  exact arrTruncPhase_c9 _ _ _ _

/-- C9: restricted idempotence.  The unrestricted claim is false (see
the counterexample); what holds is: the substitution step is idempotent;
every well-formed value that validates against the schema is a fixpoint
of `_getValidValueOrDefault`; hence normalization is idempotent whenever
its first result is well-formed and valid; it is also idempotent
whenever the substituted value is not an object or array (given a
well-formed schema default); and the spec's own object example
normalizes idempotently. -/
theorem normalization_idempotent_on_valid :
    (∀ (s : JValue) (v : Option JValue),
      substValue s (some (substValue s v)) = substValue s v)
    ∧ (∀ (re : RegexEngine) (s v : JValue), wfJ v = true → isValid re v s = true →
      getValidValueOrDefault re s (some v) = v)
    ∧ (∀ (re : RegexEngine) (s : JValue) (v : Option JValue),
      wfJ (getValidValueOrDefault re s v) = true →
      isValid re (getValidValueOrDefault re s v) s = true →
      getValidValueOrDefault re s (some (getValidValueOrDefault re s v))
        = getValidValueOrDefault re s v)
    ∧ (∀ (re : RegexEngine) (s : JValue) (v : Option JValue),
      (∀ fields, substValue s v ≠ .jobj fields) →
      (∀ elems, substValue s v ≠ .jarr elems) →
      wfJ (getDefaultSchemaValue s) = true →
      getValidValueOrDefault re s (some (getValidValueOrDefault re s v))
        = getValidValueOrDefault re s v)
    ∧ getValidValueOrDefault noRegex schemaC3
        (some (getValidValueOrDefault noRegex schemaC3 (some (.jobj []))))
      = getValidValueOrDefault noRegex schemaC3 (some (.jobj [])) := by
  refine ⟨substValue_idem, fun re s v hwf hval => gvvod_of_valid hwf hval,
    fun re s v hwf hval => gvvod_of_valid hwf hval, ?_, ?_⟩
  · intro re s v hobj harr hwfd
    have hprim := @getValidValueOrDefault_prim re s v (substValue s v) rfl hobj harr
    by_cases h1 : isValid re (substValue s v) s = true
    · rw [hprim, if_pos h1]
      exact gvvod_of_valid (wfJ_of_not_container hobj harr) h1
    · by_cases h2 : isValid re (getDefaultSchemaValue s) s = true
      · rw [hprim, if_neg h1, if_pos h2]
        exact gvvod_of_valid hwfd h2
      · rw [hprim, if_neg h1, if_neg h2]
        rw [getValidValueOrDefault_prim (substValue_idem s v) hobj harr,
          if_neg h1, if_neg h2]
  · rw [gvvod_schemaC3_empty noRegex]
    exact gvvod_schemaC3_a5 noRegex

/-- Witness for C9's amended statement: a valid number is a fixpoint of
normalization against `{type:"number"}`, and a mistyped string candidate
(substituted by the primitive default `0`) normalizes idempotently. -/
theorem normalization_idempotence_witness :
    (wfJ (.jnum 7) = true ∧ isValid noRegex (.jnum 7) schemaNum = true
      ∧ getValidValueOrDefault noRegex schemaNum (some (.jnum 7)) = .jnum 7)
    ∧ ((∀ fields, substValue schemaNum (some (.jstr "x")) ≠ .jobj fields)
      ∧ wfJ (getDefaultSchemaValue schemaNum) = true
      ∧ getValidValueOrDefault noRegex schemaNum
          (some (getValidValueOrDefault noRegex schemaNum (some (.jstr "x"))))
        = getValidValueOrDefault noRegex schemaNum (some (.jstr "x"))) := by
  have hsub : substValue schemaNum (some (.jstr "x")) = .jnum 0 := by
    simp [substValue, getDefaultSchemaValue, getDefaultTypeValue, clone, schemaNum,
      getProp, lookupField, isValueTypeAny, isValueType, getValueType]
  constructor
  · exact ⟨by decide, isValid_jnum_schemaNum noRegex 7,
      normalization_idempotent_on_valid.2.1 noRegex schemaNum (.jnum 7) (by decide)
        (isValid_jnum_schemaNum noRegex 7)⟩
  · refine ⟨(fun fields h => by rw [hsub] at h; cases h), by decide, ?_⟩
    exact normalization_idempotent_on_valid.2.2.2.1 noRegex schemaNum (some (.jstr "x"))
      (fun fields h => by rw [hsub] at h; cases h)
      (fun elems h => by rw [hsub] at h; cases h)
      (by decide)

/-- Counterexample to C9 as claimed: normalizing
`[10,20,30,40]` against `{type:"array", items:{type:"number"},
minItems:4, maxItems:2.5}` yields `[10,20,40]` (the fractional splice
start keeps index 3), but normalizing that result again yields
`[10,20,0]`: the second pass first pads the three-element array back to
`minItems` with the default `0` and then the splice deletes the
surviving element at index 2.  Normalization is not idempotent. -/
theorem fractional_maxItems_breaks_idempotence :
    getValidValueOrDefault noRegex schemaC9
        (some (.jarr [.jnum 10, .jnum 20, .jnum 30, .jnum 40]))
      = .jarr [.jnum 10, .jnum 20, .jnum 40]
    ∧ getValidValueOrDefault noRegex schemaC9
        (some (getValidValueOrDefault noRegex schemaC9
          (some (.jarr [.jnum 10, .jnum 20, .jnum 30, .jnum 40]))))
      = .jarr [.jnum 10, .jnum 20, .jnum 0]
    ∧ getValidValueOrDefault noRegex schemaC9
        (some (getValidValueOrDefault noRegex schemaC9
          (some (.jarr [.jnum 10, .jnum 20, .jnum 30, .jnum 40]))))
      ≠ getValidValueOrDefault noRegex schemaC9
        (some (.jarr [.jnum 10, .jnum 20, .jnum 30, .jnum 40])) := by
  refine ⟨gvvod_sC9_pass1, ?_, ?_⟩
  · rw [gvvod_sC9_pass1]
    exact gvvod_sC9_pass2
  · rw [gvvod_sC9_pass1, gvvod_sC9_pass2]
    intro h
    injection h with h1
    simp at h1

end JsonSchema
